import Mathlib

/-!
Verification of the LOOP/WHILE/GOTO interpreter and translator repository.

The WHILE evaluator (`src/while/interpreter.ts`) and the GOTO evaluator
(`src/goto/interpreter.ts`) are embedded faithfully below.  JavaScript
`Map<string, number>` objects are modelled as insertion-ordered association
lists (`VarMap`), `Set<string>` as duplicate-free lists, thrown exceptions as
`Except String`, and the `safetyCounter` guards of the two evaluators as
explicit fuel that starts at the value for which the source throws.
Arithmetic stays inside `Nat` because every operation of the source keeps the
values natural (literals are parsed digits, `+` is exact, `-` is clamped with
`Math.max(0, ...)`).

Console output behind the `verbose` flag is dropped: the flag gates only
`console.log` calls in the source, so it is decoded from the options argument
exactly as the source does and then passed to no further use.

The LOOP language, its evaluator, and the three translators live in files the
repository does not ship under `src/` (only their callers and tests do), so
those are modelled from the specification text; each such definition carries a
doc comment saying so.
-/

namespace LangIT

/-! ## JavaScript collection model

`VarMap` models `Map<string, number>`: an insertion-ordered list of key-value
pairs in which `set` overwrites in place and appends new keys, and `get`
returns the first (unique) binding. -/

/-- Insertion-ordered string-to-number map, as a JavaScript `Map`. -/
abbrev VarMap := List (String × Nat)

/-- First binding of a key, as `Map.get` (returning `undefined` as `none`). -/
def lookupKey : VarMap → String → Option Nat
  | [], _ => none
  | (k, v) :: rest, x => if k = x then some v else lookupKey rest x

/-- Whether the key is bound, as `Map.has`. -/
def hasKey (m : VarMap) (x : String) : Bool := (lookupKey m x).isSome

/-- Update-or-append, as `Map.set`: an existing key keeps its position, a new
key goes to the end. -/
def setVar : VarMap → String → Nat → VarMap
  | [], x, v => [(x, v)]
  | (k, w) :: rest, x, v =>
    if k = x then (k, v) :: rest else (k, w) :: setVar rest x v

/-- Add-if-absent, as `Set.add` on a `Set<string>`. -/
def addLock (locks : List String) (x : String) : List String :=
  if locks.contains x then locks else locks ++ [x]

/-! ## Abstract syntax shared by the WHILE and GOTO evaluators

Both `ast.ts` files declare the same expression and condition grammar; the
shapes below are the ones the two interpreters pattern-match on. -/

/-- Binary arithmetic operator: `+` or monus `-`. -/
inductive BinOp
  | add
  | sub
deriving DecidableEq, Repr

/-- Comparison operator of a condition. -/
inductive CmpOp
  | eq
  | ne
  | lt
  | gt
  | le
  | ge
deriving DecidableEq, Repr

/-- Expression: number literal, variable reference, or binary operation. -/
inductive Expression
  | num (value : Nat)
  | var (name : String)
  | binaryOp (operator : BinOp) (left : Expression) (right : Expression)
deriving DecidableEq, Repr

/-- Condition: a comparison of two expressions. -/
structure Condition where
  operator : CmpOp
  left : Expression
  right : Expression
deriving DecidableEq, Repr

/-! ## The options argument of `evaluate`

Both evaluators accept `options?: EvalOptions | Map<string, number>`; the
union and the optional fields are modelled verbatim. -/

/-- The `EvalOptions` object type of the two interpreter files. -/
structure EvalOptions where
  initialVariables : Option VarMap
  verbose : Option Bool
deriving Repr

/-- The union type `EvalOptions | Map<string, number>` of the second
parameter of `evaluate`. -/
inductive EvalArg
  | map (m : VarMap)
  | options (o : EvalOptions)
deriving Repr

/-- Decoding of the optional second argument of `evaluate`, exactly as both
interpreters do it: a bare `Map` is the initial variables with `verbose`
false; an options object contributes its fields with `verbose` defaulting to
false; an absent argument gives neither. -/
def decodeEvalArg : Option EvalArg → Option VarMap × Bool
  | some (.map m) => (some m, false)
  | some (.options o) => (o.initialVariables, o.verbose.getD false)
  | none => (none, false)

/-- Mutable interpreter state during one evaluation: the `variables` store and
the `lockedVariables` write-once set. -/
structure InterpState where
  vars : VarMap
  lockedVariables : List String
deriving Repr

/-- Loading of `initialVariables`: each supplied binding is written to the
store and its name is locked, in iteration order. -/
def loadInitialVariables : VarMap → InterpState → InterpState
  | [], s => s
  | (name, value) :: rest, s =>
    loadInitialVariables rest
      { vars := setVar s.vars name value
        lockedVariables := addLock s.lockedVariables name }

/-- Safety ceiling shared by both evaluators (`1_000_000` in the source). -/
def SAFETY_LIMIT : Nat := 1000000

end LangIT

namespace LangIT.WhileInterpreter

open LangIT

/-! ## The WHILE evaluator, from `src/while/interpreter.ts` -/

/-- WHILE statement: assignment, while loop, or if with optional else. -/
inductive Statement
  | assignment (target : String) (value : Expression)
  | whileStmt (condition : Condition) (body : List Statement)
  | ifStmt (condition : Condition) (thenBody : List Statement)
      (elseBody : Option (List Statement))

/-- WHILE program: a statement list. -/
structure Program where
  statements : List Statement

/-- Store read with default 0, as `getVariableValue` (`get(name) || 0`; a
stored 0 is falsy and also reads as 0). -/
def getVariableValue (store : VarMap) (name : String) : Nat :=
  (lookupKey store name).getD 0

/-- Expression evaluation of the WHILE interpreter (`evaluateExpression` and
`evaluateBinaryExpression`). -/
def evaluateExpression (store : VarMap) : Expression → Nat
  | .num value => value
  | .var name => getVariableValue store name
  | .binaryOp operator left right =>
    match operator with
    | .add => evaluateExpression store left + evaluateExpression store right
    | .sub => evaluateExpression store left - evaluateExpression store right

/-- Condition evaluation of the WHILE interpreter (`evaluateCondition`). -/
def evaluateCondition (store : VarMap) (condition : Condition) : Bool :=
  let left := evaluateExpression store condition.left
  let right := evaluateExpression store condition.right
  match condition.operator with
  | .eq => left == right
  | .ne => left != right
  | .lt => decide (left < right)
  | .gt => decide (left > right)
  | .le => decide (left ≤ right)
  | .ge => decide (left ≥ right)

/-- Diagnostic thrown by the WHILE interpreter when a loop passes the safety
counter. -/
def iterationLimitMessage : String :=
  "Infinite loop detected (safety limit: 1,000,000 iterations)"

mutual

/-- One statement of `executeStatement`.  An assignment to a locked variable
deletes the lock and leaves the store untouched; otherwise the store is
updated.  A while statement runs its guarded loop with the safety counter,
which throws once the counter value exceeds `SAFETY_LIMIT`, i.e. after
`SAFETY_LIMIT + 1` body runs.  An if statement evaluates its condition once
and runs the matching branch, if present. -/
def executeStatement : Statement → InterpState → Except String InterpState
  | .assignment target value, s =>
    let v := evaluateExpression s.vars value
    if s.lockedVariables.contains target then
      .ok { s with lockedVariables := s.lockedVariables.erase target }
    else
      .ok { s with vars := setVar s.vars target v }
  | .whileStmt condition body, s =>
    runWhileLoop condition body (SAFETY_LIMIT + 1) s
  | .ifStmt condition thenBody elseBody, s =>
    if evaluateCondition s.vars condition then
      executeStatements thenBody s
    else
      match elseBody with
      | some elseStatements => executeStatements elseStatements s
      | none => .ok s

/-- Sequential execution of a statement list (the `for` loops of the
source). -/
def executeStatements : List Statement → InterpState → Except String InterpState
  | [], s => .ok s
  | stmt :: rest, s => do
    let s' ← executeStatement stmt s
    executeStatements rest s'

/-- The `while (evaluateCondition ...)` loop of the source with its
`safetyCounter` expressed as remaining fuel: with fuel `n + 1` a true
condition runs the body once and continues with fuel `n`; with fuel 0 a true
condition throws the safety diagnostic; a false condition exits normally. -/
def runWhileLoop (condition : Condition) (body : List Statement) :
    Nat → InterpState → Except String InterpState
  | 0, s =>
    if evaluateCondition s.vars condition then
      .error iterationLimitMessage
    else
      .ok s
  | fuel + 1, s =>
    if evaluateCondition s.vars condition then do
      let s' ← executeStatements body s
      runWhileLoop condition body fuel s'
    else
      .ok s

end

/-- The public `evaluate` method: reset state, decode the options union, load
and lock the initial variables, run the statements, and return the variable
store.  The decoded `verbose` flag gates only `console.log` calls in the
source, so it is bound and not consumed. -/
def evaluate (program : Program) (options : Option EvalArg) :
    Except String VarMap := do
  let (initialVariables, _verbose) := decodeEvalArg options
  let s0 : InterpState := { vars := [], lockedVariables := [] }
  let s1 :=
    match initialVariables with
    | some iv => loadInitialVariables iv s0
    | none => s0
  let s2 ← executeStatements program.statements s1
  .ok s2.vars

end LangIT.WhileInterpreter

namespace LangIT.GotoInterpreter

open LangIT

/-! ## The GOTO evaluator, from `src/goto/interpreter.ts` -/

/-- GOTO statement: assignment, unconditional jump, conditional jump, halt. -/
inductive Statement
  | assignment (target : String) (value : Expression)
  | goto (label : String)
  | ifGoto (condition : Condition) (label : String)
  | halt
deriving DecidableEq, Repr

/-- GOTO instruction: an optional label and a statement. -/
structure Instruction where
  label : Option String
  statement : Statement
deriving DecidableEq, Repr

/-- GOTO program: an instruction list. -/
structure Program where
  instructions : List Instruction
deriving DecidableEq, Repr

/-- Store read with default 0 (`getVariableValue`, identical to the WHILE
interpreter's). -/
def getVariableValue (store : VarMap) (name : String) : Nat :=
  (lookupKey store name).getD 0

/-- Expression evaluation of the GOTO interpreter (`evaluateExpression` and
`evaluateBinaryExpression`, textually identical to the WHILE ones). -/
def evaluateExpression (store : VarMap) : Expression → Nat
  | .num value => value
  | .var name => getVariableValue store name
  | .binaryOp operator left right =>
    match operator with
    | .add => evaluateExpression store left + evaluateExpression store right
    | .sub => evaluateExpression store left - evaluateExpression store right

/-- Condition evaluation of the GOTO interpreter (`evaluateCondition`). -/
def evaluateCondition (store : VarMap) (condition : Condition) : Bool :=
  let left := evaluateExpression store condition.left
  let right := evaluateExpression store condition.right
  match condition.operator with
  | .eq => left == right
  | .ne => left != right
  | .lt => decide (left < right)
  | .gt => decide (left > right)
  | .le => decide (left ≤ right)
  | .ge => decide (left ≥ right)

/-- Diagnostic thrown by the GOTO interpreter when the instruction counter
passes the safety limit. -/
def stepLimitMessage : String :=
  "Infinite loop detected (safety limit: 1,000,000 steps)"

/-- Label-to-index map over `String` keys, a JavaScript `Map` like the
variable store (values are instruction indices). -/
abbrev LabelMap := List (String × Nat)

/-- The label-collection pass of `evaluate`: walk the instructions with their
indices; a present, non-empty label (the source tests `if (instr.label)`, so
an empty string is falsy and skipped) is added to the map, and a label seen
twice throws `Duplicate label`. -/
def buildLabelMap : List Instruction → Nat → LabelMap → Except String LabelMap
  | [], _, acc => .ok acc
  | instr :: rest, index, acc =>
    match instr.label with
    | some label =>
      if label ≠ "" then
        if hasKey acc label then
          .error ("Duplicate label: " ++ label)
        else
          buildLabelMap rest (index + 1) (acc ++ [(label, index)])
      else
        buildLabelMap rest (index + 1) acc
    | none => buildLabelMap rest (index + 1) acc

/-- Jump resolution (`getLabelIndex`): a missing label throws
`Undefined label`. -/
def getLabelIndex (labelMap : LabelMap) (label : String) : Except String Nat :=
  match lookupKey labelMap label with
  | some index => .ok index
  | none => .error ("Undefined label: " ++ label)

/-- The program-counter loop of `evaluate` with the `safetyCounter` expressed
as remaining fuel.  While `pc` addresses an instruction: with fuel 0 the
safety diagnostic is thrown, otherwise the instruction runs — an assignment
(with the write-once lock treatment) advances `pc` by 1, `goto` and a true
`ifGoto` set `pc` to the resolved label index, a false `ifGoto` advances by
1, and `halt` returns the store at once.  A `pc` past the end returns the
store. -/
def runFrom (instructions : List Instruction) (labelMap : LabelMap) :
    Nat → Nat → InterpState → Except String InterpState
  | 0, pc, s =>
    if pc < instructions.length then
      .error stepLimitMessage
    else
      .ok s
  | fuel + 1, pc, s =>
    if pc < instructions.length then
      match instructions[pc]? with
      | none => .ok s
      | some instr =>
        match instr.statement with
        | .assignment target value =>
          let v := evaluateExpression s.vars value
          if s.lockedVariables.contains target then
            runFrom instructions labelMap fuel (pc + 1)
              { s with lockedVariables := s.lockedVariables.erase target }
          else
            runFrom instructions labelMap fuel (pc + 1)
              { s with vars := setVar s.vars target v }
        | .goto label => do
          let targetIndex ← getLabelIndex labelMap label
          runFrom instructions labelMap fuel targetIndex s
        | .ifGoto condition label =>
          if evaluateCondition s.vars condition then do
            let targetIndex ← getLabelIndex labelMap label
            runFrom instructions labelMap fuel targetIndex s
          else
            runFrom instructions labelMap fuel (pc + 1) s
        | .halt => .ok s
    else
      .ok s

/-- The public `evaluate` method: reset state, decode the options union, load
and lock the initial variables, build the label map (which throws on a
duplicate label), then walk the program counter from 0 and return the
variable store.  The decoded `verbose` flag gates only `console.log` calls in
the source, so it is bound and not consumed. -/
def evaluate (program : Program) (options : Option EvalArg) :
    Except String VarMap := do
  let (initialVariables, _verbose) := decodeEvalArg options
  let s0 : InterpState := { vars := [], lockedVariables := [] }
  let s1 :=
    match initialVariables with
    | some iv => loadInitialVariables iv s0
    | none => s0
  let labelMap ← buildLabelMap program.instructions 0 []
  let s2 ← runFrom program.instructions labelMap (SAFETY_LIMIT + 1) 0 s1
  .ok s2.vars

end LangIT.GotoInterpreter

namespace LangIT

/-- Interpreter state right after option decoding and initial-variable
loading, as both `evaluate` methods construct it from cleared stores. -/
def initialStateOf (options : Option EvalArg) : InterpState :=
  match (decodeEvalArg options).1 with
  | some iv => loadInitialVariables iv ⟨[], []⟩
  | none => ⟨[], []⟩

/-- One `evaluate` call on a `WhileInterpreter` object, tracked at the level
of the object's fields.  The source keeps `variables` and `lockedVariables`
as instance fields: `evaluate` begins with `this.variables.clear()` and
`this.lockedVariables.clear()` (so the incoming field contents are discarded,
whatever they were), refills them, and ends with `return this.variables` —
handing the caller a reference to the instance's own map, not a copy.  A
successful call therefore leaves the instance holding exactly the run's final
state, and the value observed through any previously returned reference is
the instance's current `variables` content.  A run that throws propagates the
exception and returns no mapping (its intermediate field state is not
modelled; the theorems below only exercise successful calls). -/
def callOnInstance (inst : InterpState) (program : WhileInterpreter.Program)
    (options : Option EvalArg) : InterpState × Except String VarMap :=
  match WhileInterpreter.executeStatements program.statements
      (initialStateOf options) with
  | .ok s2 => (s2, .ok s2.vars)
  | .error e => (inst, .error e)

/-- Labels a GOTO program actually declares: the present, non-empty labels of
its instructions, in order (an empty-string label is falsy for the
interpreter's `if (instr.label)` test and never enters the label map). -/
def labelsOf (instructions : List GotoInterpreter.Instruction) : List String :=
  instructions.filterMap fun i =>
    match i.label with
    | some l => if l ≠ "" then some l else none
    | none => none

/-- Labels a GOTO program jumps to: the targets of its `goto` and `ifGoto`
statements. -/
def jumpTargets (instructions : List GotoInterpreter.Instruction) :
    List String :=
  instructions.filterMap fun i =>
    match i.statement with
    | .goto l => some l
    | .ifGoto _ l => some l
    | _ => none

/-- Write-once-lock invariant between an earlier and a later interpreter
state: every variable still locked later was locked before and kept its
value.  Instantiated by every statement, statement-list, loop and
program-counter step of the two evaluators. -/
def LockInv (s s' : InterpState) : Prop :=
  ∀ x, s'.lockedVariables.contains x = true →
    s.lockedVariables.contains x = true ∧
    lookupKey s'.vars x = lookupKey s.vars x

end LangIT

namespace LangIT.LoopInterpreter

open LangIT

/-! ## The LOOP evaluator

Modelled from the spec: the repository's `src/loop/interpreter.ts` is not
shipped under `src/` (only its callers and tests are).  Per spec section 3
the LOOP statements are assignments and `LOOP var DO body END`; per section
4.1 statements run in order, the loop evaluates `var` once at entry for a
count `n` and runs its body exactly `n` times regardless of later mutation,
initial variables are write-once locks, expressions and the evaluate
contract are those shared with the other evaluators, and every loop
construct enforces the fixed safety ceiling (modelled with the same counter
pattern as the shipped WHILE evaluator). -/

/-- Modelled from the spec: LOOP statement — assignment or
`LOOP var DO body END` (section 3). -/
inductive Statement
  | assignment (target : String) (value : Expression)
  | loop (control : String) (body : List Statement)

/-- Modelled from the spec: LOOP program — a statement list. -/
structure Program where
  statements : List Statement

/-- Modelled from the spec: diagnostic for an exceeded LOOP iteration
ceiling (the wording follows the shipped evaluators). -/
def iterationLimitMessage : String :=
  "Infinite loop detected (safety limit: 1,000,000 iterations)"

mutual

/-- Modelled from the spec: one LOOP statement.  Assignment applies the
write-once-lock treatment of section 4.1 (expressions evaluate as in the
shipped evaluators); `LOOP var DO body END` reads `var` once at entry and
runs the body exactly that many times under the safety counter. -/
def executeStatement : Statement → InterpState → Except String InterpState
  | .assignment target value, s =>
    let v := WhileInterpreter.evaluateExpression s.vars value
    if s.lockedVariables.contains target then
      .ok { s with lockedVariables := s.lockedVariables.erase target }
    else
      .ok { s with vars := setVar s.vars target v }
  | .loop control body, s =>
    runLoopBody body (WhileInterpreter.getVariableValue s.vars control) 0 s

/-- Modelled from the spec: sequential execution of a LOOP statement
list. -/
def executeStatements : List Statement → InterpState → Except String InterpState
  | [], s => .ok s
  | stmt :: rest, s => do
    let s' ← executeStatement stmt s
    executeStatements rest s'

/-- Modelled from the spec: run the loop body `remaining` more times; the
safety counter value of the upcoming iteration throws the ceiling
diagnostic once it exceeds `SAFETY_LIMIT`. -/
def runLoopBody (body : List Statement) :
    Nat → Nat → InterpState → Except String InterpState
  | 0, _, s => .ok s
  | remaining + 1, counter, s =>
    if counter > SAFETY_LIMIT then
      .error iterationLimitMessage
    else do
      let s' ← executeStatements body s
      runLoopBody body remaining (counter + 1) s'

end

/-- Modelled from the spec: the LOOP `evaluate` contract of section 4.1,
with the same options decoding and write-once-lock loading as the shipped
evaluators. -/
def evaluate (program : Program) (options : Option EvalArg) :
    Except String VarMap := do
  let s2 ← executeStatements program.statements (initialStateOf options)
  .ok s2.vars

end LangIT.LoopInterpreter

namespace LangIT

/-! ## Fresh-name allocation (spec section 4.2)

Modelled from the spec: the shared fresh-name utility is not shipped under
`src/`.  Names already in use are collected by one scan of the whole source
AST, and candidates are synthesized from a monotonically increasing counter
until one is free; the counter is threaded through the recursion of a
translation call so sibling allocations never collide. -/

/-- Modelled from the spec: the candidate name synthesized for counter
value `k` (an injective, counter-indexed family). -/
def freshCandidate (k : Nat) : String := String.mk (List.replicate (k + 1) 'z')

/-- Modelled from the spec: scan candidates from the current counter until
one is absent from the in-use set; the fuel is a bound on the scan length
(pigeonhole: `used.length + 1` distinct candidates cannot all be in
`used`). -/
def freshNameAux : Nat → List String → Nat → String × Nat
  | 0, _, k => (freshCandidate k, k + 1)
  | fuel + 1, used, k =>
    if freshCandidate k ∈ used then freshNameAux fuel used (k + 1)
    else (freshCandidate k, k + 1)

/-- Modelled from the spec: allocate one fresh name for counter `k` against
the in-use set, returning the name and the next counter. -/
def freshName (used : List String) (k : Nat) : String × Nat :=
  freshNameAux (used.length + 1) used k

/-- Variable names occurring in an expression. -/
def expressionVars : Expression → List String
  | .num _ => []
  | .var name => [name]
  | .binaryOp _ left right => expressionVars left ++ expressionVars right

/-- Variable names occurring in a condition. -/
def conditionVars (c : Condition) : List String :=
  expressionVars c.left ++ expressionVars c.right

mutual

/-- Modelled from the spec: the one-pass scan collecting every identifier a
LOOP statement uses, nested bodies included. -/
def loopStatementVars : LoopInterpreter.Statement → List String
  | .assignment target value => target :: expressionVars value
  | .loop control body => control :: loopStatementsVars body

/-- Modelled from the spec: identifier scan over a LOOP statement list. -/
def loopStatementsVars : List LoopInterpreter.Statement → List String
  | [] => []
  | stmt :: rest => loopStatementVars stmt ++ loopStatementsVars rest

end

end LangIT

namespace LangIT.LoopToWhileTranslator

open LangIT

/-! ## The LOOP-to-WHILE translator (spec section 4.3)

Modelled from the spec: `src/translators/loopToWhile.ts` is not shipped
under `src/`.  Non-loop statements copy unchanged; `LOOP var DO body END`
allocates a fresh counter `c` disjoint from every name used anywhere in the
program and from every other allocation of the call, and becomes
`c := var; WHILE c != 0 DO <translated body>; c := c - 1 END`. -/

/-- Modelled from the spec: translate a LOOP statement list, threading the
fresh-name counter through the recursion. -/
def translateStatements (used : List String) :
    List LoopInterpreter.Statement → Nat →
    List WhileInterpreter.Statement × Nat
  | [], k => ([], k)
  | .assignment target value :: rest, k =>
    let (rest2, k2) := translateStatements used rest k
    (.assignment target value :: rest2, k2)
  | .loop control body :: rest, k =>
    let (c, k1) := freshName used k
    let (body2, k2) := translateStatements used body k1
    let (rest2, k3) := translateStatements used rest k2
    (.assignment c (.var control) ::
      .whileStmt ⟨.ne, .var c, .num 0⟩
        (body2 ++ [.assignment c (.binaryOp .sub (.var c) (.num 1))]) ::
      rest2, k3)

/-- Modelled from the spec: the `translate` entry point — scan the program
once for its in-use names, then translate its statements from counter 0. -/
def translate (program : LoopInterpreter.Program) :
    WhileInterpreter.Program :=
  ⟨(translateStatements (loopStatementsVars program.statements)
    program.statements 0).1⟩

end LangIT.LoopToWhileTranslator

namespace LangIT.WhileInterpreter

open LangIT

mutual

/-- Assignment targets occurring anywhere in a WHILE statement, loop and
branch bodies included: the only names whose store value or lock an
execution can change. -/
def assignedVars : Statement → List String
  | .assignment target _ => [target]
  | .whileStmt _ body => assignedVarsList body
  | .ifStmt _ thenBody elseBody =>
    assignedVarsList thenBody ++
      (match elseBody with
        | some elseStatements => assignedVarsList elseStatements
        | none => [])

/-- Assignment targets of a WHILE statement list. -/
def assignedVarsList : List Statement → List String
  | [] => []
  | stmt :: rest => assignedVars stmt ++ assignedVarsList rest

end

end LangIT.WhileInterpreter

namespace LangIT

/-- A name the fresh-name allocator could introduce for the given in-use
set: a counter candidate that is not among the used names. -/
def introducible (used : List String) (x : String) : Prop :=
  ∃ j, x = freshCandidate j ∧ x ∉ used

/-- Simulation relation for the LOOP-to-WHILE proof: the WHILE-side state
agrees with the LOOP-side state on every name the translator could not have
introduced, the lock sets coincide, and no lock is held on an introducible
name. -/
def LoopSimRel (used : List String) (σ τ : InterpState) : Prop :=
  τ.lockedVariables = σ.lockedVariables ∧
  (∀ x ∈ τ.lockedVariables, ¬ introducible used x) ∧
  (∀ x, ¬ introducible used x → lookupKey τ.vars x = lookupKey σ.vars x)

end LangIT

namespace LangIT

/-- Modelled from the spec: negation of a condition by flipping its
comparison operator (section 4.4), rather than introducing a boolean
value. -/
def negateOp : CmpOp → CmpOp
  | .eq => .ne
  | .ne => .eq
  | .lt => .ge
  | .ge => .lt
  | .gt => .le
  | .le => .gt

/-- Modelled from the spec: `NOT(cond)` with the operator negated. -/
def negateCondition (c : Condition) : Condition :=
  ⟨negateOp c.operator, c.left, c.right⟩

/-- Modelled from the spec: the label synthesized for counter value `k` by
the fresh-label allocator (an injective, counter-indexed family; a WHILE
program contains no labels, so every candidate is free). -/
def labelCandidate (k : Nat) : String :=
  String.mk (List.replicate (k + 1) 'M')

/-- Modelled from the spec: attach the outstanding dangling labels to the
next emitted instruction.  One dangling label is attached directly; when
several labels dangle at the same point (nested constructs ending
together — left open by the spec, which only requires every referenced
label to resolve to an instruction), each extra label is anchored on an
unconditional jump to the next one, so all of them reach the instruction. -/
def attach : List String → GotoInterpreter.Statement →
    List GotoInterpreter.Instruction
  | [], stmt => [⟨none, stmt⟩]
  | [l], stmt => [⟨some l, stmt⟩]
  | l1 :: l2 :: rest, stmt => ⟨some l1, .goto l2⟩ :: attach (l2 :: rest) stmt

end LangIT

namespace LangIT.WhileToGotoTranslator

open LangIT

/-! ## The WHILE-to-GOTO translator (spec section 4.4)

Modelled from the spec: `src/translators/whileToGoto.ts` is not shipped
under `src/`.  Structured statements are flattened into a labeled
instruction sequence: an assignment is one instruction; a while loop
becomes `Lstart: IF NOT(cond) THEN GOTO Lend`, the flattened body and an
unconditional jump back to `Lstart`, with `Lend` left dangling for the next
instruction; `IF` emits `IF NOT(cond) THEN GOTO Lend` (or `GOTO Lelse` with
an else branch) with the branch bodies flattened in sequence; the label
counter is threaded through the whole recursion, and a trailing `HALT` is
appended so every path terminates and every dangling label is anchored. -/

/-- Modelled from the spec: flatten a statement list.  `pending` carries the
labels dangling at the current emission point; the result is the emitted
code, the labels still dangling after it, and the next label counter. -/
def flattenStatements : List WhileInterpreter.Statement → List String →
    Nat → List GotoInterpreter.Instruction × List String × Nat
  | [], pending, k => ([], pending, k)
  | .assignment target value :: rest, pending, k =>
    let (restCode, restPending, k1) := flattenStatements rest [] k
    (attach pending (.assignment target value) ++ restCode, restPending, k1)
  | .whileStmt c body :: rest, pending, k =>
    let lstart := labelCandidate k
    let lend := labelCandidate (k + 1)
    let (bodyCode, bodyPending, k1) := flattenStatements body [] (k + 2)
    let (restCode, restPending, k2) := flattenStatements rest [lend] k1
    (attach (pending ++ [lstart]) (.ifGoto (negateCondition c) lend) ++
      bodyCode ++ attach bodyPending (.goto lstart) ++ restCode,
     restPending, k2)
  | .ifStmt c thenB none :: rest, pending, k =>
    let lend := labelCandidate k
    let (thenCode, thenPending, k1) := flattenStatements thenB [] (k + 1)
    let (restCode, restPending, k2) :=
      flattenStatements rest (thenPending ++ [lend]) k1
    (attach pending (.ifGoto (negateCondition c) lend) ++ thenCode ++
      restCode, restPending, k2)
  | .ifStmt c thenB (some elseB) :: rest, pending, k =>
    let lelse := labelCandidate k
    let lend := labelCandidate (k + 1)
    let (thenCode, thenPending, k1) := flattenStatements thenB [] (k + 2)
    let (elseCode, elsePending, k2) := flattenStatements elseB [lelse] k1
    let (restCode, restPending, k3) :=
      flattenStatements rest (elsePending ++ [lend]) k2
    (attach pending (.ifGoto (negateCondition c) lelse) ++ thenCode ++
      attach thenPending (.goto lend) ++ elseCode ++ restCode,
     restPending, k3)

/-- Modelled from the spec: the `translate` entry point — flatten the
program from label counter 0 and append the terminal `HALT`, anchoring any
labels still dangling. -/
def translate (program : WhileInterpreter.Program) : GotoInterpreter.Program :=
  let (code, pending, _) := flattenStatements program.statements [] 0
  ⟨code ++ attach pending .halt⟩

end LangIT.WhileToGotoTranslator

namespace LangIT

/-- The instruction list `code` occupies positions `i, i+1, ...` of the
full program `P`. -/
def fragmentAt (P : List GotoInterpreter.Instruction) (i : Nat)
    (code : List GotoInterpreter.Instruction) : Prop :=
  ∀ n, n < code.length → P[i + n]? = code[n]?

/-- Every label attached inside `code` resolves in the label map to its
global position. -/
def labelsResolveAt (lm : GotoInterpreter.LabelMap) (i : Nat)
    (code : List GotoInterpreter.Instruction) : Prop :=
  ∀ n instr, code[n]? = some instr →
    ∀ l, instr.label = some l → lookupKey lm l = some (i + n)

/-- Fuel-insensitive simulation reachability on the GOTO side: from
`(p1, s1)` the run either proceeds exactly as the run from `(p2, s2)` on no
more fuel, or aborts on the step ceiling. -/
def SimReach (P : List GotoInterpreter.Instruction)
    (lm : GotoInterpreter.LabelMap) (p1 : Nat) (s1 : InterpState)
    (p2 : Nat) (s2 : InterpState) : Prop :=
  ∀ fuel, (∃ fuel', fuel' ≤ fuel ∧
      GotoInterpreter.runFrom P lm fuel p1 s1 =
        GotoInterpreter.runFrom P lm fuel' p2 s2) ∨
    GotoInterpreter.runFrom P lm fuel p1 s1 =
      .error GotoInterpreter.stepLimitMessage

end LangIT

namespace LangIT

/-- Variable names used by one GOTO statement (labels are not variables). -/
def gotoStatementVars : GotoInterpreter.Statement → List String
  | .assignment target value => target :: expressionVars value
  | .goto _ => []
  | .ifGoto c _ => conditionVars c
  | .halt => []

/-- The one-pass scan collecting every variable a GOTO program uses. -/
def gotoInstructionsVars : List GotoInterpreter.Instruction → List String
  | [] => []
  | instr :: rest =>
    gotoStatementVars instr.statement ++ gotoInstructionsVars rest

end LangIT

namespace LangIT.GotoToWhileTranslator

open LangIT

/-! ## The GOTO-to-WHILE translator (spec section 4.5)

Modelled from the spec: `src/translators/gotoToWhile.ts` is not shipped
under `src/`.  The program counter is simulated as data: instructions are
indexed `0 .. n-1`, a fresh counter variable `pc` (spec section 4.2
allocator over the program's variables) starts at 0, the whole program is
one `WHILE pc != n` loop whose body is an `IF pc = 0 / ELSE IF pc = 1 / ...`
dispatch chain, each instruction updating `pc` — assignment keeps its
statement and increments `pc`, `goto` sets `pc` to the target's index, a
conditional jump picks index or increment, and `HALT` sets `pc` to the
sentinel `n`.  The final `ELSE` of the chain is unreachable and carries no
statements. -/

/-- Modelled from the spec: the translator's label-to-index pass (the same
walk as the evaluator's, but total — on a program the evaluator accepts the
duplicate branch is never taken). -/
def collectLabels : List GotoInterpreter.Instruction → Nat →
    GotoInterpreter.LabelMap → GotoInterpreter.LabelMap
  | [], _, acc => acc
  | instr :: rest, index, acc =>
    match instr.label with
    | some label =>
      if label ≠ "" then
        if hasKey acc label then
          collectLabels rest (index + 1) acc
        else
          collectLabels rest (index + 1) (acc ++ [(label, index)])
      else
        collectLabels rest (index + 1) acc
    | none => collectLabels rest (index + 1) acc

/-- Modelled from the spec: the instruction index a jump target denotes
(only resolvable targets are ever exercised on programs the evaluator
accepts; the default is the halting sentinel). -/
def targetIndex (lm : GotoInterpreter.LabelMap) (n : Nat)
    (label : String) : Nat :=
  (lookupKey lm label).getD n

/-- Modelled from the spec: the per-instruction effect and `pc` update
(section 4.5 step 4). -/
def instructionBody (pc : String) (lm : GotoInterpreter.LabelMap) (n : Nat) :
    GotoInterpreter.Statement → List WhileInterpreter.Statement
  | .assignment target value =>
    [.assignment target value,
     .assignment pc (.binaryOp .add (.var pc) (.num 1))]
  | .goto label => [.assignment pc (.num (targetIndex lm n label))]
  | .ifGoto c label =>
    [.ifStmt c [.assignment pc (.num (targetIndex lm n label))]
      (some [.assignment pc (.binaryOp .add (.var pc) (.num 1))])]
  | .halt => [.assignment pc (.num n)]

/-- Modelled from the spec: the `IF pc=0 THEN ... ELSE IF pc=1 THEN ...`
dispatch chain over all indices, with an unreachable empty final else. -/
def dispatch (pc : String) (lm : GotoInterpreter.LabelMap) (n : Nat) :
    List GotoInterpreter.Instruction → Nat → List WhileInterpreter.Statement
  | [], _ => []
  | instr :: rest, index =>
    [.ifStmt ⟨.eq, .var pc, .num index⟩
      (instructionBody pc lm n instr.statement)
      (some (dispatch pc lm n rest (index + 1)))]

/-- Modelled from the spec: the `translate` entry point — fresh `pc`, label
map, `pc := 0` and the single dispatching WHILE loop. -/
def translate (program : GotoInterpreter.Program) :
    WhileInterpreter.Program :=
  let used := gotoInstructionsVars program.instructions
  let pc := (freshName used 0).1
  let lm := collectLabels program.instructions 0 []
  let n := program.instructions.length
  ⟨[.assignment pc (.num 0),
    .whileStmt ⟨.ne, .var pc, .num n⟩
      (dispatch pc lm n program.instructions 0)]⟩

end LangIT.GotoToWhileTranslator

namespace LangIT

/-- The 6 times 2 nested-loop LOOP program of the cited pipeline test:
x0 := 6; x1 := 2; x2 := 0; LOOP x0 DO LOOP x1 DO x2 := x2 + 1 END END. -/
def pipelineTestProgram : LoopInterpreter.Program :=
  ⟨[.assignment "x0" (.num 6),
    .assignment "x1" (.num 2),
    .assignment "x2" (.num 0),
    .loop "x0" [.loop "x1" [.assignment "x2"
      (.binaryOp .add (.var "x2") (.num 1))]]]⟩

/-- A LOOP program whose translation to WHILE uses the fresh counter name
"z": x0 := 2; x1 := 0; LOOP x0 DO x1 := x1 + 1 END. -/
def pinnedFreshProgram : LoopInterpreter.Program :=
  ⟨[.assignment "x0" (.num 2),
    .assignment "x1" (.num 0),
    .loop "x0" [.assignment "x1" (.binaryOp .add (.var "x1") (.num 1))]]⟩

end LangIT

-- ======================= THEOREMS =======================

namespace LangIT

/-- Claim C6: for every program and every initial variable mapping, evaluating
with the verbose option enabled returns exactly the same final variable
mapping (and the same error outcome) as evaluating with verbose disabled, for
both the WHILE and the GOTO evaluator. -/
theorem C6_verbose_never_affects_result :
    (∀ (program : WhileInterpreter.Program) (iv : Option VarMap)
        (b b' : Option Bool),
      WhileInterpreter.evaluate program (some (.options ⟨iv, b⟩)) =
        WhileInterpreter.evaluate program (some (.options ⟨iv, b'⟩))) ∧
    (∀ (program : GotoInterpreter.Program) (iv : Option VarMap)
        (b b' : Option Bool),
      GotoInterpreter.evaluate program (some (.options ⟨iv, b⟩)) =
        GotoInterpreter.evaluate program (some (.options ⟨iv, b'⟩))) := by
  constructor
  · intro program iv b b'
    rfl
  · intro program iv b b'
    rfl

/-- Claim C8: every call to the WHILE evaluator and every call to the GOTO
evaluator terminates, either returning a complete variable mapping or raising
an error.  Totality itself is witnessed by `evaluate` being accepted as a
terminating Lean function (the loop constructs recurse on the safety fuel and
everything else on the AST); this theorem states the two possible shapes of
the result. -/
theorem C8_evaluation_terminates :
    (∀ (program : WhileInterpreter.Program) (options : Option EvalArg),
      (∃ m, WhileInterpreter.evaluate program options = .ok m) ∨
      (∃ e, WhileInterpreter.evaluate program options = .error e)) ∧
    (∀ (program : GotoInterpreter.Program) (options : Option EvalArg),
      (∃ m, GotoInterpreter.evaluate program options = .ok m) ∨
      (∃ e, GotoInterpreter.evaluate program options = .error e)) := by
  constructor
  · intro program options
    cases h : WhileInterpreter.evaluate program options with
    | ok m => exact .inl ⟨m, rfl⟩
    | error e => exact .inr ⟨e, rfl⟩
  · intro program options
    cases h : GotoInterpreter.evaluate program options with
    | ok m => exact .inl ⟨m, rfl⟩
    | error e => exact .inr ⟨e, rfl⟩

/-- Claim C9: expression evaluation is over naturals and total: a variable
reference reads 0 when the variable is unset, `+` returns the exact sum, and
`-` is monus, `max(0, a − b)`, so no evaluation ever produces a negative
value; and the WHILE and GOTO evaluators evaluate expressions identically. -/
theorem C9_expression_evaluation :
    (∀ (store : VarMap) (e : Expression),
      WhileInterpreter.evaluateExpression store e =
        GotoInterpreter.evaluateExpression store e) ∧
    (∀ (store : VarMap) (name : String), lookupKey store name = none →
      WhileInterpreter.evaluateExpression store (.var name) = 0) ∧
    (∀ (store : VarMap) (l r : Expression),
      WhileInterpreter.evaluateExpression store (.binaryOp .add l r) =
        WhileInterpreter.evaluateExpression store l +
        WhileInterpreter.evaluateExpression store r) ∧
    (∀ (store : VarMap) (l r : Expression),
      (WhileInterpreter.evaluateExpression store (.binaryOp .sub l r) : ℤ) =
        max 0 ((WhileInterpreter.evaluateExpression store l : ℤ) -
          (WhileInterpreter.evaluateExpression store r : ℤ))) ∧
    (∀ (store : VarMap) (e : Expression),
      (0 : ℤ) ≤ (WhileInterpreter.evaluateExpression store e : ℤ)) := by
  refine ⟨?_, ?_, ?_, ?_, ?_⟩
  · intro store e
    induction e with
    | num value => rfl
    | var name => rfl
    | binaryOp operator left right ihl ihr =>
      cases operator <;>
        simp [WhileInterpreter.evaluateExpression,
          GotoInterpreter.evaluateExpression, ihl, ihr]
  · intro store name h
    simp [WhileInterpreter.evaluateExpression,
      WhileInterpreter.getVariableValue, h]
  · intro store l r
    rfl
  · intro store l r
    have h :
        WhileInterpreter.evaluateExpression store (.binaryOp .sub l r) =
          WhileInterpreter.evaluateExpression store l -
          WhileInterpreter.evaluateExpression store r := rfl
    rw [h]
    omega
  · intro store e
    exact Int.natCast_nonneg _

/-- Witness for C9 at concrete inputs, discharging the unset-variable
hypothesis on the empty store. -/
theorem C9_expression_evaluation_witness :
    WhileInterpreter.evaluateExpression [] (.var "x0") = 0 :=
  C9_expression_evaluation.2.1 [] "x0" rfl

/-- Claim C10: the second argument of `evaluate` may be an options object, a
bare map, or omitted: a bare map acts as the initial (write-once-lock)
variables with verbose disabled, an omitted argument means no pinned
variables and verbose disabled, and all call forms agree on the result for
the same initial variables, for both evaluators. -/
theorem C10_options_argument_forms :
    (∀ (program : WhileInterpreter.Program) (m : VarMap) (b : Option Bool),
      WhileInterpreter.evaluate program (some (.map m)) =
        WhileInterpreter.evaluate program
          (some (.options ⟨some m, some false⟩)) ∧
      WhileInterpreter.evaluate program (some (.map m)) =
        WhileInterpreter.evaluate program (some (.options ⟨some m, b⟩)) ∧
      WhileInterpreter.evaluate program none =
        WhileInterpreter.evaluate program (some (.options ⟨none, b⟩)) ∧
      WhileInterpreter.evaluate program none =
        WhileInterpreter.evaluate program (some (.options ⟨some [], b⟩))) ∧
    (∀ (program : GotoInterpreter.Program) (m : VarMap) (b : Option Bool),
      GotoInterpreter.evaluate program (some (.map m)) =
        GotoInterpreter.evaluate program
          (some (.options ⟨some m, some false⟩)) ∧
      GotoInterpreter.evaluate program (some (.map m)) =
        GotoInterpreter.evaluate program (some (.options ⟨some m, b⟩)) ∧
      GotoInterpreter.evaluate program none =
        GotoInterpreter.evaluate program (some (.options ⟨none, b⟩)) ∧
      GotoInterpreter.evaluate program none =
        GotoInterpreter.evaluate program (some (.options ⟨some [], b⟩))) := by
  exact ⟨fun program m b => ⟨rfl, rfl, rfl, rfl⟩,
    fun program m b => ⟨rfl, rfl, rfl, rfl⟩⟩

end LangIT


namespace LangIT

/-! ## Store and lock helper lemmas -/

theorem lookupKey_setVar_self (m : VarMap) (x : String) (v : Nat) :
    lookupKey (setVar m x v) x = some v := by
  induction m with
  | nil => simp [setVar, lookupKey]
  | cons kv rest ih =>
    obtain ⟨k, w⟩ := kv
    by_cases h : k = x
    · subst h
      simp [setVar, lookupKey]
    · simp [setVar, lookupKey, h, ih]

theorem lookupKey_setVar_ne (m : VarMap) (x y : String) (v : Nat)
    (h : x ≠ y) : lookupKey (setVar m y v) x = lookupKey m x := by
  induction m with
  | nil => simp [setVar, lookupKey, Ne.symm h]
  | cons kv rest ih =>
    obtain ⟨k, w⟩ := kv
    by_cases hk : k = y
    · subst hk
      simp [setVar, lookupKey, Ne.symm h]
    · simp [setVar, lookupKey, hk, ih]

theorem lockInv_refl (s : InterpState) : LockInv s s :=
  fun _ h => ⟨h, rfl⟩

theorem lockInv_trans {s₁ s₂ s₃ : InterpState} (h₁ : LockInv s₁ s₂)
    (h₂ : LockInv s₂ s₃) : LockInv s₁ s₃ := by
  intro x hx
  obtain ⟨hm, hv⟩ := h₂ x hx
  obtain ⟨hm', hv'⟩ := h₁ x hm
  exact ⟨hm', hv.trans hv'⟩

theorem lockInv_erase (s : InterpState) (t : String) :
    LockInv s { s with lockedVariables := s.lockedVariables.erase t } := by
  intro x hx
  refine ⟨?_, rfl⟩
  have hx' : x ∈ s.lockedVariables.erase t := by simpa using hx
  simpa using List.mem_of_mem_erase hx'

theorem lockInv_setVar (s : InterpState) (t : String) (v : Nat)
    (ht : s.lockedVariables.contains t = false) :
    LockInv s { s with vars := setVar s.vars t v } := by
  intro x hx
  have hx' : x ∈ s.lockedVariables := by simpa using hx
  have ht' : t ∉ s.lockedVariables := by simpa using ht
  refine ⟨hx, lookupKey_setVar_ne _ _ _ _ ?_⟩
  intro e
  subst e
  exact ht' hx'

/-! ## The write-once-lock invariant across the WHILE evaluator -/

theorem while_executeStatement_lockInv :
    ∀ (stmt : WhileInterpreter.Statement) (s s' : InterpState),
      WhileInterpreter.executeStatement stmt s = .ok s' → LockInv s s' := by
  apply WhileInterpreter.executeStatement.induct
    (fun stmt s => ∀ s',
      WhileInterpreter.executeStatement stmt s = .ok s' → LockInv s s')
    (fun l s => ∀ s',
      WhileInterpreter.executeStatements l s = .ok s' → LockInv s s')
    (fun c b fuel s => ∀ s',
      WhileInterpreter.runWhileLoop c b fuel s = .ok s' → LockInv s s')
  · intro target value s hlock s' h
    simp only [WhileInterpreter.executeStatement, hlock, if_true] at h
    cases h
    exact lockInv_erase s target
  · intro target value s hlock s' h
    simp only [Bool.not_eq_true] at hlock
    simp only [WhileInterpreter.executeStatement, hlock, Bool.false_eq_true,
      if_false] at h
    cases h
    exact lockInv_setVar s target _ hlock
  · intro condition body s ih s' h
    simp only [WhileInterpreter.executeStatement] at h
    exact ih s' h
  · intro condition thenBody elseBody s hc ih s' h
    rw [WhileInterpreter.executeStatement.eq_def] at h
    simp only [hc, if_true] at h
    exact ih s' h
  · intro condition thenBody s hc elseStatements ih s' h
    simp only [Bool.not_eq_true] at hc
    simp only [WhileInterpreter.executeStatement, hc, Bool.false_eq_true,
      if_false] at h
    exact ih s' h
  · intro condition thenBody s hc s' h
    simp only [Bool.not_eq_true] at hc
    simp only [WhileInterpreter.executeStatement, hc, Bool.false_eq_true,
      if_false] at h
    cases h
    exact lockInv_refl s
  · intro s s' h
    simp only [WhileInterpreter.executeStatements] at h
    cases h
    exact lockInv_refl s
  · intro stmt rest s ih1 ih2 s' h
    simp only [WhileInterpreter.executeStatements] at h
    cases hstep : WhileInterpreter.executeStatement stmt s with
    | ok s₁ =>
      rw [hstep] at h
      exact lockInv_trans (ih1 s₁ hstep) (ih2 s₁ s' h)
    | error e =>
      rw [hstep] at h
      exact Except.noConfusion h
  · intro condition body s hc s' h
    simp only [WhileInterpreter.runWhileLoop, hc, if_true] at h
    exact Except.noConfusion h
  · intro condition body s hc s' h
    simp only [Bool.not_eq_true] at hc
    simp only [WhileInterpreter.runWhileLoop, hc, Bool.false_eq_true,
      if_false] at h
    cases h
    exact lockInv_refl s
  · intro condition body fuel s hc ihBody ihLoop s' h
    simp only [WhileInterpreter.runWhileLoop, hc, if_true] at h
    cases hstep : WhileInterpreter.executeStatements body s with
    | ok s₁ =>
      rw [hstep] at h
      exact lockInv_trans (ihBody s₁ hstep) (ihLoop s₁ s' h)
    | error e =>
      rw [hstep] at h
      exact Except.noConfusion h
  · intro condition body fuel s hc s' h
    simp only [Bool.not_eq_true] at hc
    simp only [WhileInterpreter.runWhileLoop, hc, Bool.false_eq_true,
      if_false] at h
    cases h
    exact lockInv_refl s

theorem while_executeStatements_lockInv
    (l : List WhileInterpreter.Statement) (s s' : InterpState)
    (h : WhileInterpreter.executeStatements l s = .ok s') : LockInv s s' := by
  induction l generalizing s with
  | nil =>
    simp only [WhileInterpreter.executeStatements] at h
    cases h
    exact lockInv_refl s'
  | cons stmt rest ih =>
    simp only [WhileInterpreter.executeStatements] at h
    cases hstep : WhileInterpreter.executeStatement stmt s with
    | ok s₁ =>
      rw [hstep] at h
      exact lockInv_trans (while_executeStatement_lockInv stmt s s₁ hstep)
        (ih s₁ h)
    | error e =>
      rw [hstep] at h
      exact Except.noConfusion h

end LangIT

namespace LangIT

/-! ## The write-once-lock invariant across the GOTO evaluator -/

theorem goto_runFrom_lockInv (instructions : List GotoInterpreter.Instruction)
    (lm : GotoInterpreter.LabelMap) :
    ∀ (fuel pc : Nat) (s s' : InterpState),
      GotoInterpreter.runFrom instructions lm fuel pc s = .ok s' →
      LockInv s s' := by
  intro fuel
  induction fuel with
  | zero =>
    intro pc s s' h
    rw [GotoInterpreter.runFrom] at h
    by_cases hpc : pc < instructions.length
    · rw [if_pos hpc] at h
      exact Except.noConfusion h
    · rw [if_neg hpc] at h
      cases h
      exact lockInv_refl _
  | succ fuel ih =>
    intro pc s s' h
    rw [GotoInterpreter.runFrom] at h
    by_cases hpc : pc < instructions.length
    · rw [if_pos hpc] at h
      cases hinstr : instructions[pc]? with
      | none =>
        rw [hinstr] at h
        simp only at h
        cases h
        exact lockInv_refl _
      | some instr =>
        rw [hinstr] at h
        obtain ⟨lbl, stmt⟩ := instr
        cases stmt with
        | assignment target value =>
          simp only at h
          by_cases hlock : s.lockedVariables.contains target = true
          · simp only [hlock, if_true] at h
            exact lockInv_trans (lockInv_erase s target) (ih (pc + 1) _ s' h)
          · simp only [Bool.not_eq_true] at hlock
            simp only [hlock, Bool.false_eq_true, if_false] at h
            exact lockInv_trans (lockInv_setVar s target _ hlock)
              (ih (pc + 1) _ s' h)
        | goto label =>
          simp only at h
          cases hres : GotoInterpreter.getLabelIndex lm label with
          | ok j =>
            rw [hres] at h
            exact ih j s s' h
          | error e =>
            rw [hres] at h
            exact Except.noConfusion h
        | ifGoto condition label =>
          simp only at h
          by_cases hc : GotoInterpreter.evaluateCondition s.vars condition = true
          · simp only [hc, if_true] at h
            cases hres : GotoInterpreter.getLabelIndex lm label with
            | ok j =>
              rw [hres] at h
              exact ih j s s' h
            | error e =>
              rw [hres] at h
              exact Except.noConfusion h
          · simp only [Bool.not_eq_true] at hc
            simp only [hc, Bool.false_eq_true, if_false] at h
            exact ih (pc + 1) s s' h
        | halt =>
          simp only at h
          cases h
          exact lockInv_refl _
    · rw [if_neg hpc] at h
      cases h
      exact lockInv_refl _

/-! ## Loading of initial variables -/

theorem contains_addLock_self (l : List String) (k : String) :
    (addLock l k).contains k = true := by
  by_cases h : k ∈ l <;> simp [addLock, h]

theorem contains_addLock_ne (l : List String) (k x : String) (h : x ≠ k) :
    (addLock l k).contains x = l.contains x := by
  by_cases hk : k ∈ l <;> simp [addLock, hk, h]

theorem loadInitialVariables_not_mem (iv : VarMap) (x : String)
    (hx : x ∉ iv.map Prod.fst) :
    ∀ s : InterpState,
      lookupKey (loadInitialVariables iv s).vars x = lookupKey s.vars x ∧
      (loadInitialVariables iv s).lockedVariables.contains x =
        s.lockedVariables.contains x := by
  induction iv with
  | nil => intro s; exact ⟨rfl, rfl⟩
  | cons kv rest ih =>
    obtain ⟨k, v⟩ := kv
    intro s
    simp only [List.map_cons, List.mem_cons] at hx
    push_neg at hx
    obtain ⟨hxk, hxrest⟩ := hx
    rw [loadInitialVariables]
    obtain ⟨h1, h2⟩ := ih hxrest
      { vars := setVar s.vars k v
        lockedVariables := addLock s.lockedVariables k }
    refine ⟨?_, ?_⟩
    · rw [h1]
      exact lookupKey_setVar_ne _ _ _ _ hxk
    · rw [h2]
      exact contains_addLock_ne _ _ _ hxk

theorem loadInitialVariables_pins (iv : VarMap)
    (hnd : (iv.map Prod.fst).Nodup) (x : String) (v : Nat)
    (hx : lookupKey iv x = some v) :
    ∀ s : InterpState,
      lookupKey (loadInitialVariables iv s).vars x = some v ∧
      (loadInitialVariables iv s).lockedVariables.contains x = true := by
  induction iv with
  | nil => cases hx
  | cons kv rest ih =>
    obtain ⟨k, w⟩ := kv
    intro s
    simp only [List.map_cons, List.nodup_cons] at hnd
    obtain ⟨hk, hrest⟩ := hnd
    rw [loadInitialVariables]
    by_cases hkx : k = x
    · subst hkx
      rw [lookupKey] at hx
      simp only [if_pos rfl] at hx
      cases hx
      obtain ⟨h1, h2⟩ := loadInitialVariables_not_mem rest k hk
        { vars := setVar s.vars k v
          lockedVariables := addLock s.lockedVariables k }
      refine ⟨?_, ?_⟩
      · rw [h1]
        exact lookupKey_setVar_self _ _ _
      · rw [h2]
        exact contains_addLock_self _ _
    · rw [lookupKey] at hx
      simp only [hkx, if_false] at hx
      exact ih hrest hx _

end LangIT

namespace LangIT

/-- Claim C2: supplied initial variables are write-once locks, in both
evaluators: loading pins each supplied variable (with its supplied value and
a lock); an assignment to a locked variable leaves the store unchanged and
only releases the lock (in GOTO, additionally stepping the program counter);
an assignment to an unlocked variable takes effect normally; and across any
execution a variable that is still locked afterwards was locked before and
kept its value (locks are never re-acquired, so after the releasing
assignment all later assignments behave normally). -/
theorem C2_write_once_locks :
    (∀ iv : VarMap, (iv.map Prod.fst).Nodup →
      ∀ x v, lookupKey iv x = some v →
        lookupKey (loadInitialVariables iv ⟨[], []⟩).vars x = some v ∧
        (loadInitialVariables iv ⟨[], []⟩).lockedVariables.contains x
          = true) ∧
    (∀ (target : String) (value : Expression) (s : InterpState),
      s.lockedVariables.contains target = true →
      WhileInterpreter.executeStatement (.assignment target value) s =
        .ok { s with lockedVariables := s.lockedVariables.erase target }) ∧
    (∀ (target : String) (value : Expression) (s : InterpState),
      s.lockedVariables.contains target = false →
      WhileInterpreter.executeStatement (.assignment target value) s =
        .ok { s with
              vars := setVar s.vars target
                (WhileInterpreter.evaluateExpression s.vars value) }) ∧
    (∀ (l : List WhileInterpreter.Statement) (s s' : InterpState),
      WhileInterpreter.executeStatements l s = .ok s' → LockInv s s') ∧
    (∀ (instructions : List GotoInterpreter.Instruction)
        (lm : GotoInterpreter.LabelMap) (fuel pc : Nat) (s : InterpState)
        (lbl : Option String) (target : String) (value : Expression),
      instructions[pc]? = some ⟨lbl, .assignment target value⟩ →
      (s.lockedVariables.contains target = true →
        GotoInterpreter.runFrom instructions lm (fuel + 1) pc s =
          GotoInterpreter.runFrom instructions lm fuel (pc + 1)
            { s with lockedVariables := s.lockedVariables.erase target }) ∧
      (s.lockedVariables.contains target = false →
        GotoInterpreter.runFrom instructions lm (fuel + 1) pc s =
          GotoInterpreter.runFrom instructions lm fuel (pc + 1)
            { s with
              vars := setVar s.vars target
                (GotoInterpreter.evaluateExpression s.vars value) })) ∧
    (∀ (instructions : List GotoInterpreter.Instruction)
        (lm : GotoInterpreter.LabelMap) (fuel pc : Nat) (s s' : InterpState),
      GotoInterpreter.runFrom instructions lm fuel pc s = .ok s' →
      LockInv s s') := by
  refine ⟨?_, ?_, ?_, ?_, ?_, ?_⟩
  · intro iv hnd x v hx
    exact loadInitialVariables_pins iv hnd x v hx _
  · intro target value s hlock
    simp only [WhileInterpreter.executeStatement, hlock, if_true]
  · intro target value s hlock
    simp only [WhileInterpreter.executeStatement, hlock, Bool.false_eq_true,
      if_false]
  · exact while_executeStatements_lockInv
  · intro instructions lm fuel pc s lbl target value hinstr
    have hpc : pc < instructions.length :=
      (List.getElem?_eq_some_iff.1 hinstr).1
    constructor
    · intro hlock
      rw [GotoInterpreter.runFrom, if_pos hpc, hinstr]
      simp only [hlock, if_true]
    · intro hlock
      rw [GotoInterpreter.runFrom, if_pos hpc, hinstr]
      simp only [hlock, Bool.false_eq_true, if_false]
  · exact goto_runFrom_lockInv

/-- Witness for C2 at concrete inputs: a pinned variable is loaded locked and
with its value; the first assignment to it is a no-op that only releases the
lock (both evaluators); an unlocked assignment takes effect; and a run that
never assigns a pinned variable preserves its value. -/
theorem C2_write_once_locks_witness :
    (lookupKey (loadInitialVariables [("x0", 5)] ⟨[], []⟩).vars "x0"
        = some 5 ∧
      (loadInitialVariables [("x0", 5)] ⟨[], []⟩).lockedVariables.contains
        "x0" = true) ∧
    WhileInterpreter.executeStatement (.assignment "x0" (.num 7))
        ⟨[("x0", 5)], ["x0"]⟩ = .ok ⟨[("x0", 5)], []⟩ ∧
    WhileInterpreter.executeStatement (.assignment "x0" (.num 7))
        ⟨[("x0", 5)], []⟩ = .ok ⟨[("x0", 7)], []⟩ ∧
    GotoInterpreter.runFrom [⟨none, .assignment "x0" (.num 7)⟩] [] 1 0
        ⟨[("x0", 5)], ["x0"]⟩ =
      GotoInterpreter.runFrom [⟨none, .assignment "x0" (.num 7)⟩] [] 0 1
        ⟨[("x0", 5)], []⟩ ∧
    lookupKey [("x0", 5), ("x1", 9)] "x0" = lookupKey [("x0", 5)] "x0" := by
  refine ⟨?_, ?_, ?_, ?_, ?_⟩
  · exact C2_write_once_locks.1 [("x0", 5)] (by simp) "x0" 5 rfl
  · have h := C2_write_once_locks.2.1 "x0" (.num 7) ⟨[("x0", 5)], ["x0"]⟩ rfl
    simpa using h
  · have h := C2_write_once_locks.2.2.1 "x0" (.num 7) ⟨[("x0", 5)], []⟩ rfl
    simpa [WhileInterpreter.evaluateExpression] using h
  · have h := (C2_write_once_locks.2.2.2.2.1
      [⟨none, .assignment "x0" (.num 7)⟩] [] 0 0 ⟨[("x0", 5)], ["x0"]⟩
      none "x0" (.num 7) rfl).1 rfl
    simpa using h
  · have hrun : WhileInterpreter.executeStatements
        [.assignment "x1" (.num 9)] ⟨[("x0", 5)], ["x0"]⟩ =
        .ok ⟨[("x0", 5), ("x1", 9)], ["x0"]⟩ := by
      simp [WhileInterpreter.executeStatements,
        WhileInterpreter.executeStatement, WhileInterpreter.evaluateExpression,
        setVar, Except.bind]
      rfl
    exact ((C2_write_once_locks.2.2.2.1 _ _ _ hrun) "x0" rfl).2

end LangIT

namespace LangIT

/-- Claim C3: the GOTO evaluator walks the program counter from 0; an
assignment advances `pc` by 1 (shown here for a lock-free state; the locked
case also advances by 1, see the write-once-lock theorem), `GOTO` sets `pc`
to the label's instruction index, `IF cond THEN GOTO` jumps exactly when the
condition is true and otherwise advances by 1, `HALT` returns the current
store immediately — whatever instructions remain, textually after it or
elsewhere, and whatever fuel remains — and a `pc` past the last instruction
also returns the current store. -/
theorem C3_goto_program_counter :
    (∀ (program : GotoInterpreter.Program) (options : Option EvalArg)
        (lm : GotoInterpreter.LabelMap),
      GotoInterpreter.buildLabelMap program.instructions 0 [] = .ok lm →
      GotoInterpreter.evaluate program options =
        (GotoInterpreter.runFrom program.instructions lm (SAFETY_LIMIT + 1) 0
          (initialStateOf options)).map InterpState.vars) ∧
    (∀ (instructions : List GotoInterpreter.Instruction)
        (lm : GotoInterpreter.LabelMap) (fuel pc : Nat) (s : InterpState)
        (lbl : Option String) (target : String) (value : Expression),
      instructions[pc]? = some ⟨lbl, .assignment target value⟩ →
      s.lockedVariables = [] →
      GotoInterpreter.runFrom instructions lm (fuel + 1) pc s =
        GotoInterpreter.runFrom instructions lm fuel (pc + 1)
          { s with
            vars := setVar s.vars target
              (GotoInterpreter.evaluateExpression s.vars value) }) ∧
    (∀ (instructions : List GotoInterpreter.Instruction)
        (lm : GotoInterpreter.LabelMap) (fuel pc : Nat) (s : InterpState)
        (lbl : Option String) (label : String) (j : Nat),
      instructions[pc]? = some ⟨lbl, .goto label⟩ →
      lookupKey lm label = some j →
      GotoInterpreter.runFrom instructions lm (fuel + 1) pc s =
        GotoInterpreter.runFrom instructions lm fuel j s) ∧
    (∀ (instructions : List GotoInterpreter.Instruction)
        (lm : GotoInterpreter.LabelMap) (fuel pc : Nat) (s : InterpState)
        (lbl : Option String) (condition : Condition) (label : String)
        (j : Nat),
      instructions[pc]? = some ⟨lbl, .ifGoto condition label⟩ →
      lookupKey lm label = some j →
      GotoInterpreter.runFrom instructions lm (fuel + 1) pc s =
        (if GotoInterpreter.evaluateCondition s.vars condition then
          GotoInterpreter.runFrom instructions lm fuel j s
        else
          GotoInterpreter.runFrom instructions lm fuel (pc + 1) s)) ∧
    (∀ (instructions : List GotoInterpreter.Instruction)
        (lm : GotoInterpreter.LabelMap) (fuel pc : Nat) (s : InterpState)
        (lbl : Option String),
      instructions[pc]? = some ⟨lbl, .halt⟩ →
      GotoInterpreter.runFrom instructions lm (fuel + 1) pc s = .ok s) ∧
    (∀ (instructions : List GotoInterpreter.Instruction)
        (lm : GotoInterpreter.LabelMap) (fuel pc : Nat) (s : InterpState),
      ¬ pc < instructions.length →
      GotoInterpreter.runFrom instructions lm fuel pc s = .ok s) := by
  refine ⟨?_, ?_, ?_, ?_, ?_, ?_⟩
  · intro program options lm hlm
    show (do
      let (initialVariables, _verbose) := decodeEvalArg options
      let s0 : InterpState := { vars := [], lockedVariables := [] }
      let s1 :=
        match initialVariables with
        | some iv => loadInitialVariables iv s0
        | none => s0
      let labelMap ← GotoInterpreter.buildLabelMap program.instructions 0 []
      let s2 ← GotoInterpreter.runFrom program.instructions labelMap
        (SAFETY_LIMIT + 1) 0 s1
      .ok s2.vars) = _
    rw [hlm]
    show (do
      let s2 ← GotoInterpreter.runFrom program.instructions lm
        (SAFETY_LIMIT + 1) 0 (initialStateOf options)
      .ok s2.vars) = _
    cases hr : GotoInterpreter.runFrom program.instructions lm
        (SAFETY_LIMIT + 1) 0 (initialStateOf options) with
    | ok s2 => rfl
    | error e => rfl
  · intro instructions lm fuel pc s lbl target value hinstr hlock
    have hpc : pc < instructions.length :=
      (List.getElem?_eq_some_iff.1 hinstr).1
    rw [GotoInterpreter.runFrom, if_pos hpc, hinstr]
    simp only [hlock, List.contains_nil, Bool.false_eq_true, if_false]
  · intro instructions lm fuel pc s lbl label j hinstr hlook
    have hpc : pc < instructions.length :=
      (List.getElem?_eq_some_iff.1 hinstr).1
    rw [GotoInterpreter.runFrom, if_pos hpc, hinstr]
    simp only [GotoInterpreter.getLabelIndex, hlook]
    rfl
  · intro instructions lm fuel pc s lbl condition label j hinstr hlook
    have hpc : pc < instructions.length :=
      (List.getElem?_eq_some_iff.1 hinstr).1
    rw [GotoInterpreter.runFrom, if_pos hpc, hinstr]
    by_cases hc : GotoInterpreter.evaluateCondition s.vars condition = true
    · simp only [hc, if_true, GotoInterpreter.getLabelIndex, hlook]
      rfl
    · simp only [Bool.not_eq_true] at hc
      simp [hc]
  · intro instructions lm fuel pc s lbl hinstr
    have hpc : pc < instructions.length :=
      (List.getElem?_eq_some_iff.1 hinstr).1
    rw [GotoInterpreter.runFrom, if_pos hpc, hinstr]
  · intro instructions lm fuel pc s hpc
    cases fuel with
    | zero => rw [GotoInterpreter.runFrom, if_neg hpc]
    | succ fuel => rw [GotoInterpreter.runFrom, if_neg hpc]

/-- Witness for C3 at concrete inputs, one per program-counter rule. -/
theorem C3_goto_program_counter_witness :
    GotoInterpreter.evaluate ⟨[⟨some "M", .halt⟩]⟩ none =
      (GotoInterpreter.runFrom [⟨some "M", .halt⟩] [("M", 0)]
        (SAFETY_LIMIT + 1) 0 ⟨[], []⟩).map InterpState.vars ∧
    GotoInterpreter.runFrom [⟨none, .assignment "x0" (.num 1)⟩] [] 1 0
        ⟨[], []⟩ =
      GotoInterpreter.runFrom [⟨none, .assignment "x0" (.num 1)⟩] [] 0 1
        ⟨[("x0", 1)], []⟩ ∧
    GotoInterpreter.runFrom [⟨some "M", .goto "M"⟩] [("M", 0)] 1 0 ⟨[], []⟩ =
      GotoInterpreter.runFrom [⟨some "M", .goto "M"⟩] [("M", 0)] 0 0
        ⟨[], []⟩ ∧
    GotoInterpreter.runFrom
        [⟨some "M", .ifGoto ⟨.eq, .num 0, .num 0⟩ "M"⟩] [("M", 0)] 1 0
        ⟨[], []⟩ =
      GotoInterpreter.runFrom
        [⟨some "M", .ifGoto ⟨.eq, .num 0, .num 0⟩ "M"⟩] [("M", 0)] 0 0
        ⟨[], []⟩ ∧
    GotoInterpreter.runFrom [⟨none, .halt⟩, ⟨none, .assignment "x9" (.num 9)⟩]
        [] 5 0 ⟨[("x0", 3)], []⟩ = .ok ⟨[("x0", 3)], []⟩ ∧
    GotoInterpreter.runFrom [⟨none, .halt⟩] [] 7 4 ⟨[("x0", 3)], []⟩ =
      .ok ⟨[("x0", 3)], []⟩ := by
  refine ⟨?_, ?_, ?_, ?_, ?_, ?_⟩
  · exact C3_goto_program_counter.1 ⟨[⟨some "M", .halt⟩]⟩ none [("M", 0)] rfl
  · have h := C3_goto_program_counter.2.1 [⟨none, .assignment "x0" (.num 1)⟩]
      [] 0 0 ⟨[], []⟩ none "x0" (.num 1) rfl rfl
    simpa [GotoInterpreter.evaluateExpression, setVar] using h
  · exact C3_goto_program_counter.2.2.1 [⟨some "M", .goto "M"⟩] [("M", 0)]
      0 0 ⟨[], []⟩ (some "M") "M" 0 rfl rfl
  · have h := C3_goto_program_counter.2.2.2.1
      [⟨some "M", .ifGoto ⟨.eq, .num 0, .num 0⟩ "M"⟩] [("M", 0)] 0 0 ⟨[], []⟩
      (some "M") ⟨.eq, .num 0, .num 0⟩ "M" 0 rfl rfl
    simpa [GotoInterpreter.evaluateCondition,
      GotoInterpreter.evaluateExpression] using h
  · exact C3_goto_program_counter.2.2.2.2.1
      [⟨none, .halt⟩, ⟨none, .assignment "x9" (.num 9)⟩] [] 4 0
      ⟨[("x0", 3)], []⟩ none rfl
  · exact C3_goto_program_counter.2.2.2.2.2 [⟨none, .halt⟩] [] 7 4
      ⟨[("x0", 3)], []⟩ (by simp)

end LangIT

namespace LangIT

/-! ## Label map construction: duplicate detection -/

theorem hasKey_iff_mem (m : VarMap) (x : String) :
    hasKey m x = true ↔ x ∈ m.map Prod.fst := by
  induction m with
  | nil => simp [hasKey, lookupKey]
  | cons kv rest ih =>
    obtain ⟨k, v⟩ := kv
    by_cases h : k = x
    · subst h
      simp [hasKey, lookupKey]
    · simp [hasKey, lookupKey, h, Ne.symm h] at ih ⊢
      exact ih

theorem hasKey_append_single (m : VarMap) (k : String) (v : Nat)
    (x : String) :
    hasKey (m ++ [(k, v)]) x = true ↔ (hasKey m x = true ∨ x = k) := by
  rw [hasKey_iff_mem, hasKey_iff_mem]
  simp

theorem buildLabelMap_error_of_dup :
    ∀ (instructions : List GotoInterpreter.Instruction) (idx : Nat)
      (acc : GotoInterpreter.LabelMap),
      (acc.map Prod.fst).Nodup →
      ¬ (acc.map Prod.fst ++ labelsOf instructions).Nodup →
      ∃ l, GotoInterpreter.buildLabelMap instructions idx acc =
        .error ("Duplicate label: " ++ l) := by
  intro instructions
  induction instructions with
  | nil =>
    intro idx acc hacc hdup
    exact absurd (by simpa [labelsOf] using hacc) hdup
  | cons i rest ih =>
    intro idx acc hacc hdup
    rw [GotoInterpreter.buildLabelMap]
    cases hi : i.label with
    | none =>
      refine ih (idx + 1) acc hacc ?_
      simpa [labelsOf, hi] using hdup
    | some l =>
      by_cases he : l = ""
      · subst he
        simp only [ne_eq, not_true_eq_false, if_false]
        refine ih (idx + 1) acc hacc ?_
        simpa [labelsOf, hi] using hdup
      · simp only [ne_eq, he, not_false_eq_true, if_true]
        cases hk : hasKey acc l with
        | true => exact ⟨l, by simp⟩
        | false =>
          have hlnot : l ∉ acc.map Prod.fst := fun hmem =>
            by simp [(hasKey_iff_mem acc l).2 hmem] at hk
          have hacc' : ((acc ++ [(l, idx)]).map Prod.fst).Nodup := by
            simpa using (List.nodup_append.2
              ⟨hacc, List.nodup_singleton l, by simpa using hlnot⟩)
          refine ih (idx + 1) (acc ++ [(l, idx)]) hacc' ?_
          have hlab : labelsOf (i :: rest) = l :: labelsOf rest := by
            simp [labelsOf, hi, he]
          rw [hlab] at hdup
          rw [List.map_append]
          simpa [← List.append_cons] using hdup

theorem buildLabelMap_error_shape :
    ∀ (instructions : List GotoInterpreter.Instruction) (idx : Nat)
      (acc : GotoInterpreter.LabelMap) (e : String),
      GotoInterpreter.buildLabelMap instructions idx acc = .error e →
      (∃ l, e = "Duplicate label: " ++ l) ∧
      ¬ (acc.map Prod.fst ++ labelsOf instructions).Nodup := by
  intro instructions
  induction instructions with
  | nil =>
    intro idx acc e h
    rw [GotoInterpreter.buildLabelMap] at h
    exact Except.noConfusion h
  | cons i rest ih =>
    intro idx acc e h
    rw [GotoInterpreter.buildLabelMap] at h
    cases hi : i.label with
    | none =>
      rw [hi] at h
      obtain ⟨hsh, hdup⟩ := ih (idx + 1) acc e h
      exact ⟨hsh, by simpa [labelsOf, hi] using hdup⟩
    | some l =>
      rw [hi] at h
      by_cases he : l = ""
      · subst he
        simp only [ne_eq, not_true_eq_false, if_false] at h
        obtain ⟨hsh, hdup⟩ := ih (idx + 1) acc e h
        exact ⟨hsh, by simpa [labelsOf, hi] using hdup⟩
      · simp only [ne_eq, he, not_false_eq_true, if_true] at h
        have hlab : labelsOf (i :: rest) = l :: labelsOf rest := by
          simp [labelsOf, hi, he]
        cases hk : hasKey acc l with
        | true =>
          rw [hk, if_pos rfl] at h
          cases h
          refine ⟨⟨l, rfl⟩, ?_⟩
          rw [hlab]
          intro hnd
          have hdisj := (List.nodup_append.1 hnd).2.2
          exact hdisj ((hasKey_iff_mem acc l).1 hk) (by simp)
        | false =>
          rw [hk] at h
          simp only [Bool.false_eq_true, if_false] at h
          obtain ⟨hsh, hdup⟩ := ih (idx + 1) (acc ++ [(l, idx)]) e h
          refine ⟨hsh, ?_⟩
          rw [hlab]
          rw [List.map_append] at hdup
          simpa [← List.append_cons] using hdup

theorem buildLabelMap_ok_mem :
    ∀ (instructions : List GotoInterpreter.Instruction) (idx : Nat)
      (acc lm : GotoInterpreter.LabelMap),
      GotoInterpreter.buildLabelMap instructions idx acc = .ok lm →
      ∀ l, hasKey lm l = true ↔
        (hasKey acc l = true ∨ l ∈ labelsOf instructions) := by
  intro instructions
  induction instructions with
  | nil =>
    intro idx acc lm h l
    rw [GotoInterpreter.buildLabelMap] at h
    cases h
    simp [labelsOf]
  | cons i rest ih =>
    intro idx acc lm h l
    rw [GotoInterpreter.buildLabelMap] at h
    cases hi : i.label with
    | none =>
      rw [hi] at h
      rw [ih (idx + 1) acc lm h l]
      simp [labelsOf, hi]
    | some lab =>
      rw [hi] at h
      by_cases he : lab = ""
      · subst he
        simp only [ne_eq, not_true_eq_false, if_false] at h
        rw [ih (idx + 1) acc lm h l]
        simp [labelsOf, hi]
      · simp only [ne_eq, he, not_false_eq_true, if_true] at h
        have hlab : labelsOf (i :: rest) = lab :: labelsOf rest := by
          simp [labelsOf, hi, he]
        cases hk : hasKey acc lab with
        | true =>
          rw [hk, if_pos rfl] at h
          exact Except.noConfusion h
        | false =>
          rw [hk] at h
          simp only [Bool.false_eq_true, if_false] at h
          rw [ih (idx + 1) (acc ++ [(lab, idx)]) lm h l, hlab,
            hasKey_append_single]
          simp only [List.mem_cons]
          tauto

end LangIT

namespace LangIT

/-! ## Classification of run-time GOTO errors -/

theorem goto_instruction_mem {instructions : List GotoInterpreter.Instruction}
    {pc : Nat} {instr : GotoInterpreter.Instruction}
    (h : instructions[pc]? = some instr) : instr ∈ instructions := by
  obtain ⟨hlt, heq⟩ := List.getElem?_eq_some_iff.1 h
  exact heq ▸ List.getElem_mem hlt

theorem goto_runFrom_error_shape
    (instructions : List GotoInterpreter.Instruction)
    (lm : GotoInterpreter.LabelMap) :
    ∀ (fuel pc : Nat) (s : InterpState) (e : String),
      GotoInterpreter.runFrom instructions lm fuel pc s = .error e →
      e = GotoInterpreter.stepLimitMessage ∨
      ∃ l, e = "Undefined label: " ++ l ∧ l ∈ jumpTargets instructions ∧
        lookupKey lm l = none := by
  intro fuel
  induction fuel with
  | zero =>
    intro pc s e h
    rw [GotoInterpreter.runFrom] at h
    by_cases hpc : pc < instructions.length
    · rw [if_pos hpc] at h
      cases h
      exact .inl rfl
    · rw [if_neg hpc] at h
      exact Except.noConfusion h
  | succ fuel ih =>
    intro pc s e h
    rw [GotoInterpreter.runFrom] at h
    by_cases hpc : pc < instructions.length
    · rw [if_pos hpc] at h
      cases hinstr : instructions[pc]? with
      | none =>
        rw [hinstr] at h
        exact Except.noConfusion h
      | some instr =>
        rw [hinstr] at h
        have hmem := goto_instruction_mem hinstr
        obtain ⟨lbl, stmt⟩ := instr
        cases stmt with
        | assignment target value =>
          simp only at h
          by_cases hl : s.lockedVariables.contains target = true
          · simp only [hl, if_true] at h
            exact ih (pc + 1) _ e h
          · simp only [Bool.not_eq_true] at hl
            simp only [hl, Bool.false_eq_true, if_false] at h
            exact ih (pc + 1) _ e h
        | goto label =>
          simp only at h
          cases hres : lookupKey lm label with
          | some j =>
            rw [show GotoInterpreter.getLabelIndex lm label = .ok j by
              simp [GotoInterpreter.getLabelIndex, hres]] at h
            exact ih j s e h
          | none =>
            rw [show GotoInterpreter.getLabelIndex lm label =
                .error ("Undefined label: " ++ label) by
              simp [GotoInterpreter.getLabelIndex, hres]] at h
            have heq : Except.error (ε := String)
                (α := InterpState) ("Undefined label: " ++ label)
                = .error e := h
            cases heq
            refine .inr ⟨label, rfl, ?_, hres⟩
            exact List.mem_filterMap.2 ⟨⟨lbl, .goto label⟩, hmem, rfl⟩
        | ifGoto condition label =>
          simp only at h
          by_cases hc : GotoInterpreter.evaluateCondition s.vars condition
            = true
          · rw [if_pos hc] at h
            cases hres : lookupKey lm label with
            | some j =>
              rw [show GotoInterpreter.getLabelIndex lm label = .ok j by
                simp [GotoInterpreter.getLabelIndex, hres]] at h
              exact ih j s e h
            | none =>
              rw [show GotoInterpreter.getLabelIndex lm label =
                  .error ("Undefined label: " ++ label) by
                simp [GotoInterpreter.getLabelIndex, hres]] at h
              have heq : Except.error (ε := String)
                  (α := InterpState) ("Undefined label: " ++ label)
                  = .error e := h
              cases heq
              refine .inr ⟨label, rfl, ?_, hres⟩
              exact List.mem_filterMap.2 ⟨⟨lbl, .ifGoto condition label⟩,
                hmem, rfl⟩
          · rw [if_neg hc] at h
            exact ih (pc + 1) s e h
        | halt =>
          simp only at h
          exact Except.noConfusion h
    · rw [if_neg hpc] at h
      exact Except.noConfusion h

end LangIT

namespace LangIT

/-! ## Assembling `evaluate` for the GOTO evaluator -/

theorem except_bind_ok {α β : Type} (a : α) (f : α → Except String β) :
    (Except.ok a >>= f) = f a := rfl

theorem except_bind_error {α β : Type} (e : String)
    (f : α → Except String β) :
    ((Except.error e : Except String α) >>= f) = Except.error e := rfl

theorem except_bind_ok' {α β : Type} (a : α) (f : α → Except String β) :
    (Except.ok a).bind f = f a := rfl

theorem except_bind_error' {α β : Type} (e : String)
    (f : α → Except String β) :
    (Except.error e : Except String α).bind f = Except.error e := rfl

theorem goto_evaluate_eq (program : GotoInterpreter.Program)
    (options : Option EvalArg) :
    GotoInterpreter.evaluate program options =
      (GotoInterpreter.buildLabelMap program.instructions 0 []).bind
        (fun lm => (GotoInterpreter.runFrom program.instructions lm
          (SAFETY_LIMIT + 1) 0 (initialStateOf options)).bind
            (fun s2 => .ok s2.vars)) := by
  cases options with
  | none => rfl
  | some arg =>
    cases arg with
    | map m => rfl
    | options o => rfl

/-- A jump-to-self GOTO program runs forever, so every fuel value ends in the
step-limit diagnostic (all its definitions reduce definitionally). -/
theorem goto_selfloop_diverges :
    ∀ (fuel : Nat) (s : InterpState),
      GotoInterpreter.runFrom [⟨some "M", .goto "M"⟩] [("M", 0)] fuel 0 s =
        .error GotoInterpreter.stepLimitMessage := by
  intro fuel
  induction fuel with
  | zero => intro s; rfl
  | succ fuel ih => intro s; exact ih s

/-- Claim C4 counterexample: the single-instruction program `M: GOTO M` has
pairwise-distinct labels and its only executed jump resolves in the label
map, yet evaluation raises an error (the step-safety-limit diagnostic, which
is neither of the two structural-error messages) — refuting the claimed
"error if and only if duplicate label or unresolved executed jump". -/
theorem C4_counterexample_limit_error_without_structural_cause :
    (labelsOf [⟨some "M", .goto "M"⟩]).Nodup ∧
    GotoInterpreter.buildLabelMap [⟨some "M", .goto "M"⟩] 0 [] =
      .ok [("M", 0)] ∧
    lookupKey [("M", 0)] "M" = some 0 ∧
    GotoInterpreter.evaluate ⟨[⟨some "M", .goto "M"⟩]⟩ none =
      .error GotoInterpreter.stepLimitMessage ∧
    GotoInterpreter.stepLimitMessage ≠ "Duplicate label: M" ∧
    GotoInterpreter.stepLimitMessage ≠ "Undefined label: M" := by
  refine ⟨by decide, rfl, rfl, ?_, by decide, by decide⟩
  show (do
    let labelMap ← GotoInterpreter.buildLabelMap
      [⟨some "M", .goto "M"⟩] 0 []
    let s2 ← GotoInterpreter.runFrom [⟨some "M", .goto "M"⟩] labelMap
      (SAFETY_LIMIT + 1) 0 ⟨[], []⟩
    (Except.ok s2.vars : Except String VarMap)) =
    Except.error GotoInterpreter.stepLimitMessage
  rw [show GotoInterpreter.buildLabelMap [⟨some "M", .goto "M"⟩] 0 [] =
    .ok [("M", 0)] from rfl]
  rw [except_bind_ok]
  rw [goto_selfloop_diverges (SAFETY_LIMIT + 1) ⟨[], []⟩]
  rfl

/-- Claim C4, amended: GOTO evaluation raises an error exactly for a
duplicate label (detected while building the label map, with the result
independent of the options and of any instruction's effect), for an executed
jump whose target label is absent from the program, or for the step safety
limit being exceeded; every raised error is of one of these three shapes, and
an error means no mapping is returned. -/
theorem C4_amended_goto_error_characterization :
    (∀ program : GotoInterpreter.Program,
      ¬ (labelsOf program.instructions).Nodup →
      ∃ l, ∀ options : Option EvalArg,
        GotoInterpreter.evaluate program options =
          .error ("Duplicate label: " ++ l)) ∧
    (∀ (program : GotoInterpreter.Program) (options : Option EvalArg)
        (e : String),
      GotoInterpreter.evaluate program options = .error e →
      (∃ l, e = "Duplicate label: " ++ l ∧
        ¬ (labelsOf program.instructions).Nodup) ∨
      (∃ l, e = "Undefined label: " ++ l ∧
        l ∈ jumpTargets program.instructions ∧
        l ∉ labelsOf program.instructions) ∨
      e = GotoInterpreter.stepLimitMessage) := by
  constructor
  · intro program hdup
    obtain ⟨l, hl⟩ := buildLabelMap_error_of_dup program.instructions 0 []
      (by simp) (by simpa using hdup)
    refine ⟨l, fun options => ?_⟩
    rw [goto_evaluate_eq, hl]
    rfl
  · intro program options e h
    rw [goto_evaluate_eq] at h
    cases hb : GotoInterpreter.buildLabelMap program.instructions 0 [] with
    | error e' =>
      rw [hb] at h
      have heq : Except.error (ε := String) (α := VarMap) e'
          = .error e := h
      cases heq
      obtain ⟨⟨l, hl⟩, hdup⟩ :=
        buildLabelMap_error_shape program.instructions 0 [] e hb
      exact .inl ⟨l, hl, by simpa using hdup⟩
    | ok lm =>
      rw [hb] at h
      have h' : (GotoInterpreter.runFrom program.instructions lm
          (SAFETY_LIMIT + 1) 0 (initialStateOf options)).bind
            (fun s2 => Except.ok s2.vars) = .error e := h
      cases hr : GotoInterpreter.runFrom program.instructions lm
          (SAFETY_LIMIT + 1) 0 (initialStateOf options) with
      | ok s2 =>
        rw [hr] at h'
        exact Except.noConfusion h'
      | error e2 =>
        rw [hr] at h'
        have heq : Except.error (ε := String) (α := VarMap) e2
            = .error e := h'
        cases heq
        rcases goto_runFrom_error_shape program.instructions lm
            (SAFETY_LIMIT + 1) 0 (initialStateOf options) e hr with
          hstep | ⟨l, hl, hmem, hnone⟩
        · exact .inr (.inr hstep)
        · refine .inr (.inl ⟨l, hl, hmem, fun hmem' => ?_⟩)
          have hk := (buildLabelMap_ok_mem program.instructions 0 [] lm hb
            l).2 (.inr hmem')
          rw [hasKey, hnone] at hk
          exact Bool.noConfusion hk

/-- Witness for the amended C4 at a concrete input: a program with a
duplicated label evaluates to the duplicate-label error whatever the options
are, and the self-loop's limit error is classified by the only-if
direction. -/
theorem C4_amended_goto_error_characterization_witness :
    (∃ l, ∀ options : Option EvalArg,
      GotoInterpreter.evaluate ⟨[⟨some "M", .halt⟩, ⟨some "M", .halt⟩]⟩
        options = .error ("Duplicate label: " ++ l)) ∧
    ((∃ l, GotoInterpreter.stepLimitMessage = "Duplicate label: " ++ l ∧
        ¬ (labelsOf [⟨some "M", .goto "M"⟩]).Nodup) ∨
      (∃ l, GotoInterpreter.stepLimitMessage = "Undefined label: " ++ l ∧
        l ∈ jumpTargets [⟨some "M", .goto "M"⟩] ∧
        l ∉ labelsOf [⟨some "M", .goto "M"⟩]) ∨
      GotoInterpreter.stepLimitMessage =
        GotoInterpreter.stepLimitMessage) := by
  constructor
  · exact C4_amended_goto_error_characterization.1
      ⟨[⟨some "M", .halt⟩, ⟨some "M", .halt⟩]⟩ (by decide)
  · refine C4_amended_goto_error_characterization.2
      ⟨[⟨some "M", .goto "M"⟩]⟩ none GotoInterpreter.stepLimitMessage ?_
    show (do
      let labelMap ← GotoInterpreter.buildLabelMap
        [⟨some "M", .goto "M"⟩] 0 []
      let s2 ← GotoInterpreter.runFrom [⟨some "M", .goto "M"⟩] labelMap
        (SAFETY_LIMIT + 1) 0 ⟨[], []⟩
      (Except.ok s2.vars : Except String VarMap)) =
      Except.error GotoInterpreter.stepLimitMessage
    rw [show GotoInterpreter.buildLabelMap [⟨some "M", .goto "M"⟩] 0 [] =
      .ok [("M", 0)] from rfl]
    rw [except_bind_ok]
    rw [goto_selfloop_diverges (SAFETY_LIMIT + 1) ⟨[], []⟩]
    rfl

end LangIT

namespace LangIT

/-! ## Safety-limit behavior -/

theorem while_true_empty_diverges :
    ∀ (fuel : Nat) (s : InterpState),
      WhileInterpreter.runWhileLoop ⟨.eq, .num 0, .num 0⟩ [] fuel s =
        .error WhileInterpreter.iterationLimitMessage := by
  intro fuel
  induction fuel with
  | zero =>
    intro s
    simp [WhileInterpreter.runWhileLoop, WhileInterpreter.evaluateCondition,
      WhileInterpreter.evaluateExpression]
  | succ fuel ih =>
    intro s
    rw [WhileInterpreter.runWhileLoop]
    rw [if_pos (by rfl)]
    rw [show WhileInterpreter.executeStatements [] s = .ok s by
      rw [WhileInterpreter.executeStatements]]
    rw [except_bind_ok]
    exact ih s

theorem while_evaluate_whiletrue_diverges :
    WhileInterpreter.evaluate ⟨[.whileStmt ⟨.eq, .num 0, .num 0⟩ []]⟩ none =
      .error WhileInterpreter.iterationLimitMessage := by
  have h1 : WhileInterpreter.executeStatement
      (.whileStmt ⟨.eq, .num 0, .num 0⟩ []) ⟨[], []⟩ =
      .error WhileInterpreter.iterationLimitMessage := by
    rw [WhileInterpreter.executeStatement]
    exact while_true_empty_diverges _ _
  have h2 : WhileInterpreter.executeStatements
      [.whileStmt ⟨.eq, .num 0, .num 0⟩ []] ⟨[], []⟩ =
      .error WhileInterpreter.iterationLimitMessage := by
    rw [WhileInterpreter.executeStatements]
    rw [h1]
    rfl
  show (do
    let s2 ← WhileInterpreter.executeStatements
      [.whileStmt ⟨.eq, .num 0, .num 0⟩ []] ⟨[], []⟩
    (Except.ok s2.vars : Except String VarMap)) =
    Except.error WhileInterpreter.iterationLimitMessage
  rw [h2]
  rfl

theorem goto_ifselfloop_diverges :
    ∀ (fuel : Nat) (s : InterpState),
      GotoInterpreter.runFrom
        [⟨some "L", .ifGoto ⟨.eq, .num 0, .num 0⟩ "L"⟩] [("L", 0)]
        fuel 0 s = .error GotoInterpreter.stepLimitMessage := by
  intro fuel
  induction fuel with
  | zero => intro s; rfl
  | succ fuel ih => intro s; exact ih s

theorem goto_evaluate_ifselfloop_diverges :
    GotoInterpreter.evaluate
      ⟨[⟨some "L", .ifGoto ⟨.eq, .num 0, .num 0⟩ "L"⟩]⟩ none =
      .error GotoInterpreter.stepLimitMessage := by
  show (do
    let labelMap ← GotoInterpreter.buildLabelMap
      [⟨some "L", .ifGoto ⟨.eq, .num 0, .num 0⟩ "L"⟩] 0 []
    let s2 ← GotoInterpreter.runFrom
      [⟨some "L", .ifGoto ⟨.eq, .num 0, .num 0⟩ "L"⟩] labelMap
      (SAFETY_LIMIT + 1) 0 ⟨[], []⟩
    (Except.ok s2.vars : Except String VarMap)) =
    Except.error GotoInterpreter.stepLimitMessage
  rw [show GotoInterpreter.buildLabelMap
    [⟨some "L", .ifGoto ⟨.eq, .num 0, .num 0⟩ "L"⟩] 0 [] =
    .ok [("L", 0)] from rfl]
  rw [except_bind_ok]
  rw [goto_ifselfloop_diverges (SAFETY_LIMIT + 1) ⟨[], []⟩]
  rfl

/-- Claim C5 counterexample: both evaluators do enforce their loop/step
ceilings and abort, but the diagnostic they raise is the string
`Infinite loop detected (safety limit: 1,000,000 iterations/steps)`, not the
claimed "possible infinite loop" (which appears in no raised error). -/
theorem C5_counterexample_diagnostic_wording :
    WhileInterpreter.evaluate ⟨[.whileStmt ⟨.eq, .num 0, .num 0⟩ []]⟩ none =
      .error WhileInterpreter.iterationLimitMessage ∧
    GotoInterpreter.evaluate
      ⟨[⟨some "L", .ifGoto ⟨.eq, .num 0, .num 0⟩ "L"⟩]⟩ none =
      .error GotoInterpreter.stepLimitMessage ∧
    WhileInterpreter.iterationLimitMessage ≠ "possible infinite loop" ∧
    GotoInterpreter.stepLimitMessage ≠ "possible infinite loop" :=
  ⟨while_evaluate_whiletrue_diverges, goto_evaluate_ifselfloop_diverges,
    by decide, by decide⟩

/-- Claim C5, amended: every loop/step construct of the evaluators enforces
the fixed ceiling — each WHILE loop runs its safety counter from
`SAFETY_LIMIT + 1` and aborts when it is exhausted with the distinct
diagnostic `Infinite loop detected (safety limit: 1,000,000 iterations)`,
the GOTO instruction walk aborts when its counter is exhausted with
`... 1,000,000 steps)`, and a program that overruns the ceiling evaluates to
that error, returning no variable mapping. -/
theorem C5_amended_safety_limits :
    (∀ (c : Condition) (b : List WhileInterpreter.Statement)
        (s : InterpState),
      WhileInterpreter.executeStatement (.whileStmt c b) s =
        WhileInterpreter.runWhileLoop c b (SAFETY_LIMIT + 1) s) ∧
    (∀ (c : Condition) (b : List WhileInterpreter.Statement)
        (s : InterpState),
      WhileInterpreter.runWhileLoop c b 0 s =
        if WhileInterpreter.evaluateCondition s.vars c then
          .error WhileInterpreter.iterationLimitMessage
        else .ok s) ∧
    (∀ (instructions : List GotoInterpreter.Instruction)
        (lm : GotoInterpreter.LabelMap) (pc : Nat) (s : InterpState),
      GotoInterpreter.runFrom instructions lm 0 pc s =
        if pc < instructions.length then
          .error GotoInterpreter.stepLimitMessage
        else .ok s) ∧
    WhileInterpreter.evaluate ⟨[.whileStmt ⟨.eq, .num 0, .num 0⟩ []]⟩ none =
      .error WhileInterpreter.iterationLimitMessage ∧
    GotoInterpreter.evaluate
      ⟨[⟨some "L", .ifGoto ⟨.eq, .num 0, .num 0⟩ "L"⟩]⟩ none =
      .error GotoInterpreter.stepLimitMessage := by
  refine ⟨?_, ?_, ?_, while_evaluate_whiletrue_diverges,
    goto_evaluate_ifselfloop_diverges⟩
  · intro c b s
    rw [WhileInterpreter.executeStatement]
  · intro c b s
    rw [WhileInterpreter.runWhileLoop]
  · intro instructions lm pc s
    rfl

end LangIT

namespace LangIT

/-- Claim C7 shows a code bug: `evaluate` does not own a freshly constructed
per-call store.  Both interpreter classes keep one `variables` map per
instance, `clear()` it at the start of each call and return it by reference,
so the mapping returned by the first call is the same object the second call
clears and refills.  At the failing input below — `x0 := 1` then `x0 := 2`
on one instance — the first call returns the instance map holding
`x0 ↦ 1`, and after the second call that same instance map holds `x0 ↦ 2`:
the first call's returned mapping did not survive the second call. -/
theorem C7_per_call_state_not_fresh :
    -- first call on a fresh instance: the returned mapping is the instance's
    -- own map, which now holds x0 ↦ 1
    (callOnInstance ⟨[], []⟩ ⟨[.assignment "x0" (.num 1)]⟩ none).2 =
      .ok (callOnInstance ⟨[], []⟩
        ⟨[.assignment "x0" (.num 1)]⟩ none).1.vars ∧
    (callOnInstance ⟨[], []⟩ ⟨[.assignment "x0" (.num 1)]⟩ none).1.vars =
      [("x0", 1)] ∧
    -- second call on the same instance clears and refills that same map
    (callOnInstance
      (callOnInstance ⟨[], []⟩ ⟨[.assignment "x0" (.num 1)]⟩ none).1
      ⟨[.assignment "x0" (.num 2)]⟩ none).1.vars = [("x0", 2)] ∧
    -- so the content observed through the first call's returned reference
    -- after the second call differs from the first call's result
    (callOnInstance
      (callOnInstance ⟨[], []⟩ ⟨[.assignment "x0" (.num 1)]⟩ none).1
      ⟨[.assignment "x0" (.num 2)]⟩ none).1.vars ≠
      (callOnInstance ⟨[], []⟩ ⟨[.assignment "x0" (.num 1)]⟩ none).1.vars := by
  have h1 : WhileInterpreter.executeStatements
      [WhileInterpreter.Statement.assignment "x0" (.num 1)] ⟨[], []⟩ =
      .ok ⟨[("x0", 1)], []⟩ := by
    rw [WhileInterpreter.executeStatements]
    rw [show WhileInterpreter.executeStatement
      (.assignment "x0" (.num 1)) ⟨[], []⟩ = .ok ⟨[("x0", 1)], []⟩ by
      rw [WhileInterpreter.executeStatement]
      rfl]
    rw [except_bind_ok]
    rw [WhileInterpreter.executeStatements]
  have h2 : WhileInterpreter.executeStatements
      [WhileInterpreter.Statement.assignment "x0" (.num 2)] ⟨[], []⟩ =
      .ok ⟨[("x0", 2)], []⟩ := by
    rw [WhileInterpreter.executeStatements]
    rw [show WhileInterpreter.executeStatement
      (.assignment "x0" (.num 2)) ⟨[], []⟩ = .ok ⟨[("x0", 2)], []⟩ by
      rw [WhileInterpreter.executeStatement]
      rfl]
    rw [except_bind_ok]
    rw [WhileInterpreter.executeStatements]
  have hc1 : callOnInstance ⟨[], []⟩ ⟨[.assignment "x0" (.num 1)]⟩ none =
      (⟨[("x0", 1)], []⟩, .ok [("x0", 1)]) := by
    rw [callOnInstance]
    rw [show initialStateOf none = (⟨[], []⟩ : InterpState) from rfl]
    rw [h1]
  have hc2 : callOnInstance ⟨[("x0", 1)], []⟩
      ⟨[.assignment "x0" (.num 2)]⟩ none =
      (⟨[("x0", 2)], []⟩, .ok [("x0", 2)]) := by
    rw [callOnInstance]
    rw [show initialStateOf none = (⟨[], []⟩ : InterpState) from rfl]
    rw [h2]
  rw [hc1]
  rw [show ((⟨[("x0", 1)], []⟩, Except.ok [("x0", 1)]) :
    InterpState × Except String VarMap).1 = ⟨[("x0", 1)], []⟩ from rfl]
  rw [hc2]
  refine ⟨rfl, rfl, rfl, by decide⟩

end LangIT

namespace LangIT

/-! ## Fresh-name allocator correctness -/

theorem freshCandidate_inj : Function.Injective freshCandidate := by
  intro a b h
  have hd : List.replicate (a + 1) 'z' = List.replicate (b + 1) 'z' := by
    injection h
  have := congrArg List.length hd
  simpa using this

theorem freshCandidate_exists_free (used : List String) (k : Nat) :
    ∃ j, k ≤ j ∧ j < k + (used.length + 1) ∧ freshCandidate j ∉ used := by
  classical
  by_contra hall
  push_neg at hall
  have hsub : ∀ x ∈ (List.range (used.length + 1)).map
      (fun i => freshCandidate (k + i)), x ∈ used := by
    intro x hx
    rw [List.mem_map] at hx
    obtain ⟨i, hi, rfl⟩ := hx
    rw [List.mem_range] at hi
    exact hall (k + i) (Nat.le_add_right k i) (by omega)
  have hnd : ((List.range (used.length + 1)).map
      (fun i => freshCandidate (k + i))).Nodup :=
    (List.nodup_range (used.length + 1)).map (fun a b hab => by
      have := freshCandidate_inj hab
      omega)
  have hlen : ((List.range (used.length + 1)).map
      (fun i => freshCandidate (k + i))).length ≤ used.length := by
    calc ((List.range (used.length + 1)).map
        (fun i => freshCandidate (k + i))).length
        = ((List.range (used.length + 1)).map
            (fun i => freshCandidate (k + i))).toFinset.card :=
          (List.toFinset_card_of_nodup hnd).symm
      _ ≤ used.toFinset.card := Finset.card_le_card (fun x hx => by
          rw [List.mem_toFinset] at hx ⊢
          exact hsub x hx)
      _ ≤ used.length := used.toFinset_card_le
  simp at hlen

theorem freshNameAux_spec :
    ∀ (fuel : Nat) (used : List String) (k : Nat),
      (∃ j, k ≤ j ∧ j < k + fuel ∧ freshCandidate j ∉ used) →
      ∃ j, k ≤ j ∧ freshNameAux fuel used k = (freshCandidate j, j + 1) ∧
        freshCandidate j ∉ used := by
  intro fuel
  induction fuel with
  | zero =>
    intro used k h
    obtain ⟨j, hj1, hj2, _⟩ := h
    omega
  | succ fuel ih =>
    intro used k h
    rw [freshNameAux]
    by_cases hk : freshCandidate k ∈ used
    · rw [if_pos hk]
      obtain ⟨j, hj1, hj2, hj3⟩ := h
      have hjk : j ≠ k := fun e => hj3 (by rw [e]; exact hk)
      obtain ⟨j', hj'1, hj'2, hj'3⟩ :=
        ih used (k + 1) ⟨j, by omega, by omega, hj3⟩
      exact ⟨j', by omega, hj'2, hj'3⟩
    · rw [if_neg hk]
      exact ⟨k, le_refl k, rfl, hk⟩

theorem freshName_spec (used : List String) (k : Nat) :
    ∃ j, k ≤ j ∧ freshName used k = (freshCandidate j, j + 1) ∧
      freshCandidate j ∉ used :=
  freshNameAux_spec (used.length + 1) used k
    (freshCandidate_exists_free used k)

end LangIT

namespace LangIT

/-! ## Bookkeeping for the LOOP-to-WHILE proof -/

theorem translateStatements_spec (used : List String) :
    ∀ (stmts : List LoopInterpreter.Statement)
      (k : Nat) (stmts' : List WhileInterpreter.Statement) (k' : Nat),
      LoopToWhileTranslator.translateStatements used stmts k = (stmts', k') →
      k ≤ k' ∧
      ∀ x ∈ WhileInterpreter.assignedVarsList stmts',
        x ∈ loopStatementsVars stmts ∨
        ∃ j, x = freshCandidate j ∧ k ≤ j ∧ j < k' ∧ x ∉ used
  | [], k, stmts', k', h => by
    rw [LoopToWhileTranslator.translateStatements] at h
    cases h
    refine ⟨le_refl k, ?_⟩
    intro x hx
    simp [WhileInterpreter.assignedVarsList] at hx
  | .assignment target value :: rest, k, stmts', k', h => by
    rw [LoopToWhileTranslator.translateStatements] at h
    rcases hr : LoopToWhileTranslator.translateStatements used rest k with
      ⟨rest2, k2⟩
    rw [hr] at h
    rw [Prod.mk.injEq] at h
    obtain ⟨h1, h2⟩ := h
    subst h1
    subst h2
    obtain ⟨hk, hvars⟩ := translateStatements_spec used rest k rest2 k2 hr
    refine ⟨hk, ?_⟩
    intro x hx
    rw [WhileInterpreter.assignedVarsList] at hx
    rw [List.mem_append] at hx
    rcases hx with hx | hx
    · rw [WhileInterpreter.assignedVars] at hx
      simp only [List.mem_singleton] at hx
      subst hx
      exact .inl (by simp [loopStatementsVars, loopStatementVars])
    · rcases hvars x hx with hmem | ⟨j, hj1, hj2, hj3, hj4⟩
      · refine .inl ?_
        rw [loopStatementsVars, List.mem_append]
        exact .inr hmem
      · exact .inr ⟨j, hj1, hj2, hj3, hj4⟩
  | .loop control body :: rest, k, stmts', k', h => by
    rw [LoopToWhileTranslator.translateStatements] at h
    obtain ⟨j0, hj0k, hfn, hj0used⟩ := freshName_spec used k
    rw [hfn] at h
    simp only at h
    rcases hb : LoopToWhileTranslator.translateStatements used body (j0 + 1)
      with ⟨body2, k2⟩
    rw [hb] at h
    simp only at h
    rcases hr : LoopToWhileTranslator.translateStatements used rest k2 with
      ⟨rest2, k3⟩
    rw [hr] at h
    simp only at h
    rw [Prod.mk.injEq] at h
    obtain ⟨h1, h2⟩ := h
    subst h1
    subst h2
    obtain ⟨hkb, hvarsb⟩ :=
      translateStatements_spec used body (j0 + 1) body2 k2 hb
    obtain ⟨hkr, hvarsr⟩ := translateStatements_spec used rest k2 rest2 k3 hr
    refine ⟨by omega, ?_⟩
    intro x hx
    rw [WhileInterpreter.assignedVarsList] at hx
    rw [List.mem_append] at hx
    rcases hx with hx | hx
    · rw [WhileInterpreter.assignedVars] at hx
      simp only [List.mem_singleton] at hx
      subst hx
      exact .inr ⟨j0, rfl, by omega, by omega, hj0used⟩
    · rw [WhileInterpreter.assignedVarsList] at hx
      rw [List.mem_append] at hx
      rcases hx with hx | hx
      · rw [WhileInterpreter.assignedVars] at hx
        have hx' : x ∈ WhileInterpreter.assignedVarsList
            (body2 ++ [.assignment (freshCandidate j0)
              (.binaryOp .sub (.var (freshCandidate j0)) (.num 1))]) := hx
        have happ : ∀ (l1 l2 : List WhileInterpreter.Statement),
            WhileInterpreter.assignedVarsList (l1 ++ l2) =
            WhileInterpreter.assignedVarsList l1 ++
              WhileInterpreter.assignedVarsList l2 := by
          intro l1
          induction l1 with
          | nil =>
            intro l2
            rw [WhileInterpreter.assignedVarsList]
            rfl
          | cons a l1 ih =>
            intro l2
            rw [List.cons_append, WhileInterpreter.assignedVarsList,
              WhileInterpreter.assignedVarsList, ih, List.append_assoc]
        rw [happ, List.mem_append] at hx'
        rcases hx' with hx' | hx'
        · rcases hvarsb x hx' with hmem | ⟨j, hj1, hj2, hj3, hj4⟩
          · refine .inl ?_
            rw [loopStatementsVars, List.mem_append]
            refine .inl ?_
            rw [loopStatementVars]
            exact List.mem_cons_of_mem _ hmem
          · exact .inr ⟨j, hj1, by omega, by omega, hj4⟩
        · simp [WhileInterpreter.assignedVarsList,
            WhileInterpreter.assignedVars] at hx'
          subst hx'
          exact .inr ⟨j0, rfl, by omega, by omega, hj0used⟩
      · rcases hvarsr x hx with hmem | ⟨j, hj1, hj2, hj3, hj4⟩
        · refine .inl ?_
          rw [loopStatementsVars, List.mem_append]
          exact .inr hmem
        · exact .inr ⟨j, hj1, by omega, by omega, hj4⟩

end LangIT

namespace LangIT

theorem assignedVarsList_append (l1 l2 : List WhileInterpreter.Statement) :
    WhileInterpreter.assignedVarsList (l1 ++ l2) =
      WhileInterpreter.assignedVarsList l1 ++
        WhileInterpreter.assignedVarsList l2 := by
  induction l1 with
  | nil =>
    rw [WhileInterpreter.assignedVarsList]
    rfl
  | cons a l1 ih =>
    rw [List.cons_append, WhileInterpreter.assignedVarsList,
      WhileInterpreter.assignedVarsList, ih, List.append_assoc]

/-- Frame lemma for the WHILE evaluator: executing a statement changes the
value and the lock of no name outside its assignment targets. -/
theorem while_executeStatement_frame :
    ∀ (stmt : WhileInterpreter.Statement) (s s' : InterpState),
      WhileInterpreter.executeStatement stmt s = .ok s' →
      ∀ x, x ∉ WhileInterpreter.assignedVars stmt →
        lookupKey s'.vars x = lookupKey s.vars x ∧
        s'.lockedVariables.contains x = s.lockedVariables.contains x := by
  apply WhileInterpreter.executeStatement.induct
    (fun stmt s => ∀ s',
      WhileInterpreter.executeStatement stmt s = .ok s' →
      ∀ x, x ∉ WhileInterpreter.assignedVars stmt →
        lookupKey s'.vars x = lookupKey s.vars x ∧
        s'.lockedVariables.contains x = s.lockedVariables.contains x)
    (fun l s => ∀ s',
      WhileInterpreter.executeStatements l s = .ok s' →
      ∀ x, x ∉ WhileInterpreter.assignedVarsList l →
        lookupKey s'.vars x = lookupKey s.vars x ∧
        s'.lockedVariables.contains x = s.lockedVariables.contains x)
    (fun c b fuel s => ∀ s',
      WhileInterpreter.runWhileLoop c b fuel s = .ok s' →
      ∀ x, x ∉ WhileInterpreter.assignedVarsList b →
        lookupKey s'.vars x = lookupKey s.vars x ∧
        s'.lockedVariables.contains x = s.lockedVariables.contains x)
  · intro target value s hlock s' h x hx
    rw [WhileInterpreter.executeStatement] at h
    simp only [hlock, if_true] at h
    cases h
    rw [WhileInterpreter.assignedVars] at hx
    simp only [List.mem_singleton] at hx
    refine ⟨rfl, ?_⟩
    simp [List.mem_erase_of_ne hx]
  · intro target value s hlock s' h x hx
    rw [WhileInterpreter.executeStatement] at h
    simp only [Bool.not_eq_true] at hlock
    simp only [hlock, Bool.false_eq_true, if_false] at h
    cases h
    rw [WhileInterpreter.assignedVars] at hx
    simp only [List.mem_singleton] at hx
    exact ⟨lookupKey_setVar_ne _ _ _ _ hx, rfl⟩
  · intro condition body s ih s' h x hx
    rw [WhileInterpreter.executeStatement] at h
    rw [WhileInterpreter.assignedVars] at hx
    exact ih s' h x hx
  · intro condition thenBody elseBody s hc ih s' h x hx
    rw [WhileInterpreter.executeStatement.eq_def] at h
    simp only [hc, if_true] at h
    rw [WhileInterpreter.assignedVars.eq_def] at hx
    simp only [List.mem_append, not_or] at hx
    exact ih s' h x hx.1
  · intro condition thenBody s hc elseStatements ih s' h x hx
    simp only [Bool.not_eq_true] at hc
    rw [WhileInterpreter.executeStatement.eq_def] at h
    simp only [hc, Bool.false_eq_true, if_false] at h
    rw [WhileInterpreter.assignedVars.eq_def] at hx
    simp only [List.mem_append, not_or] at hx
    exact ih s' h x hx.2
  · intro condition thenBody s hc s' h x hx
    simp only [Bool.not_eq_true] at hc
    rw [WhileInterpreter.executeStatement.eq_def] at h
    simp only [hc, Bool.false_eq_true, if_false] at h
    cases h
    exact ⟨rfl, rfl⟩
  · intro s s' h x hx
    rw [WhileInterpreter.executeStatements] at h
    cases h
    exact ⟨rfl, rfl⟩
  · intro stmt rest s ih1 ih2 s' h x hx
    rw [WhileInterpreter.executeStatements] at h
    rw [WhileInterpreter.assignedVarsList] at hx
    rw [List.mem_append] at hx
    push_neg at hx
    cases hstep : WhileInterpreter.executeStatement stmt s with
    | ok s₁ =>
      rw [hstep] at h
      obtain ⟨hv1, hl1⟩ := ih1 s₁ hstep x hx.1
      obtain ⟨hv2, hl2⟩ := ih2 s₁ s' h x hx.2
      exact ⟨hv2.trans hv1, hl2.trans hl1⟩
    | error e =>
      rw [hstep] at h
      exact Except.noConfusion h
  · intro condition body s hc s' h x hx
    rw [WhileInterpreter.runWhileLoop] at h
    simp only [hc, if_true] at h
    exact Except.noConfusion h
  · intro condition body s hc s' h x hx
    simp only [Bool.not_eq_true] at hc
    rw [WhileInterpreter.runWhileLoop] at h
    simp only [hc, Bool.false_eq_true, if_false] at h
    cases h
    exact ⟨rfl, rfl⟩
  · intro condition body fuel s hc ihBody ihLoop s' h x hx
    rw [WhileInterpreter.runWhileLoop] at h
    simp only [hc, if_true] at h
    cases hstep : WhileInterpreter.executeStatements body s with
    | ok s₁ =>
      rw [hstep] at h
      obtain ⟨hv1, hl1⟩ := ihBody s₁ hstep x hx
      obtain ⟨hv2, hl2⟩ := ihLoop s₁ s' h x hx
      exact ⟨hv2.trans hv1, hl2.trans hl1⟩
    | error e =>
      rw [hstep] at h
      exact Except.noConfusion h
  · intro condition body fuel s hc s' h x hx
    simp only [Bool.not_eq_true] at hc
    rw [WhileInterpreter.runWhileLoop] at h
    simp only [hc, Bool.false_eq_true, if_false] at h
    cases h
    exact ⟨rfl, rfl⟩

theorem while_executeStatements_frame
    (l : List WhileInterpreter.Statement) (s s' : InterpState)
    (h : WhileInterpreter.executeStatements l s = .ok s') :
    ∀ x, x ∉ WhileInterpreter.assignedVarsList l →
      lookupKey s'.vars x = lookupKey s.vars x ∧
      s'.lockedVariables.contains x = s.lockedVariables.contains x := by
  induction l generalizing s with
  | nil =>
    rw [WhileInterpreter.executeStatements] at h
    cases h
    exact fun x _ => ⟨rfl, rfl⟩
  | cons stmt rest ih =>
    rw [WhileInterpreter.executeStatements] at h
    intro x hx
    rw [WhileInterpreter.assignedVarsList] at hx
    rw [List.mem_append] at hx
    push_neg at hx
    cases hstep : WhileInterpreter.executeStatement stmt s with
    | ok s₁ =>
      rw [hstep] at h
      obtain ⟨hv1, hl1⟩ := while_executeStatement_frame stmt s s₁ hstep x hx.1
      obtain ⟨hv2, hl2⟩ := ih s₁ h x hx.2
      exact ⟨hv2.trans hv1, hl2.trans hl1⟩
    | error e =>
      rw [hstep] at h
      exact Except.noConfusion h

end LangIT

namespace LangIT

theorem evaluateExpression_congr (τv σv : VarMap) (e : Expression)
    (h : ∀ x ∈ expressionVars e, lookupKey τv x = lookupKey σv x) :
    WhileInterpreter.evaluateExpression τv e =
      WhileInterpreter.evaluateExpression σv e := by
  induction e with
  | num value => rfl
  | var name =>
    have := h name (by simp [expressionVars])
    simp [WhileInterpreter.evaluateExpression,
      WhileInterpreter.getVariableValue, this]
  | binaryOp operator left right ihl ihr =>
    have hl := ihl fun x hx =>
      h x (by rw [expressionVars, List.mem_append]; exact .inl hx)
    have hr := ihr fun x hx =>
      h x (by rw [expressionVars, List.mem_append]; exact .inr hx)
    cases operator <;>
      simp [WhileInterpreter.evaluateExpression, hl, hr]

theorem evaluateCondition_congr (τv σv : VarMap) (c : Condition)
    (h : ∀ x ∈ conditionVars c, lookupKey τv x = lookupKey σv x) :
    WhileInterpreter.evaluateCondition τv c =
      WhileInterpreter.evaluateCondition σv c := by
  have hl := evaluateExpression_congr τv σv c.left fun x hx =>
    h x (by rw [conditionVars, List.mem_append]; exact .inl hx)
  have hr := evaluateExpression_congr τv σv c.right fun x hx =>
    h x (by rw [conditionVars, List.mem_append]; exact .inr hx)
  cases hop : c.operator <;>
    simp [WhileInterpreter.evaluateCondition, hl, hr, hop]

theorem loadInitialVariables_locked_provenance :
    ∀ (iv : VarMap) (s : InterpState) (x : String),
      (loadInitialVariables iv s).lockedVariables.contains x = true →
      s.lockedVariables.contains x = true ∨ x ∈ iv.map Prod.fst := by
  intro iv
  induction iv with
  | nil => intro s x h; exact .inl h
  | cons kv rest ih =>
    obtain ⟨k, v⟩ := kv
    intro s x h
    rw [loadInitialVariables] at h
    rcases ih _ x h with hs | hrest
    · by_cases hk : x = k
      · exact .inr (by simp [hk])
      · rw [contains_addLock_ne _ _ _ hk] at hs
        exact .inl hs
    · exact .inr (by simp; right; simpa using hrest)

theorem runLoopBody_ok_bound
    (body : List LoopInterpreter.Statement) :
    ∀ (m counter : Nat) (s s' : InterpState),
      LoopInterpreter.runLoopBody body m counter s = .ok s' →
      m = 0 ∨ m + counter ≤ SAFETY_LIMIT + 1 := by
  intro m
  induction m with
  | zero => intro counter s s' _; exact .inl rfl
  | succ m ih =>
    intro counter s s' h
    rw [LoopInterpreter.runLoopBody] at h
    by_cases hc : counter > SAFETY_LIMIT
    · rw [if_pos hc] at h
      exact Except.noConfusion h
    · rw [if_neg hc] at h
      cases hstep : LoopInterpreter.executeStatements body s with
      | ok s₁ =>
        rw [hstep] at h
        rw [except_bind_ok] at h
        rcases ih (counter + 1) s₁ s' h with h0 | hbound
        · subst h0
          right
          omega
        · right
          omega
      | error e =>
        rw [hstep] at h
        exact Except.noConfusion h

theorem while_executeStatements_append
    (l1 l2 : List WhileInterpreter.Statement) :
    ∀ s : InterpState,
      WhileInterpreter.executeStatements (l1 ++ l2) s =
        (WhileInterpreter.executeStatements l1 s).bind
          (WhileInterpreter.executeStatements l2) := by
  induction l1 with
  | nil =>
    intro s
    rw [List.nil_append, WhileInterpreter.executeStatements]
    rfl
  | cons stmt rest ih =>
    intro s
    rw [List.cons_append, WhileInterpreter.executeStatements,
      WhileInterpreter.executeStatements]
    cases hstep : WhileInterpreter.executeStatement stmt s with
    | ok s₁ =>
      rw [except_bind_ok, except_bind_ok, ih s₁]
    | error e =>
      rfl

end LangIT

namespace LangIT

/-! ## Simulation for the LOOP-to-WHILE translation -/

theorem not_introducible_of_mem {used : List String} {x : String}
    (h : x ∈ used) : ¬ introducible used x := by
  rintro ⟨j, rfl, hnot⟩
  exact hnot h

theorem loop_sim_assign (used : List String) (t : String) (v : Expression)
    (σ τ σ₁ : InterpState) (hR : LoopSimRel used σ τ) (ht : t ∈ used)
    (hv : ∀ x ∈ expressionVars v, x ∈ used)
    (hstep : LoopInterpreter.executeStatement (.assignment t v) σ = .ok σ₁) :
    ∃ τ₁, WhileInterpreter.executeStatement (.assignment t v) τ = .ok τ₁ ∧
      LoopSimRel used σ₁ τ₁ := by
  obtain ⟨hlockeq, hlockni, hvals⟩ := hR
  have hveq : WhileInterpreter.evaluateExpression τ.vars v =
      WhileInterpreter.evaluateExpression σ.vars v :=
    evaluateExpression_congr _ _ _ fun x hx =>
      hvals x (not_introducible_of_mem (hv x hx))
  rw [LoopInterpreter.executeStatement] at hstep
  rw [WhileInterpreter.executeStatement]
  by_cases hlock : σ.lockedVariables.contains t = true
  · have hlockτ : τ.lockedVariables.contains t = true := by
      rw [hlockeq]; exact hlock
    rw [if_pos hlockτ]
    rw [if_pos hlock] at hstep
    cases hstep
    refine ⟨_, rfl, ?_, ?_, ?_⟩
    · simp only [hlockeq]
    · intro x hx
      have : x ∈ τ.lockedVariables := by
        have hx' : x ∈ τ.lockedVariables.erase t := by simpa using hx
        exact List.mem_of_mem_erase hx'
      exact hlockni x this
    · exact hvals
  · simp only [Bool.not_eq_true] at hlock
    have hlockτ : τ.lockedVariables.contains t = false := by
      rw [hlockeq]; exact hlock
    rw [hlockτ]
    rw [hlock] at hstep
    simp only [Bool.false_eq_true, if_false] at hstep ⊢
    cases hstep
    refine ⟨_, rfl, ?_, ?_, ?_⟩
    · simp only [hlockeq]
    · exact hlockni
    · intro x hx
      by_cases hxt : x = t
      · subst hxt
        rw [lookupKey_setVar_self, lookupKey_setVar_self, hveq]
      · rw [lookupKey_setVar_ne _ _ _ _ hxt, lookupKey_setVar_ne _ _ _ _ hxt]
        exact hvals x hx

theorem loop_sim_iters (used : List String) (c : String)
    (body : List LoopInterpreter.Statement)
    (body2 : List WhileInterpreter.Statement)
    (hcintro : introducible used c)
    (hbody_nc : c ∉ WhileInterpreter.assignedVarsList body2)
    (hbodySim : ∀ σa τa σb, LoopSimRel used σa τa →
      LoopInterpreter.executeStatements body σa = .ok σb →
      ∃ τb, WhileInterpreter.executeStatements body2 τa = .ok τb ∧
        LoopSimRel used σb τb) :
    ∀ (m fuel counter : Nat) (σ τ σ' : InterpState),
      m ≤ fuel →
      LoopSimRel used σ τ →
      lookupKey τ.vars c = some m →
      LoopInterpreter.runLoopBody body m counter σ = .ok σ' →
      ∃ τ', WhileInterpreter.runWhileLoop ⟨.ne, .var c, .num 0⟩
          (body2 ++ [.assignment c (.binaryOp .sub (.var c) (.num 1))])
          fuel τ = .ok τ' ∧ LoopSimRel used σ' τ' := by
  intro m
  induction m with
  | zero =>
    intro fuel counter σ τ σ' _ hR hc h
    rw [LoopInterpreter.runLoopBody] at h
    cases h
    have hcond : WhileInterpreter.evaluateCondition τ.vars
        ⟨.ne, .var c, .num 0⟩ = false := by
      simp [WhileInterpreter.evaluateCondition,
        WhileInterpreter.evaluateExpression,
        WhileInterpreter.getVariableValue, hc]
    refine ⟨τ, ?_, hR⟩
    cases fuel with
    | zero =>
      rw [WhileInterpreter.runWhileLoop]
      simp only [hcond, Bool.false_eq_true, if_false]
    | succ f =>
      rw [WhileInterpreter.runWhileLoop]
      simp only [hcond, Bool.false_eq_true, if_false]
  | succ m ih =>
    intro fuel counter σ τ σ' hmf hR hc h
    cases fuel with
    | zero => omega
    | succ f =>
      rw [LoopInterpreter.runLoopBody] at h
      by_cases hcnt : counter > SAFETY_LIMIT
      · rw [if_pos hcnt] at h
        exact Except.noConfusion h
      · rw [if_neg hcnt] at h
        cases hstep : LoopInterpreter.executeStatements body σ with
        | error e =>
          rw [hstep] at h
          exact Except.noConfusion h
        | ok σ₁ =>
          rw [hstep] at h
          rw [except_bind_ok] at h
          obtain ⟨τ₁, hexecb, hR₁⟩ := hbodySim σ τ σ₁ hR hstep
          have hcond : WhileInterpreter.evaluateCondition τ.vars
              ⟨.ne, .var c, .num 0⟩ = true := by
            simp [WhileInterpreter.evaluateCondition,
              WhileInterpreter.evaluateExpression,
              WhileInterpreter.getVariableValue, hc]
          have hc₁ : lookupKey τ₁.vars c = some (m + 1) := by
            rw [(while_executeStatements_frame body2 τ τ₁ hexecb c
              hbody_nc).1]
            exact hc
          have hclock : τ₁.lockedVariables.contains c = false := by
            cases hcl : τ₁.lockedVariables.contains c with
            | false => rfl
            | true =>
              exact absurd hcintro
                (hR₁.2.1 c (by simpa using hcl))
          have hdec : WhileInterpreter.executeStatement
              (.assignment c (.binaryOp .sub (.var c) (.num 1))) τ₁ =
              .ok { τ₁ with vars := setVar τ₁.vars c m } := by
            rw [WhileInterpreter.executeStatement]
            rw [hclock]
            simp only [Bool.false_eq_true, if_false]
            rw [show WhileInterpreter.evaluateExpression τ₁.vars
              (.binaryOp .sub (.var c) (.num 1)) = m by
              simp [WhileInterpreter.evaluateExpression,
                WhileInterpreter.getVariableValue, hc₁]]
          have hR₂ : LoopSimRel used σ₁
              { τ₁ with vars := setVar τ₁.vars c m } := by
            obtain ⟨hl, hni, hv⟩ := hR₁
            refine ⟨hl, hni, ?_⟩
            intro x hx
            have hxc : x ≠ c := fun e => hx (e ▸ hcintro)
            rw [lookupKey_setVar_ne _ _ _ _ hxc]
            exact hv x hx
          have hc₂ : lookupKey (setVar τ₁.vars c m) c = some m :=
            lookupKey_setVar_self _ _ _
          obtain ⟨τ', hrun, hR'⟩ := ih f (counter + 1) σ₁
            { τ₁ with vars := setVar τ₁.vars c m } σ' (by omega) hR₂ hc₂ h
          refine ⟨τ', ?_, hR'⟩
          rw [WhileInterpreter.runWhileLoop]
          simp only [hcond, if_true]
          rw [while_executeStatements_append, hexecb, except_bind_ok']
          rw [WhileInterpreter.executeStatements, hdec, except_bind_ok,
            WhileInterpreter.executeStatements, except_bind_ok]
          exact hrun

end LangIT

namespace LangIT

theorem loop_sim_stmts (used : List String) :
    ∀ (stmts : List LoopInterpreter.Statement) (k : Nat)
      (stmts' : List WhileInterpreter.Statement) (k' : Nat),
      LoopToWhileTranslator.translateStatements used stmts k = (stmts', k') →
      (∀ x ∈ loopStatementsVars stmts, x ∈ used) →
      ∀ (σ τ σ' : InterpState), LoopSimRel used σ τ →
        LoopInterpreter.executeStatements stmts σ = .ok σ' →
        ∃ τ', WhileInterpreter.executeStatements stmts' τ = .ok τ' ∧
          LoopSimRel used σ' τ'
  | [], k, stmts', k', htr, hsub, σ, τ, σ', hR, hexec => by
    rw [LoopToWhileTranslator.translateStatements] at htr
    rw [Prod.mk.injEq] at htr
    obtain ⟨h1, h2⟩ := htr
    subst h1
    rw [LoopInterpreter.executeStatements] at hexec
    cases hexec
    refine ⟨τ, ?_, hR⟩
    rw [WhileInterpreter.executeStatements]
  | .assignment target value :: rest, k, stmts', k', htr, hsub, σ, τ, σ',
      hR, hexec => by
    rw [LoopToWhileTranslator.translateStatements] at htr
    rcases hr : LoopToWhileTranslator.translateStatements used rest k with
      ⟨rest2, k2⟩
    rw [hr] at htr
    simp only at htr
    rw [Prod.mk.injEq] at htr
    obtain ⟨h1, h2⟩ := htr
    subst h1
    rw [LoopInterpreter.executeStatements] at hexec
    cases hstep : LoopInterpreter.executeStatement
        (.assignment target value) σ with
    | error e =>
      rw [hstep] at hexec
      exact Except.noConfusion hexec
    | ok σ₁ =>
      rw [hstep] at hexec
      rw [except_bind_ok] at hexec
      have hsubhead : ∀ x ∈ loopStatementVars
          (LoopInterpreter.Statement.assignment target value), x ∈ used := by
        intro x hx
        refine hsub x ?_
        rw [loopStatementsVars, List.mem_append]
        exact .inl hx
      obtain ⟨τ₁, hstepτ, hR₁⟩ := loop_sim_assign used target value σ τ σ₁ hR
        (hsubhead target (by rw [loopStatementVars]; exact List.mem_cons_self _ _))
        (fun x hx => hsubhead x
          (by rw [loopStatementVars]; exact List.mem_cons_of_mem _ hx))
        hstep
      obtain ⟨τ', hexecτ, hR'⟩ := loop_sim_stmts used rest k rest2 k2 hr
        (fun x hx => hsub x
          (by rw [loopStatementsVars, List.mem_append]; exact .inr hx))
        σ₁ τ₁ σ' hR₁ hexec
      refine ⟨τ', ?_, hR'⟩
      rw [WhileInterpreter.executeStatements, hstepτ, except_bind_ok]
      exact hexecτ
  | .loop control body :: rest, k, stmts', k', htr, hsub, σ, τ, σ',
      hR, hexec => by
    rw [LoopToWhileTranslator.translateStatements] at htr
    obtain ⟨j0, hj0k, hfn, hj0used⟩ := freshName_spec used k
    rw [hfn] at htr
    simp only at htr
    rcases hb : LoopToWhileTranslator.translateStatements used body (j0 + 1)
      with ⟨body2, k2⟩
    rw [hb] at htr
    simp only at htr
    rcases hr : LoopToWhileTranslator.translateStatements used rest k2 with
      ⟨rest2, k3⟩
    rw [hr] at htr
    simp only at htr
    rw [Prod.mk.injEq] at htr
    obtain ⟨h1, h2⟩ := htr
    subst h1
    -- decompose the LOOP-side execution
    rw [LoopInterpreter.executeStatements] at hexec
    cases hstep : LoopInterpreter.executeStatement (.loop control body) σ with
    | error e =>
      rw [hstep] at hexec
      exact Except.noConfusion hexec
    | ok σ₁ =>
      rw [hstep] at hexec
      rw [except_bind_ok] at hexec
      rw [LoopInterpreter.executeStatement] at hstep
      -- head variable membership facts
      have hcontrol : control ∈ used := hsub control (by
        rw [loopStatementsVars, List.mem_append]
        refine .inl ?_
        rw [loopStatementVars]
        exact List.mem_cons_self _ _)
      have hsubbody : ∀ x ∈ loopStatementsVars body, x ∈ used := by
        intro x hx
        refine hsub x ?_
        rw [loopStatementsVars, List.mem_append]
        refine .inl ?_
        rw [loopStatementVars]
        exact List.mem_cons_of_mem _ hx
      have hsubrest : ∀ x ∈ loopStatementsVars rest, x ∈ used := by
        intro x hx
        refine hsub x ?_
        rw [loopStatementsVars, List.mem_append]
        exact .inr hx
      have hcintro : introducible used (freshCandidate j0) :=
        ⟨j0, rfl, hj0used⟩
      -- the loop counter value agrees on both sides
      obtain ⟨hlockeq, hlockni, hvals⟩ := hR
      have hn : WhileInterpreter.getVariableValue τ.vars control =
          WhileInterpreter.getVariableValue σ.vars control := by
        rw [WhileInterpreter.getVariableValue,
          WhileInterpreter.getVariableValue,
          hvals control (not_introducible_of_mem hcontrol)]
      -- first translated statement: counter initialization
      have hclockτ : τ.lockedVariables.contains (freshCandidate j0)
          = false := by
        cases hcl : τ.lockedVariables.contains (freshCandidate j0) with
        | false => rfl
        | true => exact absurd hcintro (hlockni _ (by simpa using hcl))
      have hinit : WhileInterpreter.executeStatement
          (.assignment (freshCandidate j0) (.var control)) τ =
          .ok { τ with vars := setVar τ.vars (freshCandidate j0) (WhileInterpreter.getVariableValue σ.vars control) } := by
        rw [WhileInterpreter.executeStatement]
        rw [hclockτ]
        simp only [Bool.false_eq_true, if_false,
          WhileInterpreter.evaluateExpression]
        rw [hn]
      have hR₁ : LoopSimRel used σ
          { τ with vars := setVar τ.vars (freshCandidate j0) (WhileInterpreter.getVariableValue σ.vars control) } := by
        refine ⟨hlockeq, hlockni, ?_⟩
        intro x hx
        have hxc : x ≠ freshCandidate j0 := fun e => hx (e ▸ hcintro)
        rw [lookupKey_setVar_ne _ _ _ _ hxc]
        exact hvals x hx
      have hcval : lookupKey (setVar τ.vars (freshCandidate j0)
          (WhileInterpreter.getVariableValue σ.vars control))
          (freshCandidate j0) =
          some (WhileInterpreter.getVariableValue σ.vars control) :=
        lookupKey_setVar_self _ _ _
      -- the fresh counter is not assigned by the translated body
      have hbody_nc : freshCandidate j0 ∉
          WhileInterpreter.assignedVarsList body2 := by
        intro hmem
        rcases (translateStatements_spec used body (j0 + 1) body2 k2 hb).2
            _ hmem with hsrc | ⟨j, hj1, hj2, hj3, hj4⟩
        · exact hj0used (hsubbody _ hsrc)
        · have := freshCandidate_inj hj1
          omega
      -- iteration count stays within the WHILE fuel
      have hbound : WhileInterpreter.getVariableValue σ.vars control ≤
          SAFETY_LIMIT + 1 := by
        rcases runLoopBody_ok_bound body _ 0 σ σ₁ hstep with h0 | hb'
        · omega
        · omega
      -- run the simulated loop
      obtain ⟨τ₂, hrun, hR₂⟩ := loop_sim_iters used (freshCandidate j0) body
        body2 hcintro hbody_nc
        (fun σa τa σb hRa hex =>
          loop_sim_stmts used body (j0 + 1) body2 k2 hb hsubbody
            σa τa σb hRa hex)
        (WhileInterpreter.getVariableValue σ.vars control)
        (SAFETY_LIMIT + 1) 0 σ
        { τ with vars := setVar τ.vars (freshCandidate j0) (WhileInterpreter.getVariableValue σ.vars control) }
        σ₁ hbound hR₁ hcval hstep
      -- run the translated remainder
      obtain ⟨τ', hrest, hR'⟩ := loop_sim_stmts used rest k2 rest2 k3 hr
        hsubrest σ₁ τ₂ σ' hR₂ hexec
      refine ⟨τ', ?_, hR'⟩
      rw [WhileInterpreter.executeStatements, hinit, except_bind_ok]
      rw [WhileInterpreter.executeStatements]
      rw [show WhileInterpreter.executeStatement
        (.whileStmt ⟨.ne, .var (freshCandidate j0), .num 0⟩
          (body2 ++ [.assignment (freshCandidate j0)
            (.binaryOp .sub (.var (freshCandidate j0)) (.num 1))]))
        { τ with vars := setVar τ.vars (freshCandidate j0) (WhileInterpreter.getVariableValue σ.vars control) } =
        WhileInterpreter.runWhileLoop
          ⟨.ne, .var (freshCandidate j0), .num 0⟩
          (body2 ++ [.assignment (freshCandidate j0)
            (.binaryOp .sub (.var (freshCandidate j0)) (.num 1))])
          (SAFETY_LIMIT + 1)
          { τ with vars := setVar τ.vars (freshCandidate j0) (WhileInterpreter.getVariableValue σ.vars control) } by
        rw [WhileInterpreter.executeStatement]]
      rw [hrun, except_bind_ok]
      exact hrest

end LangIT

namespace LangIT

theorem while_evaluate_eq (program : WhileInterpreter.Program)
    (options : Option EvalArg) :
    WhileInterpreter.evaluate program options =
      (WhileInterpreter.executeStatements program.statements
        (initialStateOf options)).bind (fun s2 => .ok s2.vars) := by
  cases options with
  | none => rfl
  | some arg =>
    cases arg with
    | map m => rfl
    | options o => rfl

theorem loop_evaluate_eq (program : LoopInterpreter.Program)
    (options : Option EvalArg) :
    LoopInterpreter.evaluate program options =
      (LoopInterpreter.executeStatements program.statements
        (initialStateOf options)).bind (fun s2 => .ok s2.vars) := rfl

/-- Correctness of the spec-modelled LOOP-to-WHILE translation: when no
locked (pinned) name is one the fresh-name allocator could introduce, a
successful direct LOOP evaluation is reproduced by the translated WHILE
program on every non-introducible name. -/
theorem loopToWhile_evaluate_correct
    (program : LoopInterpreter.Program) (options : Option EvalArg)
    (result : VarMap)
    (hlock : ∀ x, (initialStateOf options).lockedVariables.contains x
      = true → ¬ introducible (loopStatementsVars program.statements) x)
    (h : LoopInterpreter.evaluate program options = .ok result) :
    ∃ result', WhileInterpreter.evaluate
        (LoopToWhileTranslator.translate program) options = .ok result' ∧
      ∀ x, ¬ introducible (loopStatementsVars program.statements) x →
        lookupKey result' x = lookupKey result x := by
  rw [loop_evaluate_eq] at h
  cases hex : LoopInterpreter.executeStatements program.statements
      (initialStateOf options) with
  | error e =>
    rw [hex, except_bind_error'] at h
    exact Except.noConfusion h
  | ok σ₂ =>
    rw [hex, except_bind_ok'] at h
    cases h
    rcases htr : LoopToWhileTranslator.translateStatements
        (loopStatementsVars program.statements) program.statements 0 with
      ⟨stmts', kf⟩
    have hR0 : LoopSimRel (loopStatementsVars program.statements)
        (initialStateOf options) (initialStateOf options) := by
      refine ⟨rfl, ?_, fun x _ => rfl⟩
      intro x hx
      exact hlock x (by simpa using hx)
    obtain ⟨τ', hexecτ, hR'⟩ := loop_sim_stmts
      (loopStatementsVars program.statements) program.statements 0 stmts' kf
      htr (fun x hx => hx) (initialStateOf options) (initialStateOf options)
      σ₂ hR0 hex
    refine ⟨τ'.vars, ?_, ?_⟩
    · rw [while_evaluate_eq]
      rw [show (LoopToWhileTranslator.translate program).statements = stmts'
        by rw [LoopToWhileTranslator.translate]; rw [htr]]
      rw [hexecτ, except_bind_ok']
    · intro x hx
      exact hR'.2.2 x hx

end LangIT

namespace LangIT

/-! ## The two evaluators agree on expressions and conditions -/

theorem goto_evaluateExpression_eq (store : VarMap) (e : Expression) :
    GotoInterpreter.evaluateExpression store e =
      WhileInterpreter.evaluateExpression store e := by
  induction e with
  | num value => rfl
  | var name => rfl
  | binaryOp operator left right ihl ihr =>
    cases operator <;>
      simp [GotoInterpreter.evaluateExpression,
        WhileInterpreter.evaluateExpression, ihl, ihr]

theorem goto_evaluateCondition_eq (store : VarMap) (c : Condition) :
    GotoInterpreter.evaluateCondition store c =
      WhileInterpreter.evaluateCondition store c := by
  cases hop : c.operator <;>
    simp [GotoInterpreter.evaluateCondition,
      WhileInterpreter.evaluateCondition, hop,
      goto_evaluateExpression_eq]

theorem negateCondition_eval (store : VarMap) (c : Condition) :
    GotoInterpreter.evaluateCondition store (negateCondition c) =
      ! WhileInterpreter.evaluateCondition store c := by
  obtain ⟨op, l, r⟩ := c
  cases op with
  | eq =>
    simp [negateCondition, negateOp, GotoInterpreter.evaluateCondition,
      WhileInterpreter.evaluateCondition, goto_evaluateExpression_eq, bne]
  | ne =>
    simp [negateCondition, negateOp, GotoInterpreter.evaluateCondition,
      WhileInterpreter.evaluateCondition, goto_evaluateExpression_eq, bne]
  | lt =>
    simp only [negateCondition, negateOp, GotoInterpreter.evaluateCondition,
      WhileInterpreter.evaluateCondition, goto_evaluateExpression_eq]
    rw [← decide_not]
    exact decide_eq_decide.2 (Iff.symm Nat.not_lt)
  | ge =>
    simp only [negateCondition, negateOp, GotoInterpreter.evaluateCondition,
      WhileInterpreter.evaluateCondition, goto_evaluateExpression_eq]
    rw [← decide_not]
    exact decide_eq_decide.2 (Iff.symm Nat.not_le)
  | gt =>
    simp only [negateCondition, negateOp, GotoInterpreter.evaluateCondition,
      WhileInterpreter.evaluateCondition, goto_evaluateExpression_eq]
    rw [← decide_not]
    exact decide_eq_decide.2 (Iff.symm Nat.not_lt)
  | le =>
    simp only [negateCondition, negateOp, GotoInterpreter.evaluateCondition,
      WhileInterpreter.evaluateCondition, goto_evaluateExpression_eq]
    rw [← decide_not]
    exact decide_eq_decide.2 (Iff.symm Nat.not_le)

/-! ## Simulation reachability -/

theorem simReach_refl (P : List GotoInterpreter.Instruction)
    (lm : GotoInterpreter.LabelMap) (p : Nat) (s : InterpState) :
    SimReach P lm p s p s :=
  fun fuel => .inl ⟨fuel, le_refl fuel, rfl⟩

theorem simReach_trans {P : List GotoInterpreter.Instruction}
    {lm : GotoInterpreter.LabelMap} {p1 p2 p3 : Nat}
    {s1 s2 s3 : InterpState} (h1 : SimReach P lm p1 s1 p2 s2)
    (h2 : SimReach P lm p2 s2 p3 s3) : SimReach P lm p1 s1 p3 s3 := by
  intro fuel
  rcases h1 fuel with ⟨fuel', hle, heq⟩ | herr
  · rcases h2 fuel' with ⟨fuel'', hle', heq'⟩ | herr'
    · exact .inl ⟨fuel'', le_trans hle' hle, heq.trans heq'⟩
    · exact .inr (heq.trans herr')
  · exact .inr herr

theorem simReach_step_assign {P : List GotoInterpreter.Instruction}
    {lm : GotoInterpreter.LabelMap} {p : Nat} {lbl : Option String}
    {target : String} {value : Expression} {s s₂ : InterpState}
    (hinstr : P[p]? = some ⟨lbl, .assignment target value⟩)
    (hstep : WhileInterpreter.executeStatement (.assignment target value) s =
      .ok s₂) :
    SimReach P lm p s (p + 1) s₂ := by
  have hpc : p < P.length := (List.getElem?_eq_some_iff.1 hinstr).1
  rw [WhileInterpreter.executeStatement] at hstep
  intro fuel
  cases fuel with
  | zero =>
    refine .inr ?_
    rw [GotoInterpreter.runFrom, if_pos hpc]
  | succ fuel =>
    refine .inl ⟨fuel, Nat.le_succ fuel, ?_⟩
    rw [GotoInterpreter.runFrom, if_pos hpc, hinstr]
    simp only
    rw [goto_evaluateExpression_eq]
    by_cases hlock : s.lockedVariables.contains target = true
    · rw [if_pos hlock]
      rw [if_pos hlock] at hstep
      cases hstep
      rfl
    · simp only [Bool.not_eq_true] at hlock
      rw [hlock] at hstep ⊢
      simp only [Bool.false_eq_true, if_false] at hstep ⊢
      cases hstep
      rfl

theorem simReach_step_goto {P : List GotoInterpreter.Instruction}
    {lm : GotoInterpreter.LabelMap} {p j : Nat} {lbl : Option String}
    {label : String} {s : InterpState}
    (hinstr : P[p]? = some ⟨lbl, .goto label⟩)
    (hlook : lookupKey lm label = some j) :
    SimReach P lm p s j s := by
  have hpc : p < P.length := (List.getElem?_eq_some_iff.1 hinstr).1
  intro fuel
  cases fuel with
  | zero =>
    refine .inr ?_
    rw [GotoInterpreter.runFrom, if_pos hpc]
  | succ fuel =>
    refine .inl ⟨fuel, Nat.le_succ fuel, ?_⟩
    rw [GotoInterpreter.runFrom, if_pos hpc, hinstr]
    simp only
    rw [show GotoInterpreter.getLabelIndex lm label = .ok j by
      simp [GotoInterpreter.getLabelIndex, hlook]]
    rfl

theorem simReach_step_ifGoto_true {P : List GotoInterpreter.Instruction}
    {lm : GotoInterpreter.LabelMap} {p j : Nat} {lbl : Option String}
    {c : Condition} {label : String} {s : InterpState}
    (hinstr : P[p]? = some ⟨lbl, .ifGoto c label⟩)
    (hcond : GotoInterpreter.evaluateCondition s.vars c = true)
    (hlook : lookupKey lm label = some j) :
    SimReach P lm p s j s := by
  have hpc : p < P.length := (List.getElem?_eq_some_iff.1 hinstr).1
  intro fuel
  cases fuel with
  | zero =>
    refine .inr ?_
    rw [GotoInterpreter.runFrom, if_pos hpc]
  | succ fuel =>
    refine .inl ⟨fuel, Nat.le_succ fuel, ?_⟩
    rw [GotoInterpreter.runFrom, if_pos hpc, hinstr]
    simp only [hcond, if_true]
    rw [show GotoInterpreter.getLabelIndex lm label = .ok j by
      simp [GotoInterpreter.getLabelIndex, hlook]]
    rfl

theorem simReach_step_ifGoto_false {P : List GotoInterpreter.Instruction}
    {lm : GotoInterpreter.LabelMap} {p : Nat} {lbl : Option String}
    {c : Condition} {label : String} {s : InterpState}
    (hinstr : P[p]? = some ⟨lbl, .ifGoto c label⟩)
    (hcond : GotoInterpreter.evaluateCondition s.vars c = false) :
    SimReach P lm p s (p + 1) s := by
  have hpc : p < P.length := (List.getElem?_eq_some_iff.1 hinstr).1
  intro fuel
  cases fuel with
  | zero =>
    refine .inr ?_
    rw [GotoInterpreter.runFrom, if_pos hpc]
  | succ fuel =>
    refine .inl ⟨fuel, Nat.le_succ fuel, ?_⟩
    rw [GotoInterpreter.runFrom, if_pos hpc, hinstr]
    simp only [hcond, Bool.false_eq_true, if_false]

theorem runFrom_halt {P : List GotoInterpreter.Instruction}
    {lm : GotoInterpreter.LabelMap} {p : Nat} {lbl : Option String}
    {s : InterpState} (hinstr : P[p]? = some ⟨lbl, .halt⟩) :
    ∀ fuel, GotoInterpreter.runFrom P lm fuel p s = .ok s ∨
      GotoInterpreter.runFrom P lm fuel p s =
        .error GotoInterpreter.stepLimitMessage := by
  have hpc : p < P.length := (List.getElem?_eq_some_iff.1 hinstr).1
  intro fuel
  cases fuel with
  | zero =>
    refine .inr ?_
    rw [GotoInterpreter.runFrom, if_pos hpc]
  | succ fuel =>
    refine .inl ?_
    rw [GotoInterpreter.runFrom, if_pos hpc, hinstr]

end LangIT

namespace LangIT

/-! ## Label-map lookups for well-labeled programs -/

theorem lookupKey_append (m1 m2 : VarMap) (x : String) :
    lookupKey (m1 ++ m2) x =
      match lookupKey m1 x with
      | some v => some v
      | none => lookupKey m2 x := by
  induction m1 with
  | nil => rfl
  | cons kv rest ih =>
    obtain ⟨k, v⟩ := kv
    by_cases h : k = x <;> simp [lookupKey, h, ih]

theorem buildLabelMap_preserves_acc :
    ∀ (instructions : List GotoInterpreter.Instruction) (idx : Nat)
      (acc lm : GotoInterpreter.LabelMap),
      GotoInterpreter.buildLabelMap instructions idx acc = .ok lm →
      ∀ l, hasKey acc l = true → lookupKey lm l = lookupKey acc l := by
  intro instructions
  induction instructions with
  | nil =>
    intro idx acc lm h l _
    rw [GotoInterpreter.buildLabelMap] at h
    cases h
    rfl
  | cons i rest ih =>
    intro idx acc lm h l hl
    rw [GotoInterpreter.buildLabelMap] at h
    cases hi : i.label with
    | none =>
      rw [hi] at h
      exact ih (idx + 1) acc lm h l hl
    | some lab =>
      rw [hi] at h
      by_cases he : lab = ""
      · subst he
        simp only [ne_eq, not_true_eq_false, if_false] at h
        exact ih (idx + 1) acc lm h l hl
      · simp only [ne_eq, he, not_false_eq_true, if_true] at h
        cases hk : hasKey acc lab with
        | true =>
          rw [hk, if_pos rfl] at h
          exact Except.noConfusion h
        | false =>
          rw [hk] at h
          simp only [Bool.false_eq_true, if_false] at h
          have hl' : hasKey (acc ++ [(lab, idx)]) l = true := by
            rw [hasKey, lookupKey_append]
            rw [hasKey] at hl
            cases hacc : lookupKey acc l with
            | some v => simp
            | none => rw [hacc] at hl; simp at hl
          rw [ih (idx + 1) _ lm h l hl', lookupKey_append]
          rw [hasKey] at hl
          cases hacc : lookupKey acc l with
          | some v => simp
          | none => rw [hacc] at hl; simp at hl

theorem buildLabelMap_lookup :
    ∀ (instructions : List GotoInterpreter.Instruction) (idx : Nat)
      (acc lm : GotoInterpreter.LabelMap),
      GotoInterpreter.buildLabelMap instructions idx acc = .ok lm →
      ∀ (n : Nat) (instr : GotoInterpreter.Instruction),
        instructions[n]? = some instr →
        ∀ l, instr.label = some l → l ≠ "" →
          lookupKey lm l = some (idx + n) := by
  intro instructions
  induction instructions with
  | nil =>
    intro idx acc lm _ n instr hn
    simp at hn
  | cons i rest ih =>
    intro idx acc lm h n instr hn l hl he
    rw [GotoInterpreter.buildLabelMap] at h
    cases n with
    | zero =>
      simp only [List.getElem?_cons_zero] at hn
      cases hn
      rw [hl] at h
      simp only [ne_eq, he, not_false_eq_true, if_true] at h
      cases hk : hasKey acc l with
      | true =>
        rw [hk, if_pos rfl] at h
        exact Except.noConfusion h
      | false =>
        rw [hk] at h
        simp only [Bool.false_eq_true, if_false] at h
        have hkey : hasKey (acc ++ [(l, idx)]) l = true := by
          rw [hasKey, lookupKey_append]
          rw [hasKey] at hk
          cases hacc : lookupKey acc l with
          | some v => rw [hacc] at hk; simp at hk
          | none => simp [lookupKey]
        rw [buildLabelMap_preserves_acc rest (idx + 1) _ lm h l hkey,
          lookupKey_append]
        rw [hasKey] at hk
        cases hacc : lookupKey acc l with
        | some v => rw [hacc] at hk; simp at hk
        | none => simp [lookupKey]
    | succ n =>
      simp only [List.getElem?_cons_succ] at hn
      have hgoal : ∀ acc', GotoInterpreter.buildLabelMap rest (idx + 1) acc'
          = .ok lm → lookupKey lm l = some (idx + (n + 1)) := by
        intro acc' h'
        have := ih (idx + 1) acc' lm h' n instr hn l hl he
        rw [this]
        congr 1
        omega
      cases hi : i.label with
      | none =>
        rw [hi] at h
        exact hgoal acc h
      | some lab =>
        rw [hi] at h
        by_cases he' : lab = ""
        · subst he'
          simp only [ne_eq, not_true_eq_false, if_false] at h
          exact hgoal acc h
        · simp only [ne_eq, he', not_false_eq_true, if_true] at h
          cases hk : hasKey acc lab with
          | true =>
            rw [hk, if_pos rfl] at h
            exact Except.noConfusion h
          | false =>
            rw [hk] at h
            simp only [Bool.false_eq_true, if_false] at h
            exact hgoal _ h

end LangIT

namespace LangIT

/-! ## Fragment and attach-chain reasoning -/

theorem fragmentAt_append {P : List GotoInterpreter.Instruction} {i : Nat}
    {a b : List GotoInterpreter.Instruction}
    (h : fragmentAt P i (a ++ b)) :
    fragmentAt P i a ∧ fragmentAt P (i + a.length) b := by
  constructor
  · intro n hn
    have h1 := h n (by rw [List.length_append]; omega)
    rw [h1, List.getElem?_append, if_pos hn]
  · intro n hn
    have h1 := h (a.length + n) (by rw [List.length_append]; omega)
    rw [show i + (a.length + n) = i + a.length + n by omega] at h1
    rw [h1, List.getElem?_append, if_neg (by omega),
      show a.length + n - a.length = n by omega]

theorem labelsResolveAt_append {lm : GotoInterpreter.LabelMap} {i : Nat}
    {a b : List GotoInterpreter.Instruction}
    (h : labelsResolveAt lm i (a ++ b)) :
    labelsResolveAt lm i a ∧ labelsResolveAt lm (i + a.length) b := by
  constructor
  · intro n instr hn l hl
    have hn' : n < a.length := by
      by_contra hge
      rw [List.getElem?_eq_none (by omega)] at hn
      exact Option.noConfusion hn
    exact h n instr (by rw [List.getElem?_append, if_pos hn']; exact hn) l hl
  · intro n instr hn l hl
    have h1 := h (a.length + n) instr
      (by rw [List.getElem?_append, if_neg (by omega),
            show a.length + n - a.length = n by omega]
          exact hn) l hl
    rw [show i + a.length + n = i + (a.length + n) by omega]
    exact h1

theorem attach_length :
    ∀ (p : List String) (stmt : GotoInterpreter.Statement),
      (attach p stmt).length = max 1 p.length
  | [], _ => rfl
  | [_], _ => rfl
  | l1 :: l2 :: rest, stmt => by
    rw [attach]
    rw [List.length_cons, attach_length (l2 :: rest) stmt]
    have h1 : (1:Nat) ≤ (l2 :: rest).length := by simp
    have h2 : (1:Nat) ≤ (l1 :: l2 :: rest).length := by simp
    rw [Nat.max_eq_right h1, Nat.max_eq_right h2]
    simp

theorem attach_funnel :
    ∀ (p : List String) (stmt : GotoInterpreter.Statement)
      (P : List GotoInterpreter.Instruction)
      (lm : GotoInterpreter.LabelMap) (i : Nat),
      fragmentAt P i (attach p stmt) →
      labelsResolveAt lm i (attach p stmt) →
      (∃ lbl, P[i + (attach p stmt).length - 1]? = some ⟨lbl, stmt⟩) ∧
      (∀ s, SimReach P lm i s (i + (attach p stmt).length - 1) s) ∧
      (∀ l ∈ p, ∃ j, lookupKey lm l = some j ∧
        ∀ s, SimReach P lm j s (i + (attach p stmt).length - 1) s)
  | [], stmt, P, lm, i, hfrag, hres => by
    refine ⟨⟨none, ?_⟩, fun s => by simpa using simReach_refl P lm i s, ?_⟩
    · have := hfrag 0 (by simp [attach])
      simpa [attach] using this
    · intro l hl
      simp at hl
  | [l], stmt, P, lm, i, hfrag, hres => by
    refine ⟨⟨some l, ?_⟩, fun s => by simpa using simReach_refl P lm i s, ?_⟩
    · have := hfrag 0 (by simp [attach])
      simpa [attach] using this
    · intro l' hl'
      simp at hl'
      subst hl'
      refine ⟨i, ?_, fun s => by simpa using simReach_refl P lm i s⟩
      have := hres 0 ⟨some l', stmt⟩ (by simp [attach]) l' rfl
      simpa using this
  | l1 :: l2 :: rest, stmt, P, lm, i, hfrag, hres => by
    have hsplit : fragmentAt P i [(⟨some l1, .goto l2⟩ :
        GotoInterpreter.Instruction)] ∧
        fragmentAt P (i + 1) (attach (l2 :: rest) stmt) := by
      have := @fragmentAt_append P i [⟨some l1, .goto l2⟩]
        (attach (l2 :: rest) stmt) (by rw [← attach]; exact hfrag)
      simpa using this
    have hressplit : labelsResolveAt lm i [(⟨some l1, .goto l2⟩ :
        GotoInterpreter.Instruction)] ∧
        labelsResolveAt lm (i + 1) (attach (l2 :: rest) stmt) := by
      have := @labelsResolveAt_append lm i [⟨some l1, .goto l2⟩]
        (attach (l2 :: rest) stmt) (by rw [← attach]; exact hres)
      simpa using this
    obtain ⟨hfrag1, hfragrest⟩ := hsplit
    obtain ⟨hres1, hresrest⟩ := hressplit
    obtain ⟨hlast, hfun, hpend⟩ :=
      attach_funnel (l2 :: rest) stmt P lm (i + 1) hfragrest hresrest
    have hlen : (attach (l1 :: l2 :: rest) stmt).length =
        (attach (l2 :: rest) stmt).length + 1 := by
      rw [attach]
      simp
    have hend : i + (attach (l1 :: l2 :: rest) stmt).length - 1 =
        i + 1 + (attach (l2 :: rest) stmt).length - 1 := by
      rw [hlen]
      have := attach_length (l2 :: rest) stmt
      omega
    have hinstr1 : P[i]? = some ⟨some l1, .goto l2⟩ := by
      have := hfrag1 0 (by simp)
      simpa using this
    have hl2 : lookupKey lm l2 = some (i + 1) := by
      have h0 := hresrest 0
      cases hr2 : (attach (l2 :: rest) stmt)[0]? with
      | none =>
        have hlen2 := attach_length (l2 :: rest) stmt
        rw [List.getElem?_eq_none_iff] at hr2
        simp at hlen2
        omega
      | some instr0 =>
        have hlab : instr0.label = some l2 := by
          cases rest with
          | nil =>
            rw [show attach [l2] stmt = [⟨some l2, stmt⟩] from rfl] at hr2
            simp at hr2
            rw [← hr2]
          | cons l3 rest' =>
            rw [attach] at hr2
            simp at hr2
            rw [← hr2]
        have := h0 instr0 hr2 l2 hlab
        simpa using this
    have hstep : ∀ s, SimReach P lm i s (i + 1) s := fun s =>
      simReach_step_goto hinstr1 hl2
    refine ⟨hend ▸ hlast, ?_, ?_⟩
    · intro s
      rw [hend]
      exact simReach_trans (hstep s) (hfun s)
    · intro l hl
      rcases List.mem_cons.1 hl with hl1 | hl'
      · subst hl1
        refine ⟨i, ?_, ?_⟩
        · have := hres1 0 ⟨some l, .goto l2⟩ (by simp) l rfl
          simpa using this
        · intro s
          rw [hend]
          exact simReach_trans (hstep s) (hfun s)
      · obtain ⟨j, hj, hroute⟩ := hpend l hl'
        refine ⟨j, hj, ?_⟩
        intro s
        rw [hend]
        exact hroute s

end LangIT

namespace LangIT

/-! ## Label inventory of the WHILE-to-GOTO flattening -/

theorem attach_pos (p : List String) (stmt : GotoInterpreter.Statement) :
    1 ≤ (attach p stmt).length := by
  rw [attach_length]
  exact le_max_left 1 p.length

theorem labelsOf_append (a b : List GotoInterpreter.Instruction) :
    labelsOf (a ++ b) = labelsOf a ++ labelsOf b := by
  rw [labelsOf, labelsOf, labelsOf, List.filterMap_append]

theorem attach_labels :
    ∀ (p : List String) (stmt : GotoInterpreter.Statement),
      (∀ l ∈ p, l ≠ "") → labelsOf (attach p stmt) = p
  | [], stmt, _ => rfl
  | [l], stmt, h => by
    have hl : l ≠ "" := h l (by simp)
    simp [attach, labelsOf, List.filterMap_cons, hl]
  | l1 :: l2 :: rest, stmt, h => by
    have hl1 : l1 ≠ "" := h l1 (by simp)
    rw [attach]
    have ih := attach_labels (l2 :: rest) stmt
      (fun l hl => h l (List.mem_cons_of_mem _ hl))
    rw [labelsOf, List.filterMap_cons]
    simp only [hl1, ne_eq, not_false_eq_true, if_true]
    rw [labelsOf] at ih
    rw [ih]

theorem labelCandidate_ne_empty (k : Nat) : labelCandidate k ≠ "" := by
  intro h
  have := congrArg (fun s => s.data.length) h
  simp [labelCandidate] at this

theorem labelCandidate_inj : Function.Injective labelCandidate := by
  intro a b h
  have hd : List.replicate (a + 1) 'M' = List.replicate (b + 1) 'M' := by
    injection h
  have := congrArg List.length hd
  simpa using this

theorem fragmentAt_self (P : List GotoInterpreter.Instruction) :
    fragmentAt P 0 P := by
  intro n _
  rw [Nat.zero_add]

theorem buildLabelMap_ok_of_nodup :
    ∀ (instructions : List GotoInterpreter.Instruction) (idx : Nat)
      (acc : GotoInterpreter.LabelMap),
      (labelsOf instructions).Nodup →
      (∀ l ∈ labelsOf instructions, hasKey acc l = false) →
      ∃ lm, GotoInterpreter.buildLabelMap instructions idx acc = .ok lm
  | [], idx, acc, _, _ => ⟨acc, rfl⟩
  | instr :: rest, idx, acc, hnd, hfree => by
    rw [GotoInterpreter.buildLabelMap]
    cases hi : instr.label with
    | none =>
      have hlab : labelsOf (instr :: rest) = labelsOf rest := by
        simp [labelsOf, List.filterMap_cons, hi]
      rw [hlab] at hnd hfree
      exact buildLabelMap_ok_of_nodup rest (idx + 1) acc hnd hfree
    | some l =>
      by_cases he : l = ""
      · subst he
        have hlab : labelsOf (instr :: rest) = labelsOf rest := by
          simp [labelsOf, List.filterMap_cons, hi]
        rw [hlab] at hnd hfree
        simp only [ne_eq, not_true_eq_false, if_false]
        exact buildLabelMap_ok_of_nodup rest (idx + 1) acc hnd hfree
      · have hlab : labelsOf (instr :: rest) = l :: labelsOf rest := by
          simp [labelsOf, List.filterMap_cons, hi, he]
        rw [hlab] at hnd hfree
        have hk : hasKey acc l = false := hfree l (by simp)
        simp only [ne_eq, he, not_false_eq_true, if_true, hk,
          Bool.false_eq_true, if_false]
        refine buildLabelMap_ok_of_nodup rest (idx + 1) (acc ++ [(l, idx)])
          (List.Nodup.of_cons hnd) ?_
        intro l' hl'
        have hne : l' ≠ l := by
          intro he'
          subst he'
          exact (List.nodup_cons.1 hnd).1 hl'
        have hk' : hasKey acc l' = false :=
          hfree l' (List.mem_cons_of_mem _ hl')
        rw [hasKey, lookupKey_append]
        rw [hasKey] at hk'
        cases hacc : lookupKey acc l' with
        | some v => rw [hacc] at hk'; simp at hk'
        | none => simp [lookupKey, hacc, Ne.symm hne]

end LangIT

namespace LangIT

/-- Adjacent `range'` blocks concatenate. -/
theorem range'_join (a b c : Nat) (h : a ≤ b) (h2 : b ≤ c) :
    List.range' a (b - a) ++ List.range' b (c - b) = List.range' a (c - a) := by
  have e := List.range'_append_1 a (b - a) (c - b)
  rw [show a + (b - a) = b by omega] at e
  rw [e, show c - b + (b - a) = c - a by omega]

/-- Label inventory of the flattening: the counter never decreases, every
dangling label is a candidate below the final counter, and the labels
declared in the emitted code together with the labels left dangling are, up
to order, the incoming dangling labels plus one fresh candidate per counter
increment — in particular no label is declared twice. -/
theorem flatten_inventory :
    ∀ (stmts : List WhileInterpreter.Statement) (pending : List String)
      (k : Nat) (code : List GotoInterpreter.Instruction)
      (pending2 : List String) (k2 : Nat),
      WhileToGotoTranslator.flattenStatements stmts pending k =
        (code, pending2, k2) →
      (∀ l ∈ pending, ∃ j, j < k ∧ l = labelCandidate j) →
      k ≤ k2 ∧
      (∀ l ∈ pending2, ∃ j, j < k2 ∧ l = labelCandidate j) ∧
      (labelsOf code ++ pending2).Perm
        (pending ++ (List.range' k (k2 - k)).map labelCandidate)
  | [], pending, k, code, pending2, k2, htr, hshape => by
    rw [WhileToGotoTranslator.flattenStatements] at htr
    rw [Prod.mk.injEq, Prod.mk.injEq] at htr
    obtain ⟨h1, h2, h3⟩ := htr
    subst h1
    subst h2
    subst h3
    refine ⟨le_refl k, hshape, ?_⟩
    simp [labelsOf]
  | .assignment target value :: rest, pending, k, code, pending2, k2, htr,
      hshape => by
    rw [WhileToGotoTranslator.flattenStatements] at htr
    rcases hr : WhileToGotoTranslator.flattenStatements rest [] k with
      ⟨restCode, restPending, k1⟩
    rw [hr] at htr
    simp only at htr
    rw [Prod.mk.injEq, Prod.mk.injEq] at htr
    obtain ⟨h1, h2, h3⟩ := htr
    subst h1
    rw [h2, h3] at hr
    obtain ⟨hk1, hshape2, hperm⟩ := flatten_inventory rest [] k restCode
      pending2 k2 hr (by intro l hl; simp at hl)
    refine ⟨hk1, hshape2, ?_⟩
    rw [labelsOf_append,
      attach_labels pending _ (fun l hl => by
        obtain ⟨j, _, hj⟩ := hshape l hl
        rw [hj]
        exact labelCandidate_ne_empty j)]
    refine Multiset.coe_eq_coe.1 ?_
    have hp : ((labelsOf restCode : List String) : Multiset String) +
        ((pending2 : List String) : Multiset String) =
        (((List.range' k (k2 - k)).map labelCandidate : List String) :
          Multiset String) := by
      have h := Multiset.coe_eq_coe.2 hperm
      simp only [← Multiset.coe_add] at h
      rw [show ((([] : List String)) : Multiset String) = 0 from rfl,
        zero_add] at h
      exact h
    calc ((pending ++ labelsOf restCode ++ pending2 : List String) :
          Multiset String)
        = ((pending : List String) : Multiset String) +
            (((labelsOf restCode : List String) : Multiset String) +
              ((pending2 : List String) : Multiset String)) := by
          simp only [← Multiset.coe_add]
          abel
      _ = ((pending : List String) : Multiset String) +
            (((List.range' k (k2 - k)).map labelCandidate : List String) :
              Multiset String) := by rw [hp]
      _ = ((pending ++ (List.range' k (k2 - k)).map labelCandidate :
            List String) : Multiset String) := by
          simp only [← Multiset.coe_add]
  | .whileStmt c body :: rest, pending, k, code, pending2, k2, htr,
      hshape => by
    rw [WhileToGotoTranslator.flattenStatements] at htr
    rcases hb : WhileToGotoTranslator.flattenStatements body [] (k + 2) with
      ⟨bodyCode, bodyPending, k1⟩
    rw [hb] at htr
    simp only at htr
    rcases hr : WhileToGotoTranslator.flattenStatements rest
      [labelCandidate (k + 1)] k1 with ⟨restCode, restPending, kr⟩
    rw [hr] at htr
    simp only at htr
    rw [Prod.mk.injEq, Prod.mk.injEq] at htr
    obtain ⟨h1, h2, h3⟩ := htr
    subst h1
    rw [h2, h3] at hr
    obtain ⟨hk1, hbshape, hbperm⟩ := flatten_inventory body [] (k + 2)
      bodyCode bodyPending k1 hb (by intro l hl; simp at hl)
    obtain ⟨hkr, hrshape, hrperm⟩ := flatten_inventory rest
      [labelCandidate (k + 1)] k1 restCode pending2 k2 hr
      (by
        intro l hl
        rw [List.mem_singleton] at hl
        subst hl
        exact ⟨k + 1, by omega, rfl⟩)
    refine ⟨by omega, hrshape, ?_⟩
    rw [labelsOf_append, labelsOf_append, labelsOf_append,
      attach_labels (pending ++ [labelCandidate k]) _ (fun l hl => by
        rcases List.mem_append.1 hl with h | h
        · obtain ⟨j, _, hj⟩ := hshape l h
          rw [hj]
          exact labelCandidate_ne_empty j
        · rw [List.mem_singleton] at h
          subst h
          exact labelCandidate_ne_empty k),
      attach_labels bodyPending _ (fun l hl => by
        obtain ⟨j, _, hj⟩ := hbshape l hl
        rw [hj]
        exact labelCandidate_ne_empty j)]
    have hsA : List.range' (k + 2) (k1 - (k + 2)) ++
        List.range' k1 (k2 - k1) = List.range' (k + 2) (k2 - (k + 2)) :=
      range'_join (k + 2) k1 k2 (by omega) (by omega)
    have hsB : List.range' (k + 1) 1 ++ List.range' (k + 2) (k2 - (k + 2)) =
        List.range' (k + 1) (k2 - (k + 1)) := by
      have h := range'_join (k + 1) (k + 2) k2 (by omega) (by omega)
      rw [show k + 2 - (k + 1) = 1 by omega] at h
      exact h
    have hsC : List.range' k 1 ++ List.range' (k + 1) (k2 - (k + 1)) =
        List.range' k (k2 - k) := by
      have h := range'_join k (k + 1) k2 (by omega) (by omega)
      rw [show k + 1 - k = 1 by omega] at h
      exact h
    have hsplit : List.range' k (k2 - k) =
        [k] ++ ([k + 1] ++ (List.range' (k + 2) (k1 - (k + 2)) ++
          List.range' k1 (k2 - k1))) := by
      rw [hsA]
      rw [show ([k + 1] : List Nat) ++ List.range' (k + 2) (k2 - (k + 2)) =
        List.range' (k + 1) 1 ++ List.range' (k + 2) (k2 - (k + 2))
        from rfl]
      rw [hsB]
      rw [show ([k] : List Nat) ++ List.range' (k + 1) (k2 - (k + 1)) =
        List.range' k 1 ++ List.range' (k + 1) (k2 - (k + 1)) from rfl]
      rw [hsC]
    refine Multiset.coe_eq_coe.1 ?_
    have hbp : ((labelsOf bodyCode : List String) : Multiset String) +
        ((bodyPending : List String) : Multiset String) =
        (((List.range' (k + 2) (k1 - (k + 2))).map labelCandidate :
          List String) : Multiset String) := by
      have h := Multiset.coe_eq_coe.2 hbperm
      simp only [← Multiset.coe_add] at h
      rw [show ((([] : List String)) : Multiset String) = 0 from rfl,
        zero_add] at h
      exact h
    have hrp : ((labelsOf restCode : List String) : Multiset String) +
        ((pending2 : List String) : Multiset String) =
        (([labelCandidate (k + 1)] : List String) : Multiset String) +
        (((List.range' k1 (k2 - k1)).map labelCandidate : List String) :
          Multiset String) := by
      have h := Multiset.coe_eq_coe.2 hrperm
      simp only [← Multiset.coe_add] at h
      exact h
    calc ((pending ++ [labelCandidate k] ++ labelsOf bodyCode ++
            bodyPending ++ labelsOf restCode ++ pending2 : List String) :
          Multiset String)
        = ((pending : List String) : Multiset String) +
            (([labelCandidate k] : List String) : Multiset String) +
            ((((labelsOf bodyCode : List String) : Multiset String) +
              ((bodyPending : List String) : Multiset String)) +
             (((labelsOf restCode : List String) : Multiset String) +
              ((pending2 : List String) : Multiset String))) := by
          simp only [← Multiset.coe_add]
          abel
      _ = ((pending : List String) : Multiset String) +
            (([labelCandidate k] : List String) : Multiset String) +
            ((((List.range' (k + 2) (k1 - (k + 2))).map labelCandidate :
                List String) : Multiset String) +
             ((([labelCandidate (k + 1)] : List String) : Multiset String) +
              (((List.range' k1 (k2 - k1)).map labelCandidate :
                List String) : Multiset String))) := by
          rw [hbp, hrp]
      _ = ((pending ++ ([labelCandidate k] ++ ([labelCandidate (k + 1)] ++
            ((List.range' (k + 2) (k1 - (k + 2))).map labelCandidate ++
             (List.range' k1 (k2 - k1)).map labelCandidate))) :
            List String) : Multiset String) := by
          simp only [← Multiset.coe_add]
          abel
      _ = ((pending ++ (List.range' k (k2 - k)).map labelCandidate :
            List String) : Multiset String) := by
          rw [hsplit]
          simp only [List.map_append, List.map_cons, List.map_nil]
  | .ifStmt c thenB none :: rest, pending, k, code, pending2, k2, htr,
      hshape => by
    rw [WhileToGotoTranslator.flattenStatements] at htr
    rcases ht : WhileToGotoTranslator.flattenStatements thenB [] (k + 1) with
      ⟨thenCode, thenPending, k1⟩
    rw [ht] at htr
    simp only at htr
    rcases hr : WhileToGotoTranslator.flattenStatements rest
      (thenPending ++ [labelCandidate k]) k1 with ⟨restCode, restPending, kr⟩
    rw [hr] at htr
    simp only at htr
    rw [Prod.mk.injEq, Prod.mk.injEq] at htr
    obtain ⟨h1, h2, h3⟩ := htr
    subst h1
    rw [h2, h3] at hr
    obtain ⟨hk1, htshape, htperm⟩ := flatten_inventory thenB [] (k + 1)
      thenCode thenPending k1 ht (by intro l hl; simp at hl)
    obtain ⟨hkr, hrshape, hrperm⟩ := flatten_inventory rest
      (thenPending ++ [labelCandidate k]) k1 restCode pending2 k2 hr
      (by
        intro l hl
        rcases List.mem_append.1 hl with h | h
        · exact htshape l h
        · rw [List.mem_singleton] at h
          subst h
          exact ⟨k, by omega, rfl⟩)
    refine ⟨by omega, hrshape, ?_⟩
    rw [labelsOf_append, labelsOf_append,
      attach_labels pending _ (fun l hl => by
        obtain ⟨j, _, hj⟩ := hshape l hl
        rw [hj]
        exact labelCandidate_ne_empty j)]
    have hsA : List.range' (k + 1) (k1 - (k + 1)) ++
        List.range' k1 (k2 - k1) = List.range' (k + 1) (k2 - (k + 1)) :=
      range'_join (k + 1) k1 k2 (by omega) (by omega)
    have hsC : List.range' k 1 ++ List.range' (k + 1) (k2 - (k + 1)) =
        List.range' k (k2 - k) := by
      have h := range'_join k (k + 1) k2 (by omega) (by omega)
      rw [show k + 1 - k = 1 by omega] at h
      exact h
    have hsplit : List.range' k (k2 - k) =
        [k] ++ (List.range' (k + 1) (k1 - (k + 1)) ++
          List.range' k1 (k2 - k1)) := by
      rw [hsA]
      rw [show ([k] : List Nat) ++ List.range' (k + 1) (k2 - (k + 1)) =
        List.range' k 1 ++ List.range' (k + 1) (k2 - (k + 1)) from rfl]
      rw [hsC]
    refine Multiset.coe_eq_coe.1 ?_
    have htp : ((labelsOf thenCode : List String) : Multiset String) +
        ((thenPending : List String) : Multiset String) =
        (((List.range' (k + 1) (k1 - (k + 1))).map labelCandidate :
          List String) : Multiset String) := by
      have h := Multiset.coe_eq_coe.2 htperm
      simp only [← Multiset.coe_add] at h
      rw [show ((([] : List String)) : Multiset String) = 0 from rfl,
        zero_add] at h
      exact h
    have hrp : ((labelsOf restCode : List String) : Multiset String) +
        ((pending2 : List String) : Multiset String) =
        ((thenPending : List String) : Multiset String) +
        (([labelCandidate k] : List String) : Multiset String) +
        (((List.range' k1 (k2 - k1)).map labelCandidate : List String) :
          Multiset String) := by
      have h := Multiset.coe_eq_coe.2 hrperm
      simp only [← Multiset.coe_add] at h
      exact h
    calc ((pending ++ labelsOf thenCode ++ labelsOf restCode ++ pending2 :
            List String) : Multiset String)
        = ((pending : List String) : Multiset String) +
            (((labelsOf thenCode : List String) : Multiset String) +
             (((labelsOf restCode : List String) : Multiset String) +
              ((pending2 : List String) : Multiset String))) := by
          simp only [← Multiset.coe_add]
          abel
      _ = ((pending : List String) : Multiset String) +
            (((labelsOf thenCode : List String) : Multiset String) +
             (((thenPending : List String) : Multiset String) +
              (([labelCandidate k] : List String) : Multiset String) +
              (((List.range' k1 (k2 - k1)).map labelCandidate :
                List String) : Multiset String))) := by
          rw [hrp]
      _ = ((pending : List String) : Multiset String) +
            ((((labelsOf thenCode : List String) : Multiset String) +
              ((thenPending : List String) : Multiset String)) +
             ((([labelCandidate k] : List String) : Multiset String) +
              (((List.range' k1 (k2 - k1)).map labelCandidate :
                List String) : Multiset String))) := by
          abel
      _ = ((pending : List String) : Multiset String) +
            ((((List.range' (k + 1) (k1 - (k + 1))).map labelCandidate :
                List String) : Multiset String) +
             ((([labelCandidate k] : List String) : Multiset String) +
              (((List.range' k1 (k2 - k1)).map labelCandidate :
                List String) : Multiset String))) := by
          rw [htp]
      _ = ((pending ++ ([labelCandidate k] ++
            ((List.range' (k + 1) (k1 - (k + 1))).map labelCandidate ++
             (List.range' k1 (k2 - k1)).map labelCandidate)) :
            List String) : Multiset String) := by
          simp only [← Multiset.coe_add]
          abel
      _ = ((pending ++ (List.range' k (k2 - k)).map labelCandidate :
            List String) : Multiset String) := by
          rw [hsplit]
          simp only [List.map_append, List.map_cons, List.map_nil]
  | .ifStmt c thenB (some elseB) :: rest, pending, k, code, pending2, k2,
      htr, hshape => by
    rw [WhileToGotoTranslator.flattenStatements] at htr
    rcases ht : WhileToGotoTranslator.flattenStatements thenB [] (k + 2) with
      ⟨thenCode, thenPending, k1⟩
    rw [ht] at htr
    simp only at htr
    rcases he : WhileToGotoTranslator.flattenStatements elseB
      [labelCandidate k] k1 with ⟨elseCode, elsePending, ke⟩
    rw [he] at htr
    simp only at htr
    rcases hr : WhileToGotoTranslator.flattenStatements rest
      (elsePending ++ [labelCandidate (k + 1)]) ke with
      ⟨restCode, restPending, kr⟩
    rw [hr] at htr
    simp only at htr
    rw [Prod.mk.injEq, Prod.mk.injEq] at htr
    obtain ⟨h1, h2, h3⟩ := htr
    subst h1
    rw [h2, h3] at hr
    obtain ⟨hk1, htshape, htperm⟩ := flatten_inventory thenB [] (k + 2)
      thenCode thenPending k1 ht (by intro l hl; simp at hl)
    obtain ⟨hke, heshape, heperm⟩ := flatten_inventory elseB
      [labelCandidate k] k1 elseCode elsePending ke he
      (by
        intro l hl
        rw [List.mem_singleton] at hl
        subst hl
        exact ⟨k, by omega, rfl⟩)
    obtain ⟨hkr, hrshape, hrperm⟩ := flatten_inventory rest
      (elsePending ++ [labelCandidate (k + 1)]) ke restCode pending2 k2 hr
      (by
        intro l hl
        rcases List.mem_append.1 hl with h | h
        · exact heshape l h
        · rw [List.mem_singleton] at h
          subst h
          exact ⟨k + 1, by omega, rfl⟩)
    refine ⟨by omega, hrshape, ?_⟩
    rw [labelsOf_append, labelsOf_append, labelsOf_append, labelsOf_append,
      attach_labels pending _ (fun l hl => by
        obtain ⟨j, _, hj⟩ := hshape l hl
        rw [hj]
        exact labelCandidate_ne_empty j),
      attach_labels thenPending _ (fun l hl => by
        obtain ⟨j, _, hj⟩ := htshape l hl
        rw [hj]
        exact labelCandidate_ne_empty j)]
    have hsA : List.range' k1 (ke - k1) ++ List.range' ke (k2 - ke) =
        List.range' k1 (k2 - k1) :=
      range'_join k1 ke k2 (by omega) (by omega)
    have hsB : List.range' (k + 2) (k1 - (k + 2)) ++
        List.range' k1 (k2 - k1) = List.range' (k + 2) (k2 - (k + 2)) :=
      range'_join (k + 2) k1 k2 (by omega) (by omega)
    have hsC : List.range' (k + 1) 1 ++ List.range' (k + 2) (k2 - (k + 2)) =
        List.range' (k + 1) (k2 - (k + 1)) := by
      have h := range'_join (k + 1) (k + 2) k2 (by omega) (by omega)
      rw [show k + 2 - (k + 1) = 1 by omega] at h
      exact h
    have hsD : List.range' k 1 ++ List.range' (k + 1) (k2 - (k + 1)) =
        List.range' k (k2 - k) := by
      have h := range'_join k (k + 1) k2 (by omega) (by omega)
      rw [show k + 1 - k = 1 by omega] at h
      exact h
    have hsplit : List.range' k (k2 - k) =
        [k] ++ ([k + 1] ++ (List.range' (k + 2) (k1 - (k + 2)) ++
          (List.range' k1 (ke - k1) ++ List.range' ke (k2 - ke)))) := by
      rw [hsA, hsB]
      rw [show ([k + 1] : List Nat) ++ List.range' (k + 2) (k2 - (k + 2)) =
        List.range' (k + 1) 1 ++ List.range' (k + 2) (k2 - (k + 2))
        from rfl]
      rw [hsC]
      rw [show ([k] : List Nat) ++ List.range' (k + 1) (k2 - (k + 1)) =
        List.range' k 1 ++ List.range' (k + 1) (k2 - (k + 1)) from rfl]
      rw [hsD]
    refine Multiset.coe_eq_coe.1 ?_
    have htp : ((labelsOf thenCode : List String) : Multiset String) +
        ((thenPending : List String) : Multiset String) =
        (((List.range' (k + 2) (k1 - (k + 2))).map labelCandidate :
          List String) : Multiset String) := by
      have h := Multiset.coe_eq_coe.2 htperm
      simp only [← Multiset.coe_add] at h
      rw [show ((([] : List String)) : Multiset String) = 0 from rfl,
        zero_add] at h
      exact h
    have hep : ((labelsOf elseCode : List String) : Multiset String) +
        ((elsePending : List String) : Multiset String) =
        (([labelCandidate k] : List String) : Multiset String) +
        (((List.range' k1 (ke - k1)).map labelCandidate : List String) :
          Multiset String) := by
      have h := Multiset.coe_eq_coe.2 heperm
      simp only [← Multiset.coe_add] at h
      exact h
    have hrp : ((labelsOf restCode : List String) : Multiset String) +
        ((pending2 : List String) : Multiset String) =
        ((elsePending : List String) : Multiset String) +
        (([labelCandidate (k + 1)] : List String) : Multiset String) +
        (((List.range' ke (k2 - ke)).map labelCandidate : List String) :
          Multiset String) := by
      have h := Multiset.coe_eq_coe.2 hrperm
      simp only [← Multiset.coe_add] at h
      exact h
    calc ((pending ++ labelsOf thenCode ++ thenPending ++
            labelsOf elseCode ++ labelsOf restCode ++ pending2 :
            List String) : Multiset String)
        = ((pending : List String) : Multiset String) +
            ((((labelsOf thenCode : List String) : Multiset String) +
              ((thenPending : List String) : Multiset String)) +
             (((labelsOf elseCode : List String) : Multiset String) +
              (((labelsOf restCode : List String) : Multiset String) +
               ((pending2 : List String) : Multiset String)))) := by
          simp only [← Multiset.coe_add]
          abel
      _ = ((pending : List String) : Multiset String) +
            ((((List.range' (k + 2) (k1 - (k + 2))).map labelCandidate :
                List String) : Multiset String) +
             (((labelsOf elseCode : List String) : Multiset String) +
              (((elsePending : List String) : Multiset String) +
               (([labelCandidate (k + 1)] : List String) : Multiset String) +
               (((List.range' ke (k2 - ke)).map labelCandidate :
                 List String) : Multiset String)))) := by
          rw [htp, hrp]
      _ = ((pending : List String) : Multiset String) +
            ((((List.range' (k + 2) (k1 - (k + 2))).map labelCandidate :
                List String) : Multiset String) +
             ((((labelsOf elseCode : List String) : Multiset String) +
               ((elsePending : List String) : Multiset String)) +
              ((([labelCandidate (k + 1)] : List String) : Multiset String) +
               (((List.range' ke (k2 - ke)).map labelCandidate :
                 List String) : Multiset String)))) := by
          abel
      _ = ((pending : List String) : Multiset String) +
            ((((List.range' (k + 2) (k1 - (k + 2))).map labelCandidate :
                List String) : Multiset String) +
             (((([labelCandidate k] : List String) : Multiset String) +
               (((List.range' k1 (ke - k1)).map labelCandidate :
                 List String) : Multiset String)) +
              ((([labelCandidate (k + 1)] : List String) : Multiset String) +
               (((List.range' ke (k2 - ke)).map labelCandidate :
                 List String) : Multiset String)))) := by
          rw [hep]
      _ = ((pending ++ ([labelCandidate k] ++ ([labelCandidate (k + 1)] ++
            ((List.range' (k + 2) (k1 - (k + 2))).map labelCandidate ++
             ((List.range' k1 (ke - k1)).map labelCandidate ++
              (List.range' ke (k2 - ke)).map labelCandidate)))) :
            List String) : Multiset String) := by
          simp only [← Multiset.coe_add]
          abel
      _ = ((pending ++ (List.range' k (k2 - k)).map labelCandidate :
            List String) : Multiset String) := by
          rw [hsplit]
          simp only [List.map_append, List.map_cons, List.map_nil]

end LangIT

namespace LangIT

/-- Simulation of the flattening: if the emitted code sits inside `P` at
position `i` with all its labels resolving there, a successful WHILE-side run
of `stmts` is simulated by the GOTO-side run from `i` (fuel-insensitively, up
to the step-limit abort), landing wherever the fall-through point and the
dangling exit labels land; entry through any incoming dangling label behaves
like entry at `i`. -/
theorem flatten_sim :
    ∀ (stmts : List WhileInterpreter.Statement) (pending : List String)
      (k : Nat) (code : List GotoInterpreter.Instruction)
      (pending2 : List String) (k2 : Nat)
      (P : List GotoInterpreter.Instruction) (lm : GotoInterpreter.LabelMap)
      (i : Nat),
      WhileToGotoTranslator.flattenStatements stmts pending k =
        (code, pending2, k2) →
      fragmentAt P i code →
      labelsResolveAt lm i code →
      ∀ (s s2 : InterpState),
        WhileInterpreter.executeStatements stmts s = .ok s2 →
        ∀ (e : Nat) (sfin : InterpState),
          SimReach P lm (i + code.length) s2 e sfin →
          (∀ l ∈ pending2, ∃ j, lookupKey lm l = some j ∧
            SimReach P lm j s2 e sfin) →
          SimReach P lm i s e sfin ∧
          (∀ l ∈ pending, ∃ j, lookupKey lm l = some j ∧
            SimReach P lm j s e sfin)
  | [], pending, k, code, pending2, k2, P, lm, i, htr, hfrag, hres, s, s2,
      hexec, e, sfin, hfall, hpend => by
    rw [WhileToGotoTranslator.flattenStatements] at htr
    rw [Prod.mk.injEq, Prod.mk.injEq] at htr
    obtain ⟨h1, h2, h3⟩ := htr
    subst h1
    subst h2
    subst h3
    rw [WhileInterpreter.executeStatements] at hexec
    cases hexec
    refine ⟨?_, hpend⟩
    simpa using hfall
  | .assignment target value :: rest, pending, k, code, pending2, k2, P, lm,
      i, htr, hfrag, hres, s, s2, hexec, e, sfin, hfall, hpend => by
    rw [WhileToGotoTranslator.flattenStatements] at htr
    rcases hr : WhileToGotoTranslator.flattenStatements rest [] k with
      ⟨restCode, restPending, kr⟩
    rw [hr] at htr
    simp only at htr
    rw [Prod.mk.injEq, Prod.mk.injEq] at htr
    obtain ⟨h1, h2, h3⟩ := htr
    subst h1
    rw [h2, h3] at hr
    obtain ⟨hfragA, hfragR⟩ := fragmentAt_append hfrag
    obtain ⟨hresA, hresR⟩ := labelsResolveAt_append hres
    obtain ⟨⟨lblA, hinstr⟩, hfunA, hpfunA⟩ := attach_funnel pending
      (.assignment target value) P lm i hfragA hresA
    rw [WhileInterpreter.executeStatements] at hexec
    cases hstep0 : WhileInterpreter.executeStatement
        (.assignment target value) s with
    | error msg =>
      rw [hstep0] at hexec
      rw [except_bind_error] at hexec
      exact Except.noConfusion hexec
    | ok s1 =>
      rw [hstep0] at hexec
      rw [except_bind_ok] at hexec
      have heq : i + (attach pending
          (GotoInterpreter.Statement.assignment target value) ++
            restCode).length =
          i + (attach pending
            (GotoInterpreter.Statement.assignment target value)).length +
            restCode.length := by
        rw [List.length_append]
        omega
      rw [heq] at hfall
      obtain ⟨hrestmain, _⟩ := flatten_sim rest [] k restCode pending2 k2
        P lm (i + (attach pending
          (GotoInterpreter.Statement.assignment target value)).length)
        hr hfragR hresR s1 s2 hexec e sfin hfall hpend
      have hstep1 : SimReach P lm (i + (attach pending
          (GotoInterpreter.Statement.assignment target value)).length - 1) s
          (i + (attach pending
            (GotoInterpreter.Statement.assignment target value)).length - 1
            + 1) s1 :=
        simReach_step_assign hinstr hstep0
      have he1 : i + (attach pending
          (GotoInterpreter.Statement.assignment target value)).length - 1
          + 1 = i + (attach pending
            (GotoInterpreter.Statement.assignment target value)).length := by
        have := attach_pos pending
          (GotoInterpreter.Statement.assignment target value)
        omega
      rw [he1] at hstep1
      have hcenter : SimReach P lm (i + (attach pending
          (GotoInterpreter.Statement.assignment target value)).length - 1)
          s e sfin := simReach_trans hstep1 hrestmain
      refine ⟨simReach_trans (hfunA s) hcenter, fun l hl => ?_⟩
      obtain ⟨j, hj, hroute⟩ := hpfunA l hl
      exact ⟨j, hj, simReach_trans (hroute s) hcenter⟩
  | .whileStmt c body :: rest, pending, k, code, pending2, k2, P, lm,
      i, htr, hfrag, hres, s, s2, hexec, e, sfin, hfall, hpend => by
    rw [WhileToGotoTranslator.flattenStatements] at htr
    rcases hb : WhileToGotoTranslator.flattenStatements body [] (k + 2) with
      ⟨bodyCode, bodyPending, k1⟩
    rw [hb] at htr
    simp only at htr
    rcases hr : WhileToGotoTranslator.flattenStatements rest
      [labelCandidate (k + 1)] k1 with ⟨restCode, restPending, kr⟩
    rw [hr] at htr
    simp only at htr
    rw [Prod.mk.injEq, Prod.mk.injEq] at htr
    obtain ⟨h1, h2, h3⟩ := htr
    subst h1
    rw [h2, h3] at hr
    rw [List.append_assoc, List.append_assoc] at hfrag hres hfall
    obtain ⟨hfragA, hfrag1⟩ := fragmentAt_append hfrag
    obtain ⟨hfragB, hfrag2⟩ := fragmentAt_append hfrag1
    obtain ⟨hfragG, hfragR⟩ := fragmentAt_append hfrag2
    obtain ⟨hresA, hres1⟩ := labelsResolveAt_append hres
    obtain ⟨hresB, hres2⟩ := labelsResolveAt_append hres1
    obtain ⟨hresG, hresR⟩ := labelsResolveAt_append hres2
    obtain ⟨⟨lblA, hinstrTest⟩, hfunA, hpfunA⟩ := attach_funnel
      (pending ++ [labelCandidate k])
      (.ifGoto (negateCondition c) (labelCandidate (k + 1))) P lm i
      hfragA hresA
    obtain ⟨⟨lblG, hinstrGoto⟩, hfunG, hpfunG⟩ := attach_funnel bodyPending
      (.goto (labelCandidate k)) P lm
      (i + (attach (pending ++ [labelCandidate k])
        (GotoInterpreter.Statement.ifGoto (negateCondition c)
          (labelCandidate (k + 1)))).length + bodyCode.length) hfragG hresG
    obtain ⟨jstart, hjstart, hroutestart⟩ := hpfunA (labelCandidate k)
      (by simp)
    rw [WhileInterpreter.executeStatements] at hexec
    cases hstep0 : WhileInterpreter.executeStatement
        (.whileStmt c body) s with
    | error msg =>
      rw [hstep0] at hexec
      rw [except_bind_error] at hexec
      exact Except.noConfusion hexec
    | ok s1 =>
      rw [hstep0] at hexec
      rw [except_bind_ok] at hexec
      rw [WhileInterpreter.executeStatement] at hstep0
      have heq : i + (attach (pending ++ [labelCandidate k])
          (GotoInterpreter.Statement.ifGoto (negateCondition c)
            (labelCandidate (k + 1))) ++ (bodyCode ++
          (attach bodyPending
            (GotoInterpreter.Statement.goto (labelCandidate k)) ++
            restCode))).length =
          i + (attach (pending ++ [labelCandidate k])
            (GotoInterpreter.Statement.ifGoto (negateCondition c)
              (labelCandidate (k + 1)))).length + bodyCode.length +
            (attach bodyPending
              (GotoInterpreter.Statement.goto (labelCandidate k))).length +
            restCode.length := by
        simp only [List.length_append]
        omega
      rw [heq] at hfall
      obtain ⟨hrestmain, hrestpend⟩ := flatten_sim rest
        [labelCandidate (k + 1)] k1 restCode pending2 k2 P lm
        (i + (attach (pending ++ [labelCandidate k])
          (GotoInterpreter.Statement.ifGoto (negateCondition c)
            (labelCandidate (k + 1)))).length + bodyCode.length +
          (attach bodyPending
            (GotoInterpreter.Statement.goto (labelCandidate k))).length)
        hr hfragR hresR s1 s2 hexec e sfin hfall hpend
      obtain ⟨jend, hjend, hrouteend⟩ := hrestpend (labelCandidate (k + 1))
        (by simp)
      have hbodysim : ∀ σ σ2, WhileInterpreter.executeStatements body σ =
          .ok σ2 → SimReach P lm (i + (attach (pending ++ [labelCandidate k])
            (GotoInterpreter.Statement.ifGoto (negateCondition c)
              (labelCandidate (k + 1)))).length) σ
          (i + (attach (pending ++ [labelCandidate k])
            (GotoInterpreter.Statement.ifGoto (negateCondition c)
              (labelCandidate (k + 1)))).length - 1) σ2 := by
        intro σ σ2 hex
        have hback : ∀ t, SimReach P lm
            (i + (attach (pending ++ [labelCandidate k])
              (GotoInterpreter.Statement.ifGoto (negateCondition c)
                (labelCandidate (k + 1)))).length + bodyCode.length +
              (attach bodyPending
                (GotoInterpreter.Statement.goto (labelCandidate k))).length
              - 1) t
            (i + (attach (pending ++ [labelCandidate k])
              (GotoInterpreter.Statement.ifGoto (negateCondition c)
                (labelCandidate (k + 1)))).length - 1) t := fun t =>
          simReach_trans (simReach_step_goto hinstrGoto hjstart)
            (hroutestart t)
        have hfallB : SimReach P lm
            (i + (attach (pending ++ [labelCandidate k])
              (GotoInterpreter.Statement.ifGoto (negateCondition c)
                (labelCandidate (k + 1)))).length + bodyCode.length) σ2
            (i + (attach (pending ++ [labelCandidate k])
              (GotoInterpreter.Statement.ifGoto (negateCondition c)
                (labelCandidate (k + 1)))).length - 1) σ2 :=
          simReach_trans (hfunG σ2) (hback σ2)
        have hpendB : ∀ l ∈ bodyPending, ∃ j, lookupKey lm l = some j ∧
            SimReach P lm j σ2
            (i + (attach (pending ++ [labelCandidate k])
              (GotoInterpreter.Statement.ifGoto (negateCondition c)
                (labelCandidate (k + 1)))).length - 1) σ2 := by
          intro l hl
          obtain ⟨j, hj, hroute⟩ := hpfunG l hl
          exact ⟨j, hj, simReach_trans (hroute σ2) (hback σ2)⟩
        exact (flatten_sim body [] (k + 2) bodyCode bodyPending k1 P lm
          (i + (attach (pending ++ [labelCandidate k])
            (GotoInterpreter.Statement.ifGoto (negateCondition c)
              (labelCandidate (k + 1)))).length)
          hb hfragB hresB σ σ2 hex
          (i + (attach (pending ++ [labelCandidate k])
            (GotoInterpreter.Statement.ifGoto (negateCondition c)
              (labelCandidate (k + 1)))).length - 1) σ2 hfallB hpendB).1
      have hloop : ∀ fuel σ σ1,
          WhileInterpreter.runWhileLoop c body fuel σ = .ok σ1 →
          SimReach P lm (i + (attach (pending ++ [labelCandidate k])
            (GotoInterpreter.Statement.ifGoto (negateCondition c)
              (labelCandidate (k + 1)))).length - 1) σ
            (i + (attach (pending ++ [labelCandidate k])
              (GotoInterpreter.Statement.ifGoto (negateCondition c)
                (labelCandidate (k + 1)))).length - 1) σ1 ∧
          WhileInterpreter.evaluateCondition σ1.vars c = false := by
        intro fuel
        induction fuel with
        | zero =>
          intro σ σ1 h
          rw [WhileInterpreter.runWhileLoop] at h
          cases hc : WhileInterpreter.evaluateCondition σ.vars c with
          | true =>
            simp only [hc, if_true] at h
            exact Except.noConfusion h
          | false =>
            simp only [hc, Bool.false_eq_true, if_false] at h
            cases h
            exact ⟨simReach_refl P lm _ σ, hc⟩
        | succ fuel ih =>
          intro σ σ1 h
          rw [WhileInterpreter.runWhileLoop] at h
          cases hc : WhileInterpreter.evaluateCondition σ.vars c with
          | false =>
            simp only [hc, Bool.false_eq_true, if_false] at h
            cases h
            exact ⟨simReach_refl P lm _ σ, hc⟩
          | true =>
            simp only [hc, if_true] at h
            cases hbx : WhileInterpreter.executeStatements body σ with
            | error msg =>
              rw [hbx] at h
              rw [except_bind_error] at h
              exact Except.noConfusion h
            | ok σ2 =>
              rw [hbx] at h
              rw [except_bind_ok] at h
              obtain ⟨hrec, hcond⟩ := ih σ2 σ1 h
              have hgc : GotoInterpreter.evaluateCondition σ.vars
                  (negateCondition c) = false := by
                rw [negateCondition_eval, hc]
                rfl
              have hstepT : SimReach P lm
                  (i + (attach (pending ++ [labelCandidate k])
                    (GotoInterpreter.Statement.ifGoto (negateCondition c)
                      (labelCandidate (k + 1)))).length - 1) σ
                  (i + (attach (pending ++ [labelCandidate k])
                    (GotoInterpreter.Statement.ifGoto (negateCondition c)
                      (labelCandidate (k + 1)))).length - 1 + 1) σ :=
                simReach_step_ifGoto_false hinstrTest hgc
              have he1 : i + (attach (pending ++ [labelCandidate k])
                  (GotoInterpreter.Statement.ifGoto (negateCondition c)
                    (labelCandidate (k + 1)))).length - 1 + 1 =
                  i + (attach (pending ++ [labelCandidate k])
                    (GotoInterpreter.Statement.ifGoto (negateCondition c)
                      (labelCandidate (k + 1)))).length := by
                have := attach_pos (pending ++ [labelCandidate k])
                  (GotoInterpreter.Statement.ifGoto (negateCondition c)
                    (labelCandidate (k + 1)))
                omega
              rw [he1] at hstepT
              exact ⟨simReach_trans hstepT
                (simReach_trans (hbodysim σ σ2 hbx) hrec), hcond⟩
      obtain ⟨hloopreach, hcondfalse⟩ := hloop (SAFETY_LIMIT + 1) s s1 hstep0
      have hgc2 : GotoInterpreter.evaluateCondition s1.vars
          (negateCondition c) = true := by
        rw [negateCondition_eval, hcondfalse]
        rfl
      have hcenter : SimReach P lm
          (i + (attach (pending ++ [labelCandidate k])
            (GotoInterpreter.Statement.ifGoto (negateCondition c)
              (labelCandidate (k + 1)))).length - 1) s e sfin :=
        simReach_trans hloopreach (simReach_trans
          (simReach_step_ifGoto_true hinstrTest hgc2 hjend) hrouteend)
      refine ⟨simReach_trans (hfunA s) hcenter, fun l hl => ?_⟩
      obtain ⟨j, hj, hroute⟩ := hpfunA l (List.mem_append.2 (.inl hl))
      exact ⟨j, hj, simReach_trans (hroute s) hcenter⟩
  | .ifStmt c thenB none :: rest, pending, k, code, pending2, k2, P, lm,
      i, htr, hfrag, hres, s, s2, hexec, e, sfin, hfall, hpend => by
    rw [WhileToGotoTranslator.flattenStatements] at htr
    rcases ht : WhileToGotoTranslator.flattenStatements thenB [] (k + 1) with
      ⟨thenCode, thenPending, k1⟩
    rw [ht] at htr
    simp only at htr
    rcases hr : WhileToGotoTranslator.flattenStatements rest
      (thenPending ++ [labelCandidate k]) k1 with ⟨restCode, restPending, kr⟩
    rw [hr] at htr
    simp only at htr
    rw [Prod.mk.injEq, Prod.mk.injEq] at htr
    obtain ⟨h1, h2, h3⟩ := htr
    subst h1
    rw [h2, h3] at hr
    rw [List.append_assoc] at hfrag hres hfall
    obtain ⟨hfragA, hfrag1⟩ := fragmentAt_append hfrag
    obtain ⟨hfragT, hfragR⟩ := fragmentAt_append hfrag1
    obtain ⟨hresA, hres1⟩ := labelsResolveAt_append hres
    obtain ⟨hresT, hresR⟩ := labelsResolveAt_append hres1
    obtain ⟨⟨lblA, hinstrTest⟩, hfunA, hpfunA⟩ := attach_funnel pending
      (.ifGoto (negateCondition c) (labelCandidate k)) P lm i hfragA hresA
    rw [WhileInterpreter.executeStatements] at hexec
    cases hstep0 : WhileInterpreter.executeStatement
        (.ifStmt c thenB none) s with
    | error msg =>
      rw [hstep0] at hexec
      rw [except_bind_error] at hexec
      exact Except.noConfusion hexec
    | ok s1 =>
      rw [hstep0] at hexec
      rw [except_bind_ok] at hexec
      have heq : i + (attach pending
          (GotoInterpreter.Statement.ifGoto (negateCondition c)
            (labelCandidate k)) ++ (thenCode ++ restCode)).length =
          i + (attach pending
            (GotoInterpreter.Statement.ifGoto (negateCondition c)
              (labelCandidate k))).length + thenCode.length +
            restCode.length := by
        simp only [List.length_append]
        omega
      rw [heq] at hfall
      obtain ⟨hrestmain, hrestpend⟩ := flatten_sim rest
        (thenPending ++ [labelCandidate k]) k1 restCode pending2 k2 P lm
        (i + (attach pending
          (GotoInterpreter.Statement.ifGoto (negateCondition c)
            (labelCandidate k))).length + thenCode.length)
        hr hfragR hresR s1 s2 hexec e sfin hfall hpend
      have he1 : i + (attach pending
          (GotoInterpreter.Statement.ifGoto (negateCondition c)
            (labelCandidate k))).length - 1 + 1 =
          i + (attach pending
            (GotoInterpreter.Statement.ifGoto (negateCondition c)
              (labelCandidate k))).length := by
        have := attach_pos pending
          (GotoInterpreter.Statement.ifGoto (negateCondition c)
            (labelCandidate k))
        omega
      rw [WhileInterpreter.executeStatement.eq_def] at hstep0
      have hcenter : SimReach P lm (i + (attach pending
          (GotoInterpreter.Statement.ifGoto (negateCondition c)
            (labelCandidate k))).length - 1) s e sfin := by
        cases hc : WhileInterpreter.evaluateCondition s.vars c with
        | true =>
          simp only [hc, if_true] at hstep0
          have hgc : GotoInterpreter.evaluateCondition s.vars
              (negateCondition c) = false := by
            rw [negateCondition_eval, hc]
            rfl
          have hstepT : SimReach P lm (i + (attach pending
              (GotoInterpreter.Statement.ifGoto (negateCondition c)
                (labelCandidate k))).length - 1) s
              (i + (attach pending
                (GotoInterpreter.Statement.ifGoto (negateCondition c)
                  (labelCandidate k))).length - 1 + 1) s :=
            simReach_step_ifGoto_false hinstrTest hgc
          rw [he1] at hstepT
          have hpendT : ∀ l ∈ thenPending, ∃ j, lookupKey lm l = some j ∧
              SimReach P lm j s1 e sfin := fun l hl =>
            hrestpend l (List.mem_append.2 (.inl hl))
          obtain ⟨hthenmain, _⟩ := flatten_sim thenB [] (k + 1) thenCode
            thenPending k1 P lm
            (i + (attach pending
              (GotoInterpreter.Statement.ifGoto (negateCondition c)
                (labelCandidate k))).length)
            ht hfragT hresT s s1 hstep0 e sfin hrestmain hpendT
          exact simReach_trans hstepT hthenmain
        | false =>
          simp only [hc, Bool.false_eq_true, if_false] at hstep0
          cases hstep0
          have hgc2 : GotoInterpreter.evaluateCondition s.vars
              (negateCondition c) = true := by
            rw [negateCondition_eval, hc]
            rfl
          obtain ⟨jend, hjend, hrouteend⟩ := hrestpend (labelCandidate k)
            (List.mem_append.2 (.inr (by simp)))
          exact simReach_trans
            (simReach_step_ifGoto_true hinstrTest hgc2 hjend) hrouteend
      refine ⟨simReach_trans (hfunA s) hcenter, fun l hl => ?_⟩
      obtain ⟨j, hj, hroute⟩ := hpfunA l hl
      exact ⟨j, hj, simReach_trans (hroute s) hcenter⟩
  | .ifStmt c thenB (some elseB) :: rest, pending, k, code, pending2, k2,
      P, lm, i, htr, hfrag, hres, s, s2, hexec, e, sfin, hfall, hpend => by
    rw [WhileToGotoTranslator.flattenStatements] at htr
    rcases ht : WhileToGotoTranslator.flattenStatements thenB [] (k + 2) with
      ⟨thenCode, thenPending, k1⟩
    rw [ht] at htr
    simp only at htr
    rcases he : WhileToGotoTranslator.flattenStatements elseB
      [labelCandidate k] k1 with ⟨elseCode, elsePending, ke⟩
    rw [he] at htr
    simp only at htr
    rcases hr : WhileToGotoTranslator.flattenStatements rest
      (elsePending ++ [labelCandidate (k + 1)]) ke with
      ⟨restCode, restPending, kr⟩
    rw [hr] at htr
    simp only at htr
    rw [Prod.mk.injEq, Prod.mk.injEq] at htr
    obtain ⟨h1, h2, h3⟩ := htr
    subst h1
    rw [h2, h3] at hr
    rw [List.append_assoc, List.append_assoc, List.append_assoc]
      at hfrag hres hfall
    obtain ⟨hfragA, hfrag1⟩ := fragmentAt_append hfrag
    obtain ⟨hfragT, hfrag2⟩ := fragmentAt_append hfrag1
    obtain ⟨hfragG, hfrag3⟩ := fragmentAt_append hfrag2
    obtain ⟨hfragE, hfragR⟩ := fragmentAt_append hfrag3
    obtain ⟨hresA, hres1⟩ := labelsResolveAt_append hres
    obtain ⟨hresT, hres2⟩ := labelsResolveAt_append hres1
    obtain ⟨hresG, hres3⟩ := labelsResolveAt_append hres2
    obtain ⟨hresE, hresR⟩ := labelsResolveAt_append hres3
    obtain ⟨⟨lblA, hinstrTest⟩, hfunA, hpfunA⟩ := attach_funnel pending
      (.ifGoto (negateCondition c) (labelCandidate k)) P lm i hfragA hresA
    obtain ⟨⟨lblG, hinstrGoto⟩, hfunG, hpfunG⟩ := attach_funnel thenPending
      (.goto (labelCandidate (k + 1))) P lm
      (i + (attach pending
        (GotoInterpreter.Statement.ifGoto (negateCondition c)
          (labelCandidate k))).length + thenCode.length) hfragG hresG
    rw [WhileInterpreter.executeStatements] at hexec
    cases hstep0 : WhileInterpreter.executeStatement
        (.ifStmt c thenB (some elseB)) s with
    | error msg =>
      rw [hstep0] at hexec
      rw [except_bind_error] at hexec
      exact Except.noConfusion hexec
    | ok s1 =>
      rw [hstep0] at hexec
      rw [except_bind_ok] at hexec
      have heq : i + (attach pending
          (GotoInterpreter.Statement.ifGoto (negateCondition c)
            (labelCandidate k)) ++ (thenCode ++
          (attach thenPending
            (GotoInterpreter.Statement.goto (labelCandidate (k + 1))) ++
            (elseCode ++ restCode)))).length =
          i + (attach pending
            (GotoInterpreter.Statement.ifGoto (negateCondition c)
              (labelCandidate k))).length + thenCode.length +
            (attach thenPending
              (GotoInterpreter.Statement.goto
                (labelCandidate (k + 1)))).length + elseCode.length +
            restCode.length := by
        simp only [List.length_append]
        omega
      rw [heq] at hfall
      obtain ⟨hrestmain, hrestpend⟩ := flatten_sim rest
        (elsePending ++ [labelCandidate (k + 1)]) ke restCode pending2 k2
        P lm
        (i + (attach pending
          (GotoInterpreter.Statement.ifGoto (negateCondition c)
            (labelCandidate k))).length + thenCode.length +
          (attach thenPending
            (GotoInterpreter.Statement.goto
              (labelCandidate (k + 1)))).length + elseCode.length)
        hr hfragR hresR s1 s2 hexec e sfin hfall hpend
      obtain ⟨jend, hjend, hrouteend⟩ := hrestpend (labelCandidate (k + 1))
        (List.mem_append.2 (.inr (by simp)))
      have he1 : i + (attach pending
          (GotoInterpreter.Statement.ifGoto (negateCondition c)
            (labelCandidate k))).length - 1 + 1 =
          i + (attach pending
            (GotoInterpreter.Statement.ifGoto (negateCondition c)
              (labelCandidate k))).length := by
        have := attach_pos pending
          (GotoInterpreter.Statement.ifGoto (negateCondition c)
            (labelCandidate k))
        omega
      rw [WhileInterpreter.executeStatement.eq_def] at hstep0
      have hcenter : SimReach P lm (i + (attach pending
          (GotoInterpreter.Statement.ifGoto (negateCondition c)
            (labelCandidate k))).length - 1) s e sfin := by
        cases hc : WhileInterpreter.evaluateCondition s.vars c with
        | true =>
          simp only [hc, if_true] at hstep0
          have hgc : GotoInterpreter.evaluateCondition s.vars
              (negateCondition c) = false := by
            rw [negateCondition_eval, hc]
            rfl
          have hstepT : SimReach P lm (i + (attach pending
              (GotoInterpreter.Statement.ifGoto (negateCondition c)
                (labelCandidate k))).length - 1) s
              (i + (attach pending
                (GotoInterpreter.Statement.ifGoto (negateCondition c)
                  (labelCandidate k))).length - 1 + 1) s :=
            simReach_step_ifGoto_false hinstrTest hgc
          rw [he1] at hstepT
          have hback : ∀ t, SimReach P lm
              (i + (attach pending
                (GotoInterpreter.Statement.ifGoto (negateCondition c)
                  (labelCandidate k))).length + thenCode.length +
                (attach thenPending
                  (GotoInterpreter.Statement.goto
                    (labelCandidate (k + 1)))).length - 1) t e sfin → True :=
            fun _ _ => trivial
          have hfallT : SimReach P lm
              (i + (attach pending
                (GotoInterpreter.Statement.ifGoto (negateCondition c)
                  (labelCandidate k))).length + thenCode.length) s1 e sfin :=
            simReach_trans (hfunG s1) (simReach_trans
              (simReach_step_goto hinstrGoto hjend) hrouteend)
          have hpendT : ∀ l ∈ thenPending, ∃ j, lookupKey lm l = some j ∧
              SimReach P lm j s1 e sfin := by
            intro l hl
            obtain ⟨j, hj, hroute⟩ := hpfunG l hl
            exact ⟨j, hj, simReach_trans (hroute s1) (simReach_trans
              (simReach_step_goto hinstrGoto hjend) hrouteend)⟩
          obtain ⟨hthenmain, _⟩ := flatten_sim thenB [] (k + 2) thenCode
            thenPending k1 P lm
            (i + (attach pending
              (GotoInterpreter.Statement.ifGoto (negateCondition c)
                (labelCandidate k))).length)
            ht hfragT hresT s s1 hstep0 e sfin hfallT hpendT
          exact simReach_trans hstepT hthenmain
        | false =>
          simp only [hc, Bool.false_eq_true, if_false] at hstep0
          have hgc2 : GotoInterpreter.evaluateCondition s.vars
              (negateCondition c) = true := by
            rw [negateCondition_eval, hc]
            rfl
          have hpendE : ∀ l ∈ elsePending, ∃ j, lookupKey lm l = some j ∧
              SimReach P lm j s1 e sfin := fun l hl =>
            hrestpend l (List.mem_append.2 (.inl hl))
          obtain ⟨_, helsepend⟩ := flatten_sim elseB [labelCandidate k] k1
            elseCode elsePending ke P lm
            (i + (attach pending
              (GotoInterpreter.Statement.ifGoto (negateCondition c)
                (labelCandidate k))).length + thenCode.length +
              (attach thenPending
                (GotoInterpreter.Statement.goto
                  (labelCandidate (k + 1)))).length)
            he hfragE hresE s s1 hstep0 e sfin hrestmain hpendE
          obtain ⟨jelse, hjelse, hrouteelse⟩ := helsepend (labelCandidate k)
            (by simp)
          exact simReach_trans
            (simReach_step_ifGoto_true hinstrTest hgc2 hjelse) hrouteelse
      refine ⟨simReach_trans (hfunA s) hcenter, fun l hl => ?_⟩
      obtain ⟨j, hj, hroute⟩ := hpfunA l hl
      exact ⟨j, hj, simReach_trans (hroute s) hcenter⟩

end LangIT

namespace LangIT

theorem attach_label_mem :
    ∀ (p : List String) (stmt : GotoInterpreter.Statement)
      (instr : GotoInterpreter.Instruction),
      instr ∈ attach p stmt → ∀ l, instr.label = some l → l ∈ p
  | [], stmt, instr, hm, l, hl => by
    simp [attach] at hm
    subst hm
    simp at hl
  | [l0], stmt, instr, hm, l, hl => by
    simp [attach] at hm
    subst hm
    simp at hl
    simp [hl]
  | l1 :: l2 :: rest, stmt, instr, hm, l, hl => by
    rw [attach] at hm
    rcases List.mem_cons.1 hm with h | h
    · subst h
      simp at hl
      simp [hl]
    · exact List.mem_cons_of_mem _
        (attach_label_mem (l2 :: rest) stmt instr h l hl)

/-- Every label attached anywhere in flattened code is an allocator
candidate (in particular it is non-empty). -/
theorem flatten_instr_labels :
    ∀ (stmts : List WhileInterpreter.Statement) (pending : List String)
      (k : Nat) (code : List GotoInterpreter.Instruction)
      (pending2 : List String) (k2 : Nat),
      WhileToGotoTranslator.flattenStatements stmts pending k =
        (code, pending2, k2) →
      (∀ l ∈ pending, ∃ j, j < k ∧ l = labelCandidate j) →
      ∀ instr ∈ code, ∀ l, instr.label = some l →
        ∃ j, l = labelCandidate j
  | [], pending, k, code, pending2, k2, htr, hshape => by
    rw [WhileToGotoTranslator.flattenStatements] at htr
    rw [Prod.mk.injEq, Prod.mk.injEq] at htr
    obtain ⟨h1, h2, h3⟩ := htr
    subst h1
    intro instr him
    simp at him
  | .assignment target value :: rest, pending, k, code, pending2, k2, htr,
      hshape => by
    rw [WhileToGotoTranslator.flattenStatements] at htr
    rcases hr : WhileToGotoTranslator.flattenStatements rest [] k with
      ⟨restCode, restPending, kr⟩
    rw [hr] at htr
    simp only at htr
    rw [Prod.mk.injEq, Prod.mk.injEq] at htr
    obtain ⟨h1, h2, h3⟩ := htr
    subst h1
    rw [h2, h3] at hr
    intro instr him l hl
    rcases List.mem_append.1 him with h | h
    · obtain ⟨j, _, hj⟩ := hshape l (attach_label_mem pending _ instr h l hl)
      exact ⟨j, hj⟩
    · exact flatten_instr_labels rest [] k restCode pending2 k2 hr
        (by intro l' hl'; simp at hl') instr h l hl
  | .whileStmt c body :: rest, pending, k, code, pending2, k2, htr,
      hshape => by
    rw [WhileToGotoTranslator.flattenStatements] at htr
    rcases hb : WhileToGotoTranslator.flattenStatements body [] (k + 2) with
      ⟨bodyCode, bodyPending, k1⟩
    rw [hb] at htr
    simp only at htr
    rcases hr : WhileToGotoTranslator.flattenStatements rest
      [labelCandidate (k + 1)] k1 with ⟨restCode, restPending, kr⟩
    rw [hr] at htr
    simp only at htr
    rw [Prod.mk.injEq, Prod.mk.injEq] at htr
    obtain ⟨h1, h2, h3⟩ := htr
    subst h1
    rw [h2, h3] at hr
    obtain ⟨hk1, hbshape, _⟩ := flatten_inventory body [] (k + 2) bodyCode
      bodyPending k1 hb (by intro l' hl'; simp at hl')
    intro instr him l hl
    rcases List.mem_append.1 him with him1 | him1
    rotate_left
    · exact flatten_instr_labels rest [labelCandidate (k + 1)] k1 restCode
        pending2 k2 hr
        (by
          intro l' hl'
          rw [List.mem_singleton] at hl'
          subst hl'
          exact ⟨k + 1, by omega, rfl⟩) instr him1 l hl
    rcases List.mem_append.1 him1 with him2 | him2
    rotate_left
    · obtain ⟨j, _, hj⟩ := hbshape l
        (attach_label_mem bodyPending _ instr him2 l hl)
      exact ⟨j, hj⟩
    rcases List.mem_append.1 him2 with him3 | him3
    · have hm := attach_label_mem (pending ++ [labelCandidate k]) _
        instr him3 l hl
      rcases List.mem_append.1 hm with h | h
      · obtain ⟨j, _, hj⟩ := hshape l h
        exact ⟨j, hj⟩
      · rw [List.mem_singleton] at h
        exact ⟨k, h⟩
    · exact flatten_instr_labels body [] (k + 2) bodyCode bodyPending k1 hb
        (by intro l' hl'; simp at hl') instr him3 l hl
  | .ifStmt c thenB none :: rest, pending, k, code, pending2, k2, htr,
      hshape => by
    rw [WhileToGotoTranslator.flattenStatements] at htr
    rcases ht : WhileToGotoTranslator.flattenStatements thenB [] (k + 1) with
      ⟨thenCode, thenPending, k1⟩
    rw [ht] at htr
    simp only at htr
    rcases hr : WhileToGotoTranslator.flattenStatements rest
      (thenPending ++ [labelCandidate k]) k1 with ⟨restCode, restPending, kr⟩
    rw [hr] at htr
    simp only at htr
    rw [Prod.mk.injEq, Prod.mk.injEq] at htr
    obtain ⟨h1, h2, h3⟩ := htr
    subst h1
    rw [h2, h3] at hr
    obtain ⟨hk1, htshape, _⟩ := flatten_inventory thenB [] (k + 1) thenCode
      thenPending k1 ht (by intro l' hl'; simp at hl')
    intro instr him l hl
    rcases List.mem_append.1 him with him1 | him1
    rotate_left
    · exact flatten_instr_labels rest (thenPending ++ [labelCandidate k]) k1
        restCode pending2 k2 hr
        (by
          intro l' hl'
          rcases List.mem_append.1 hl' with h | h
          · exact htshape l' h
          · rw [List.mem_singleton] at h
            subst h
            exact ⟨k, by omega, rfl⟩) instr him1 l hl
    rcases List.mem_append.1 him1 with him2 | him2
    · obtain ⟨j, _, hj⟩ := hshape l (attach_label_mem pending _ instr him2 l hl)
      exact ⟨j, hj⟩
    · exact flatten_instr_labels thenB [] (k + 1) thenCode thenPending k1 ht
        (by intro l' hl'; simp at hl') instr him2 l hl
  | .ifStmt c thenB (some elseB) :: rest, pending, k, code, pending2, k2,
      htr, hshape => by
    rw [WhileToGotoTranslator.flattenStatements] at htr
    rcases ht : WhileToGotoTranslator.flattenStatements thenB [] (k + 2) with
      ⟨thenCode, thenPending, k1⟩
    rw [ht] at htr
    simp only at htr
    rcases he : WhileToGotoTranslator.flattenStatements elseB
      [labelCandidate k] k1 with ⟨elseCode, elsePending, ke⟩
    rw [he] at htr
    simp only at htr
    rcases hr : WhileToGotoTranslator.flattenStatements rest
      (elsePending ++ [labelCandidate (k + 1)]) ke with
      ⟨restCode, restPending, kr⟩
    rw [hr] at htr
    simp only at htr
    rw [Prod.mk.injEq, Prod.mk.injEq] at htr
    obtain ⟨h1, h2, h3⟩ := htr
    subst h1
    rw [h2, h3] at hr
    obtain ⟨hk1, htshape, _⟩ := flatten_inventory thenB [] (k + 2) thenCode
      thenPending k1 ht (by intro l' hl'; simp at hl')
    obtain ⟨hke, heshape, _⟩ := flatten_inventory elseB [labelCandidate k]
      k1 elseCode elsePending ke he
      (by
        intro l' hl'
        rw [List.mem_singleton] at hl'
        subst hl'
        exact ⟨k, by omega, rfl⟩)
    intro instr him l hl
    rcases List.mem_append.1 him with him1 | him1
    rotate_left
    · exact flatten_instr_labels rest
        (elsePending ++ [labelCandidate (k + 1)]) ke restCode pending2 k2 hr
        (by
          intro l' hl'
          rcases List.mem_append.1 hl' with h | h
          · exact heshape l' h
          · rw [List.mem_singleton] at h
            subst h
            exact ⟨k + 1, by omega, rfl⟩) instr him1 l hl
    rcases List.mem_append.1 him1 with him2 | him2
    rotate_left
    · exact flatten_instr_labels elseB [labelCandidate k] k1 elseCode
        elsePending ke he
        (by
          intro l' hl'
          rw [List.mem_singleton] at hl'
          subst hl'
          exact ⟨k, by omega, rfl⟩) instr him2 l hl
    rcases List.mem_append.1 him2 with him3 | him3
    rotate_left
    · obtain ⟨j, _, hj⟩ := htshape l
        (attach_label_mem thenPending _ instr him3 l hl)
      exact ⟨j, hj⟩
    rcases List.mem_append.1 him3 with him4 | him4
    · obtain ⟨j, _, hj⟩ := hshape l
        (attach_label_mem pending _ instr him4 l hl)
      exact ⟨j, hj⟩
    · exact flatten_instr_labels thenB [] (k + 2) thenCode thenPending k1 ht
        (by intro l' hl'; simp at hl') instr him4 l hl

end LangIT

namespace LangIT

/-- WHILE-to-GOTO translation correctness: a successful WHILE evaluation is
reproduced exactly by evaluating the translated GOTO program — same final
variable mapping — unless the GOTO step ceiling (one global counter, against
the WHILE side's per-loop counters) aborts the run with the step-limit
diagnostic. -/
theorem whileToGoto_evaluate_correct (program : WhileInterpreter.Program)
    (options : Option EvalArg) (result : VarMap)
    (h : WhileInterpreter.evaluate program options = .ok result) :
    GotoInterpreter.evaluate (WhileToGotoTranslator.translate program)
        options = .ok result ∨
      GotoInterpreter.evaluate (WhileToGotoTranslator.translate program)
        options = .error GotoInterpreter.stepLimitMessage := by
  rcases hfl : WhileToGotoTranslator.flattenStatements program.statements
    [] 0 with ⟨code, pending, kfin⟩
  have htr : WhileToGotoTranslator.translate program =
      ⟨code ++ attach pending GotoInterpreter.Statement.halt⟩ := by
    simp only [WhileToGotoTranslator.translate, hfl]
  obtain ⟨_, hpshape, hperm⟩ := flatten_inventory program.statements [] 0
    code pending kfin hfl (by intro l hl; simp at hl)
  have hnodup : (labelsOf (code ++ attach pending
      GotoInterpreter.Statement.halt)).Nodup := by
    rw [labelsOf_append, attach_labels pending _ (fun l hl => by
      obtain ⟨j, _, hj⟩ := hpshape l hl
      rw [hj]
      exact labelCandidate_ne_empty j)]
    refine hperm.nodup_iff.2 ?_
    simp only [List.nil_append]
    refine List.Nodup.map labelCandidate_inj ?_
    apply List.nodup_range'
    omega
  obtain ⟨lm, hlm⟩ := buildLabelMap_ok_of_nodup _ 0 [] hnodup
    (fun l _ => rfl)
  have hPlab : ∀ instr ∈ code ++ attach pending
      GotoInterpreter.Statement.halt, ∀ l, instr.label = some l →
      ∃ j, l = labelCandidate j := by
    intro instr him l hl
    rcases List.mem_append.1 him with hm | hm
    · exact flatten_instr_labels program.statements [] 0 code pending kfin
        hfl (by intro l' hl'; simp at hl') instr hm l hl
    · obtain ⟨j, _, hj⟩ := hpshape l
        (attach_label_mem pending _ instr hm l hl)
      exact ⟨j, hj⟩
  have hresolve : labelsResolveAt lm 0 (code ++ attach pending
      GotoInterpreter.Statement.halt) := by
    intro n instr hn l hl
    have hne : l ≠ "" := by
      obtain ⟨j, hj⟩ := hPlab instr (List.getElem?_mem hn) l hl
      rw [hj]
      exact labelCandidate_ne_empty j
    exact buildLabelMap_lookup _ 0 [] lm hlm n instr hn l hl hne
  obtain ⟨hfragC, hfragH⟩ := fragmentAt_append (fragmentAt_self
    (code ++ attach pending GotoInterpreter.Statement.halt))
  obtain ⟨hresC, hresH⟩ := labelsResolveAt_append hresolve
  obtain ⟨⟨lblH, hinstrHalt⟩, hfunH, hpfunH⟩ := attach_funnel pending
    GotoInterpreter.Statement.halt _ lm (0 + code.length) hfragH hresH
  rw [while_evaluate_eq] at h
  cases hx : WhileInterpreter.executeStatements program.statements
      (initialStateOf options) with
  | error msg =>
    rw [hx] at h
    rw [except_bind_error'] at h
    exact Except.noConfusion h
  | ok s2 =>
    rw [hx] at h
    rw [except_bind_ok'] at h
    injection h with hres2
    obtain ⟨hmain, _⟩ := flatten_sim program.statements [] 0 code pending
      kfin _ lm 0 hfl hfragC hresC (initialStateOf options) s2 hx
      (0 + code.length + (attach pending
        GotoInterpreter.Statement.halt).length - 1) s2
      (hfunH s2) (fun l hl => by
        obtain ⟨j, hj, hroute⟩ := hpfunH l hl
        exact ⟨j, hj, hroute s2⟩)
    have hinstr_eq : (WhileToGotoTranslator.translate program).instructions =
        code ++ attach pending GotoInterpreter.Statement.halt := by
      rw [htr]
    rw [goto_evaluate_eq, hinstr_eq, hlm, except_bind_ok']
    rcases hmain (SAFETY_LIMIT + 1) with ⟨fuel2, _, heq2⟩ | herr
    · rcases runFrom_halt hinstrHalt fuel2 with hok | herr2
      · left
        rw [heq2, hok, except_bind_ok', hres2]
      · right
        rw [heq2, herr2, except_bind_error']
    · right
      rw [herr, except_bind_error']

end LangIT

namespace LangIT

/-! ## GOTO-to-WHILE: label map and execution helpers -/

theorem collectLabels_eq_of_build :
    ∀ (instructions : List GotoInterpreter.Instruction) (idx : Nat)
      (acc lm : GotoInterpreter.LabelMap),
      GotoInterpreter.buildLabelMap instructions idx acc = .ok lm →
      GotoToWhileTranslator.collectLabels instructions idx acc = lm
  | [], idx, acc, lm, h => by
    rw [GotoInterpreter.buildLabelMap] at h
    cases h
    rfl
  | ⟨none, stmt⟩ :: rest, idx, acc, lm, h => by
    rw [GotoInterpreter.buildLabelMap] at h
    rw [GotoToWhileTranslator.collectLabels]
    exact collectLabels_eq_of_build rest (idx + 1) acc lm h
  | ⟨some lab, stmt⟩ :: rest, idx, acc, lm, h => by
    rw [GotoInterpreter.buildLabelMap] at h
    rw [GotoToWhileTranslator.collectLabels]
    simp only [] at h ⊢
    by_cases he : lab = ""
    · subst he
      simp only [ne_eq, not_true_eq_false, if_false] at h ⊢
      exact collectLabels_eq_of_build rest (idx + 1) acc lm h
    · simp only [ne_eq, he, not_false_eq_true, if_true] at h ⊢
      cases hk : hasKey acc lab with
      | true =>
        rw [hk, if_pos rfl] at h
        exact Except.noConfusion h
      | false =>
        rw [hk] at h
        simp only [Bool.false_eq_true, if_false] at h ⊢
        exact collectLabels_eq_of_build rest (idx + 1) _ lm h

theorem buildLabelMap_values_bound :
    ∀ (instructions : List GotoInterpreter.Instruction) (idx : Nat)
      (acc lm : GotoInterpreter.LabelMap),
      GotoInterpreter.buildLabelMap instructions idx acc = .ok lm →
      ∀ l j, lookupKey lm l = some j →
        lookupKey acc l = some j ∨
          (idx ≤ j ∧ j < idx + instructions.length)
  | [], idx, acc, lm, h, l, j, hl => by
    rw [GotoInterpreter.buildLabelMap] at h
    cases h
    exact .inl hl
  | ⟨none, stmt⟩ :: rest, idx, acc, lm, h, l, j, hl => by
    rw [GotoInterpreter.buildLabelMap] at h
    rcases buildLabelMap_values_bound rest (idx + 1) acc lm h l j hl with
      h1 | h1
    · exact .inl h1
    · right
      simp only [List.length_cons]
      omega
  | ⟨some lab, stmt⟩ :: rest, idx, acc, lm, h, l, j, hl => by
    rw [GotoInterpreter.buildLabelMap] at h
    simp only [] at h
    by_cases he : lab = ""
    · subst he
      simp only [ne_eq, not_true_eq_false, if_false] at h
      rcases buildLabelMap_values_bound rest (idx + 1) acc lm h l j hl with
        h1 | h1
      · exact .inl h1
      · right
        simp only [List.length_cons]
        omega
    · simp only [ne_eq, he, not_false_eq_true, if_true] at h
      cases hk : hasKey acc lab with
      | true =>
        rw [hk, if_pos rfl] at h
        exact Except.noConfusion h
      | false =>
        rw [hk] at h
        simp only [Bool.false_eq_true, if_false] at h
        rcases buildLabelMap_values_bound rest (idx + 1) _ lm h l j hl with
          h1 | h1
        · rw [lookupKey_append] at h1
          cases hacc : lookupKey acc l with
          | some v =>
            rw [hacc] at h1
            left
            exact h1
          | none =>
            rw [hacc] at h1
            simp only [] at h1
            by_cases hll : lab = l
            · rw [show lookupKey [(lab, idx)] l = some idx by
                simp [lookupKey, hll]] at h1
              injection h1 with h1
              right
              simp only [List.length_cons]
              omega
            · rw [show lookupKey [(lab, idx)] l = none by
                simp [lookupKey, hll]] at h1
              exact Option.noConfusion h1
        · right
          simp only [List.length_cons]
          omega

theorem executeStatements_singleton (a : WhileInterpreter.Statement)
    (τ : InterpState) :
    WhileInterpreter.executeStatements [a] τ =
      WhileInterpreter.executeStatement a τ := by
  rw [WhileInterpreter.executeStatements]
  cases h : WhileInterpreter.executeStatement a τ with
  | ok τ1 =>
    rw [except_bind_ok, WhileInterpreter.executeStatements]
  | error e =>
    rw [except_bind_error]

theorem executeStatements_pair (a b : WhileInterpreter.Statement)
    (τ : InterpState) :
    WhileInterpreter.executeStatements [a, b] τ =
      WhileInterpreter.executeStatement a τ >>=
        WhileInterpreter.executeStatement b := by
  rw [WhileInterpreter.executeStatements]
  cases h : WhileInterpreter.executeStatement a τ with
  | ok τ1 =>
    rw [except_bind_ok, except_bind_ok, executeStatements_singleton]
  | error e =>
    rw [except_bind_error, except_bind_error]

theorem runWhileLoop_exit (c : Condition)
    (b : List WhileInterpreter.Statement) (fuel : Nat) (τ : InterpState)
    (h : WhileInterpreter.evaluateCondition τ.vars c = false) :
    WhileInterpreter.runWhileLoop c b fuel τ = .ok τ := by
  cases fuel with
  | zero =>
    rw [WhileInterpreter.runWhileLoop]
    simp only [h, Bool.false_eq_true, if_false]
  | succ f =>
    rw [WhileInterpreter.runWhileLoop]
    simp only [h, Bool.false_eq_true, if_false]

theorem executeStatement_assign_unlocked (target : String)
    (value : Expression) (υ : InterpState)
    (h : υ.lockedVariables.contains target = false) :
    WhileInterpreter.executeStatement (.assignment target value) υ =
      .ok { υ with
            vars := setVar υ.vars target
              (WhileInterpreter.evaluateExpression υ.vars value) } := by
  rw [WhileInterpreter.executeStatement]
  simp only [h, Bool.false_eq_true, if_false]

theorem loopSimRel_set_introducible (used : List String) (pcName : String)
    (hpc : introducible used pcName) (σ τ : InterpState) (v : Nat)
    (hR : LoopSimRel used σ τ) :
    LoopSimRel used σ { τ with vars := setVar τ.vars pcName v } := by
  refine ⟨hR.1, hR.2.1, fun x hx => ?_⟩
  have hxne : x ≠ pcName := fun h => hx (h ▸ hpc)
  rw [lookupKey_setVar_ne _ _ _ _ hxne]
  exact hR.2.2 x hx

theorem dispatch_exec (pcName : String) (lm : GotoInterpreter.LabelMap)
    (n : Nat) :
    ∀ (l : List GotoInterpreter.Instruction) (idx : Nat) (τ : InterpState)
      (p : Nat) (instr : GotoInterpreter.Instruction),
      lookupKey τ.vars pcName = some p →
      idx ≤ p → l[p - idx]? = some instr →
      WhileInterpreter.executeStatements
          (GotoToWhileTranslator.dispatch pcName lm n l idx) τ =
        WhileInterpreter.executeStatements
          (GotoToWhileTranslator.instructionBody pcName lm n
            instr.statement) τ
  | [], idx, τ, p, instr, hpc, hle, hget => by simp at hget
  | i0 :: rest, idx, τ, p, instr, hpc, hle, hget => by
    rw [GotoToWhileTranslator.dispatch, executeStatements_singleton]
    by_cases hp : p = idx
    · have hinstr : instr = i0 := by
        rw [show p - idx = 0 by omega] at hget
        simp only [List.getElem?_cons_zero] at hget
        exact (Option.some.injEq _ _ ▸ hget).symm
      have hc : WhileInterpreter.evaluateCondition τ.vars
          ⟨.eq, .var pcName, .num idx⟩ = true := by
        simp [WhileInterpreter.evaluateCondition,
          WhileInterpreter.evaluateExpression,
          WhileInterpreter.getVariableValue, hpc, hp]
      rw [WhileInterpreter.executeStatement.eq_def]
      simp only [hc, if_true]
      rw [hinstr]
    · have hc : WhileInterpreter.evaluateCondition τ.vars
          ⟨.eq, .var pcName, .num idx⟩ = false := by
        simp [WhileInterpreter.evaluateCondition,
          WhileInterpreter.evaluateExpression,
          WhileInterpreter.getVariableValue, hpc]
        omega
      rw [WhileInterpreter.executeStatement.eq_def]
      simp only [hc, Bool.false_eq_true, if_false]
      have hget' : rest[p - (idx + 1)]? = some instr := by
        rw [show p - idx = p - (idx + 1) + 1 by omega] at hget
        simpa using hget
      exact dispatch_exec pcName lm n rest (idx + 1) τ p instr hpc
        (by omega) hget'

end LangIT

namespace LangIT

theorem executeStatement_assign_locked (target : String)
    (value : Expression) (υ : InterpState)
    (h : υ.lockedVariables.contains target = true) :
    WhileInterpreter.executeStatement (.assignment target value) υ =
      .ok { υ with
            lockedVariables := υ.lockedVariables.erase target } := by
  rw [WhileInterpreter.executeStatement]
  simp only [h, if_true]

/-- Lockstep simulation of the program-counter loop: each GOTO step is one
iteration of the dispatching WHILE loop, on exactly the same fuel. -/
theorem goto_sim_run (P : List GotoInterpreter.Instruction)
    (lmI : GotoInterpreter.LabelMap) (used : List String) (pcName : String)
    (hpcfresh : introducible used pcName)
    (hvars : ∀ instr ∈ P, ∀ x ∈ gotoStatementVars instr.statement, x ∈ used)
    (hlmI : GotoInterpreter.buildLabelMap P 0 [] = .ok lmI) :
    ∀ (fuel p : Nat) (σ σ' τ : InterpState),
      p ≤ P.length →
      GotoInterpreter.runFrom P lmI fuel p σ = .ok σ' →
      LoopSimRel used σ τ →
      lookupKey τ.vars pcName = some p →
      ∃ τ', WhileInterpreter.runWhileLoop ⟨.ne, .var pcName, .num P.length⟩
          (GotoToWhileTranslator.dispatch pcName
            (GotoToWhileTranslator.collectLabels P 0 []) P.length P 0)
          fuel τ = .ok τ' ∧
        LoopSimRel used σ' τ' := by
  have hlmT : GotoToWhileTranslator.collectLabels P 0 [] = lmI :=
    collectLabels_eq_of_build P 0 [] lmI hlmI
  obtain ⟨jf, hjf, hpcnotused⟩ := hpcfresh
  have hpclock : ∀ (lv : List String),
      (∀ x ∈ lv, ¬ introducible used x) → lv.contains pcName = false := by
    intro lv hlv
    cases hcc : lv.contains pcName with
    | false => rfl
    | true =>
      exfalso
      exact hlv pcName (by simpa using hcc) ⟨jf, hjf, hpcnotused⟩
  intro fuel
  induction fuel with
  | zero =>
    intro p σ σ' τ hple hrun hR hpc
    rw [GotoInterpreter.runFrom] at hrun
    by_cases hplt : p < P.length
    · rw [if_pos hplt] at hrun
      exact Except.noConfusion hrun
    · rw [if_neg hplt] at hrun
      cases hrun
      refine ⟨τ, ?_, hR⟩
      apply runWhileLoop_exit
      have hp : p = P.length := by omega
      simp [WhileInterpreter.evaluateCondition,
        WhileInterpreter.evaluateExpression,
        WhileInterpreter.getVariableValue, hpc, hp, bne]
  | succ fuel ih =>
    intro p σ σ' τ hple hrun hR hpc
    rw [GotoInterpreter.runFrom] at hrun
    by_cases hplt : p < P.length
    case neg =>
      rw [if_neg hplt] at hrun
      cases hrun
      refine ⟨τ, ?_, hR⟩
      apply runWhileLoop_exit
      have hp : p = P.length := by omega
      simp [WhileInterpreter.evaluateCondition,
        WhileInterpreter.evaluateExpression,
        WhileInterpreter.getVariableValue, hpc, hp, bne]
    case pos =>
    rw [if_pos hplt] at hrun
    obtain ⟨instr, hinstr⟩ : ∃ instr, P[p]? = some instr :=
      ⟨P[p], List.getElem?_eq_getElem hplt⟩
    rw [hinstr] at hrun
    simp only [] at hrun
    have hct : WhileInterpreter.evaluateCondition τ.vars
        ⟨.ne, .var pcName, .num P.length⟩ = true := by
      simp [WhileInterpreter.evaluateCondition,
        WhileInterpreter.evaluateExpression,
        WhileInterpreter.getVariableValue, hpc, bne]
      omega
    have hdis := dispatch_exec pcName
      (GotoToWhileTranslator.collectLabels P 0 []) P.length P 0 τ p instr
      hpc (Nat.zero_le p) (by simpa using hinstr)
    have hvuse : ∀ x ∈ gotoStatementVars instr.statement, x ∈ used :=
      hvars instr (List.getElem?_mem hinstr)
    cases hst : instr.statement with
    | assignment target value =>
      rw [hst] at hrun hvuse
      simp only [] at hrun
      have htused : target ∈ used := hvuse target (by
        simp [gotoStatementVars])
      have hvalused : ∀ x ∈ expressionVars value, x ∈ used := fun x hx =>
        hvuse x (by simp [gotoStatementVars]; exact .inr hx)
      have hpcne : pcName ≠ target := fun h => hpcnotused (h ▸ htused)
      have hval : WhileInterpreter.evaluateExpression τ.vars value =
          GotoInterpreter.evaluateExpression σ.vars value := by
        rw [goto_evaluateExpression_eq]
        exact evaluateExpression_congr τ.vars σ.vars value (fun x hx =>
          hR.2.2 x (not_introducible_of_mem (hvalused x hx)))
      by_cases hlk : σ.lockedVariables.contains target = true
      · rw [if_pos hlk] at hrun
        have hlkτ : τ.lockedVariables.contains target = true := by
          rw [hR.1]
          exact hlk
        have hstep1 := executeStatement_assign_locked target value τ hlkτ
        have hRel1 : LoopSimRel used
            { σ with lockedVariables := σ.lockedVariables.erase target }
            { τ with lockedVariables := τ.lockedVariables.erase target } :=
          ⟨by simp only []; rw [hR.1],
           fun x hx => hR.2.1 x (List.mem_of_mem_erase hx), hR.2.2⟩
        have hlk2 : ({ τ with lockedVariables :=
            τ.lockedVariables.erase target } :
            InterpState).lockedVariables.contains pcName = false :=
          hpclock _ (fun x hx => hR.2.1 x (List.mem_of_mem_erase hx))
        have hev : WhileInterpreter.evaluateExpression
            ({ τ with lockedVariables := τ.lockedVariables.erase target } :
              InterpState).vars
            (.binaryOp .add (.var pcName) (.num 1)) = p + 1 := by
          simp [WhileInterpreter.evaluateExpression,
            WhileInterpreter.getVariableValue, hpc]
        have hstep2 := executeStatement_assign_unlocked pcName
          (.binaryOp .add (.var pcName) (.num 1))
          { τ with lockedVariables := τ.lockedVariables.erase target } hlk2
        rw [hev] at hstep2
        obtain ⟨τ', hτ', hRel'⟩ := ih (p + 1)
          { σ with lockedVariables := σ.lockedVariables.erase target } σ'
          { τ with lockedVariables := τ.lockedVariables.erase target,
                   vars := setVar τ.vars pcName (p + 1) }
          (by omega) hrun
          (loopSimRel_set_introducible used pcName ⟨jf, hjf, hpcnotused⟩
            _ _ (p + 1) hRel1)
          (lookupKey_setVar_self _ _ _)
        refine ⟨τ', ?_, hRel'⟩
        rw [WhileInterpreter.runWhileLoop]
        simp only [hct, if_true]
        rw [hdis, hst, GotoToWhileTranslator.instructionBody,
          executeStatements_pair, hstep1, except_bind_ok, hstep2,
          except_bind_ok]
        exact hτ'
      · simp only [Bool.not_eq_true] at hlk
        rw [hlk] at hrun
        simp only [Bool.false_eq_true, if_false] at hrun
        have hlkτ : τ.lockedVariables.contains target = false := by
          rw [hR.1]
          exact hlk
        have hstep1 := executeStatement_assign_unlocked target value τ hlkτ
        have hRel1 : LoopSimRel used
            { σ with
              vars := setVar σ.vars target
                (GotoInterpreter.evaluateExpression σ.vars value) }
            { τ with
              vars := setVar τ.vars target
                (WhileInterpreter.evaluateExpression τ.vars value) } := by
          refine ⟨hR.1, hR.2.1, fun x hx => ?_⟩
          by_cases hxt : x = target
          · subst hxt
            simp only []
            rw [lookupKey_setVar_self, lookupKey_setVar_self, hval]
          · simp only []
            rw [lookupKey_setVar_ne _ _ _ _ hxt,
              lookupKey_setVar_ne _ _ _ _ hxt]
            exact hR.2.2 x hx
        have hlk2 : ({ τ with
            vars := setVar τ.vars target
              (WhileInterpreter.evaluateExpression τ.vars value) } :
            InterpState).lockedVariables.contains pcName = false :=
          hpclock _ hR.2.1
        have hev : WhileInterpreter.evaluateExpression
            ({ τ with
              vars := setVar τ.vars target
                (WhileInterpreter.evaluateExpression τ.vars value) } :
              InterpState).vars
            (.binaryOp .add (.var pcName) (.num 1)) = p + 1 := by
          simp only [WhileInterpreter.evaluateExpression,
            WhileInterpreter.getVariableValue]
          rw [lookupKey_setVar_ne _ _ _ _ hpcne, hpc]
          rfl
        have hstep2 := executeStatement_assign_unlocked pcName
          (.binaryOp .add (.var pcName) (.num 1))
          { τ with
            vars := setVar τ.vars target
              (WhileInterpreter.evaluateExpression τ.vars value) } hlk2
        rw [hev] at hstep2
        obtain ⟨τ', hτ', hRel'⟩ := ih (p + 1)
          { σ with
            vars := setVar σ.vars target
              (GotoInterpreter.evaluateExpression σ.vars value) } σ'
          { τ with
            vars := setVar (setVar τ.vars target
              (WhileInterpreter.evaluateExpression τ.vars value)) pcName
              (p + 1) }
          (by omega) hrun
          (loopSimRel_set_introducible used pcName ⟨jf, hjf, hpcnotused⟩
            _ _ (p + 1) hRel1)
          (lookupKey_setVar_self _ _ _)
        refine ⟨τ', ?_, hRel'⟩
        rw [WhileInterpreter.runWhileLoop]
        simp only [hct, if_true]
        rw [hdis, hst, GotoToWhileTranslator.instructionBody,
          executeStatements_pair, hstep1, except_bind_ok, hstep2,
          except_bind_ok]
        exact hτ'
    | goto label =>
      rw [hst] at hrun
      simp only [] at hrun
      cases hgl : GotoInterpreter.getLabelIndex lmI label with
      | error msg =>
        rw [hgl, except_bind_error] at hrun
        exact Except.noConfusion hrun
      | ok j =>
        rw [hgl, except_bind_ok] at hrun
        have hlook : lookupKey lmI label = some j := by
          rw [GotoInterpreter.getLabelIndex] at hgl
          cases hlk2 : lookupKey lmI label with
          | none =>
            rw [hlk2] at hgl
            exact Except.noConfusion hgl
          | some v =>
            rw [hlk2] at hgl
            simp only [] at hgl
            injection hgl with hv
            rw [hv]
        have hjlt : j < P.length := by
          rcases buildLabelMap_values_bound P 0 [] lmI hlmI label j hlook
            with h1 | h1
          · simp [lookupKey] at h1
          · omega
        have htargetI : GotoToWhileTranslator.targetIndex
            (GotoToWhileTranslator.collectLabels P 0 []) P.length label =
            j := by
          rw [hlmT, GotoToWhileTranslator.targetIndex, hlook]
          rfl
        have hlkτ : τ.lockedVariables.contains pcName = false :=
          hpclock _ hR.2.1
        have hstep1 := executeStatement_assign_unlocked pcName
          (.num (GotoToWhileTranslator.targetIndex
            (GotoToWhileTranslator.collectLabels P 0 []) P.length label))
          τ hlkτ
        have hev : WhileInterpreter.evaluateExpression τ.vars
            (.num (GotoToWhileTranslator.targetIndex
              (GotoToWhileTranslator.collectLabels P 0 []) P.length
              label)) = j := by
          rw [show WhileInterpreter.evaluateExpression τ.vars
            (.num (GotoToWhileTranslator.targetIndex
              (GotoToWhileTranslator.collectLabels P 0 []) P.length
              label)) = GotoToWhileTranslator.targetIndex
              (GotoToWhileTranslator.collectLabels P 0 []) P.length label
            from rfl]
          exact htargetI
        rw [hev] at hstep1
        obtain ⟨τ', hτ', hRel'⟩ := ih j σ σ'
          { τ with vars := setVar τ.vars pcName j } (by omega) hrun
          (loopSimRel_set_introducible used pcName ⟨jf, hjf, hpcnotused⟩
            _ _ j hR)
          (lookupKey_setVar_self _ _ _)
        refine ⟨τ', ?_, hRel'⟩
        rw [WhileInterpreter.runWhileLoop]
        simp only [hct, if_true]
        rw [hdis, hst, GotoToWhileTranslator.instructionBody,
          executeStatements_singleton, hstep1, except_bind_ok]
        exact hτ'
    | ifGoto c label =>
      rw [hst] at hrun hvuse
      simp only [] at hrun
      have hcvused : ∀ x ∈ conditionVars c, x ∈ used := fun x hx =>
        hvuse x (by simpa [gotoStatementVars] using hx)
      have hcond : WhileInterpreter.evaluateCondition τ.vars c =
          GotoInterpreter.evaluateCondition σ.vars c := by
        rw [goto_evaluateCondition_eq]
        exact evaluateCondition_congr τ.vars σ.vars c (fun x hx =>
          hR.2.2 x (not_introducible_of_mem (hcvused x hx)))
      have hlkτ : τ.lockedVariables.contains pcName = false :=
        hpclock _ hR.2.1
      cases hgc : GotoInterpreter.evaluateCondition σ.vars c with
      | true =>
        rw [hgc] at hrun
        simp only [if_true] at hrun
        cases hgl : GotoInterpreter.getLabelIndex lmI label with
        | error msg =>
          rw [hgl, except_bind_error] at hrun
          exact Except.noConfusion hrun
        | ok j =>
          rw [hgl, except_bind_ok] at hrun
          have hlook : lookupKey lmI label = some j := by
            rw [GotoInterpreter.getLabelIndex] at hgl
            cases hlk2 : lookupKey lmI label with
            | none =>
              rw [hlk2] at hgl
              exact Except.noConfusion hgl
            | some v =>
              rw [hlk2] at hgl
              simp only [] at hgl
              injection hgl with hv
              rw [hv]
          have hjlt : j < P.length := by
            rcases buildLabelMap_values_bound P 0 [] lmI hlmI label j hlook
              with h1 | h1
            · simp [lookupKey] at h1
            · omega
          have htargetI : GotoToWhileTranslator.targetIndex
              (GotoToWhileTranslator.collectLabels P 0 []) P.length label =
              j := by
            rw [hlmT, GotoToWhileTranslator.targetIndex, hlook]
            rfl
          have hcτ : WhileInterpreter.evaluateCondition τ.vars c = true := by
            rw [hcond]
            exact hgc
          have hstep1 := executeStatement_assign_unlocked pcName
            (.num (GotoToWhileTranslator.targetIndex
              (GotoToWhileTranslator.collectLabels P 0 []) P.length label))
            τ hlkτ
          have hev : WhileInterpreter.evaluateExpression τ.vars
              (.num (GotoToWhileTranslator.targetIndex
                (GotoToWhileTranslator.collectLabels P 0 []) P.length
                label)) = j := by
            rw [show WhileInterpreter.evaluateExpression τ.vars
              (.num (GotoToWhileTranslator.targetIndex
                (GotoToWhileTranslator.collectLabels P 0 []) P.length
                label)) = GotoToWhileTranslator.targetIndex
                (GotoToWhileTranslator.collectLabels P 0 []) P.length label
              from rfl]
            exact htargetI
          rw [hev] at hstep1
          obtain ⟨τ', hτ', hRel'⟩ := ih j σ σ'
            { τ with vars := setVar τ.vars pcName j } (by omega) hrun
            (loopSimRel_set_introducible used pcName ⟨jf, hjf, hpcnotused⟩
              _ _ j hR)
            (lookupKey_setVar_self _ _ _)
          refine ⟨τ', ?_, hRel'⟩
          rw [WhileInterpreter.runWhileLoop]
          simp only [hct, if_true]
          rw [hdis, hst, GotoToWhileTranslator.instructionBody,
            executeStatements_singleton]
          rw [WhileInterpreter.executeStatement.eq_def]
          simp only [hcτ, if_true]
          rw [executeStatements_singleton, hstep1, except_bind_ok]
          exact hτ'
      | false =>
        rw [hgc] at hrun
        simp only [Bool.false_eq_true, if_false] at hrun
        have hcτ : WhileInterpreter.evaluateCondition τ.vars c = false := by
          rw [hcond]
          exact hgc
        have hstep1 := executeStatement_assign_unlocked pcName
          (.binaryOp .add (.var pcName) (.num 1)) τ hlkτ
        have hev : WhileInterpreter.evaluateExpression τ.vars
            (.binaryOp .add (.var pcName) (.num 1)) = p + 1 := by
          simp [WhileInterpreter.evaluateExpression,
            WhileInterpreter.getVariableValue, hpc]
        rw [hev] at hstep1
        obtain ⟨τ', hτ', hRel'⟩ := ih (p + 1) σ σ'
          { τ with vars := setVar τ.vars pcName (p + 1) } (by omega) hrun
          (loopSimRel_set_introducible used pcName ⟨jf, hjf, hpcnotused⟩
            _ _ (p + 1) hR)
          (lookupKey_setVar_self _ _ _)
        refine ⟨τ', ?_, hRel'⟩
        rw [WhileInterpreter.runWhileLoop]
        simp only [hct, if_true]
        rw [hdis, hst, GotoToWhileTranslator.instructionBody,
          executeStatements_singleton]
        rw [WhileInterpreter.executeStatement.eq_def]
        simp only [hcτ, Bool.false_eq_true, if_false]
        rw [executeStatements_singleton, hstep1, except_bind_ok]
        exact hτ'
    | halt =>
      rw [hst] at hrun
      simp only [] at hrun
      cases hrun
      have hlkτ : τ.lockedVariables.contains pcName = false :=
        hpclock _ hR.2.1
      have hstep1 := executeStatement_assign_unlocked pcName
        (.num P.length) τ hlkτ
      have hev : WhileInterpreter.evaluateExpression τ.vars
          (.num P.length) = P.length := rfl
      rw [hev] at hstep1
      refine ⟨{ τ with vars := setVar τ.vars pcName P.length }, ?_,
        loopSimRel_set_introducible used pcName ⟨jf, hjf, hpcnotused⟩
          _ _ P.length hR⟩
      rw [WhileInterpreter.runWhileLoop]
      simp only [hct, if_true]
      rw [hdis, hst, GotoToWhileTranslator.instructionBody,
        executeStatements_singleton, hstep1, except_bind_ok]
      apply runWhileLoop_exit
      simp [WhileInterpreter.evaluateCondition,
        WhileInterpreter.evaluateExpression,
        WhileInterpreter.getVariableValue, lookupKey_setVar_self, bne]

end LangIT

namespace LangIT

theorem gotoStatementVars_subset :
    ∀ (l : List GotoInterpreter.Instruction), ∀ instr ∈ l,
      ∀ x ∈ gotoStatementVars instr.statement, x ∈ gotoInstructionsVars l
  | [] => by
    intro instr h
    simp at h
  | i :: rest => by
    intro instr him x hx
    rw [gotoInstructionsVars, List.mem_append]
    rcases List.mem_cons.1 him with h | h
    · subst h
      exact .inl hx
    · exact .inr (gotoStatementVars_subset rest instr h x hx)

/-- GOTO-to-WHILE translation correctness: when no allocator-introducible
name is pinned by the initial mapping, a successful GOTO evaluation is
reproduced by evaluating the translated WHILE program, and the resulting
mapping agrees with the GOTO result on every name the translator could not
have introduced (the simulated `pc` being the one new name). -/
theorem gotoToWhile_evaluate_correct (program : GotoInterpreter.Program)
    (options : Option EvalArg) (result : VarMap)
    (hlock : ∀ x, (initialStateOf options).lockedVariables.contains x = true
      → ¬ introducible (gotoInstructionsVars program.instructions) x)
    (h : GotoInterpreter.evaluate program options = .ok result) :
    ∃ result', WhileInterpreter.evaluate
        (GotoToWhileTranslator.translate program) options = .ok result' ∧
      ∀ x, ¬ introducible (gotoInstructionsVars program.instructions) x →
        lookupKey result' x = lookupKey result x := by
  rw [goto_evaluate_eq] at h
  cases hbm : GotoInterpreter.buildLabelMap program.instructions 0 [] with
  | error msg =>
    rw [hbm, except_bind_error'] at h
    exact Except.noConfusion h
  | ok lmI =>
    rw [hbm, except_bind_ok'] at h
    cases hruncase : GotoInterpreter.runFrom program.instructions lmI
        (SAFETY_LIMIT + 1) 0 (initialStateOf options) with
    | error msg =>
      rw [hruncase, except_bind_error'] at h
      exact Except.noConfusion h
    | ok σ' =>
      rw [hruncase, except_bind_ok'] at h
      injection h with hres
      obtain ⟨j0, _, hfn, hj0used⟩ :=
        freshName_spec (gotoInstructionsVars program.instructions) 0
      have hpcfresh : introducible (gotoInstructionsVars
          program.instructions)
          ((freshName (gotoInstructionsVars program.instructions) 0).1) := by
        rw [hfn]
        exact ⟨j0, rfl, hj0used⟩
      have hrel0 : LoopSimRel (gotoInstructionsVars program.instructions)
          (initialStateOf options) (initialStateOf options) :=
        ⟨rfl, fun x hx => hlock x (by simpa using hx), fun x _ => rfl⟩
      have hlk0 : (initialStateOf options).lockedVariables.contains
          ((freshName (gotoInstructionsVars program.instructions) 0).1) =
          false := by
        cases hcc : (initialStateOf options).lockedVariables.contains
            ((freshName (gotoInstructionsVars program.instructions) 0).1)
          with
        | false => rfl
        | true =>
          exfalso
          exact hlock _ hcc hpcfresh
      have hstep0 := executeStatement_assign_unlocked
        ((freshName (gotoInstructionsVars program.instructions) 0).1)
        (.num 0) (initialStateOf options) hlk0
      rw [show WhileInterpreter.evaluateExpression
        (initialStateOf options).vars (Expression.num 0) = 0 from rfl]
        at hstep0
      have hrel1 : LoopSimRel (gotoInstructionsVars program.instructions)
          (initialStateOf options)
          { initialStateOf options with
            vars := setVar (initialStateOf options).vars
              ((freshName (gotoInstructionsVars program.instructions) 0).1)
              0 } :=
        loopSimRel_set_introducible _ _ hpcfresh _ _ 0 hrel0
      obtain ⟨τ', hτ', hRel'⟩ := goto_sim_run program.instructions lmI
        (gotoInstructionsVars program.instructions)
        ((freshName (gotoInstructionsVars program.instructions) 0).1)
        hpcfresh (gotoStatementVars_subset program.instructions) hbm
        (SAFETY_LIMIT + 1) 0 (initialStateOf options) σ'
        { initialStateOf options with
          vars := setVar (initialStateOf options).vars
            ((freshName (gotoInstructionsVars program.instructions) 0).1)
            0 }
        (Nat.zero_le _) hruncase hrel1 (lookupKey_setVar_self _ _ _)
      refine ⟨τ'.vars, ?_, ?_⟩
      · rw [while_evaluate_eq]
        rw [show (GotoToWhileTranslator.translate program).statements =
          [WhileInterpreter.Statement.assignment
            ((freshName (gotoInstructionsVars program.instructions) 0).1)
            (.num 0),
           WhileInterpreter.Statement.whileStmt
            ⟨.ne, .var ((freshName (gotoInstructionsVars
              program.instructions) 0).1),
              .num program.instructions.length⟩
            (GotoToWhileTranslator.dispatch
              ((freshName (gotoInstructionsVars program.instructions) 0).1)
              (GotoToWhileTranslator.collectLabels program.instructions 0 [])
              program.instructions.length program.instructions 0)]
          from rfl]
        have hτ2 := hτ'
        simp only [] at hτ2
        rw [WhileInterpreter.executeStatements, hstep0, except_bind_ok,
          executeStatements_singleton, WhileInterpreter.executeStatement,
          hτ2, except_bind_ok']
      · intro x hx
        rw [← hres]
        exact hRel'.2.2 x hx


/-- The safety limit is not zero (evaluation form used by `simp`). -/
theorem safety_limit_pos : (SAFETY_LIMIT = 0) = False := by
  simp [SAFETY_LIMIT]

/-- A small loop counter never exceeds the safety limit (evaluation form
used by `simp`). -/
theorem safety_counter_small (k : Nat) (h : k ≤ 1000) :
    (k > SAFETY_LIMIT) = False := by
  simp only [SAFETY_LIMIT, eq_iff_iff, iff_false]
  omega

/-- Executing a statement list whose head succeeds continues with the
tail from the head's result state. -/
theorem executeStatements_cons_ok (a : WhileInterpreter.Statement)
    (rest : List WhileInterpreter.Statement) (s s' : InterpState)
    (h : WhileInterpreter.executeStatement a s = .ok s') :
    WhileInterpreter.executeStatements (a :: rest) s =
      WhileInterpreter.executeStatements rest s' := by
  rw [WhileInterpreter.executeStatements, h, except_bind_ok]

/-- One successful iteration of the guarded WHILE loop: a true condition
and a successful body run consume one unit of fuel. -/
theorem runWhileLoop_step (c : Condition)
    (b : List WhileInterpreter.Statement) (fuel : Nat) (s s' : InterpState)
    (hc : WhileInterpreter.evaluateCondition s.vars c = true)
    (hb : WhileInterpreter.executeStatements b s = .ok s') :
    WhileInterpreter.runWhileLoop c b (fuel + 1) s =
      WhileInterpreter.runWhileLoop c b fuel s' := by
  rw [WhileInterpreter.runWhileLoop, if_pos hc, hb, except_bind_ok]

/-- Direct LOOP evaluation of the pipeline test program: 6 times 2
additions leave x2 = 12. -/
theorem pipeline_loop_eval : LoopInterpreter.evaluate pipelineTestProgram
    none = .ok [("x0", 6), ("x1", 2), ("x2", 12)] := by
  simp [LoopInterpreter.evaluate, LoopInterpreter.executeStatements,
    LoopInterpreter.executeStatement, LoopInterpreter.runLoopBody,
    initialStateOf, decodeEvalArg, loadInitialVariables, addLock, setVar,
    lookupKey, WhileInterpreter.evaluateExpression,
    WhileInterpreter.getVariableValue, safety_counter_small, safety_limit_pos,
    pipelineTestProgram,
    except_bind_ok, except_bind_error, except_bind_ok', except_bind_error']

/-- Direct LOOP evaluation of `pinnedFreshProgram` under the initial
mapping z = 1: the loop body runs twice, so x1 = 2. -/
theorem pinnedFresh_loop_eval : LoopInterpreter.evaluate pinnedFreshProgram
    (some (.map [("z", 1)])) = .ok [("z", 1), ("x0", 2), ("x1", 2)] := by
  simp [LoopInterpreter.evaluate, LoopInterpreter.executeStatements,
    LoopInterpreter.executeStatement, LoopInterpreter.runLoopBody,
    initialStateOf, decodeEvalArg, loadInitialVariables, addLock, setVar,
    lookupKey, WhileInterpreter.evaluateExpression,
    WhileInterpreter.getVariableValue, safety_counter_small, safety_limit_pos,
    pinnedFreshProgram,
    except_bind_ok, except_bind_error, except_bind_ok', except_bind_error']

/-- WHILE evaluation of the translated `pinnedFreshProgram` under the same
initial mapping z = 1: the translator reuses the pinned name "z" as its
loop counter, the initial write z := x0 only clears the lock on z, and the
loop body runs once, so x1 = 1. -/
theorem pinnedFresh_while_eval : WhileInterpreter.evaluate
    (LoopToWhileTranslator.translate pinnedFreshProgram)
    (some (.map [("z", 1)])) = .ok [("z", 0), ("x0", 2), ("x1", 1)] := by
  rw [show LoopToWhileTranslator.translate pinnedFreshProgram =
    WhileInterpreter.Program.mk
      [.assignment "x0" (.num 2), .assignment "x1" (.num 0),
       .assignment "z" (.var "x0"),
       .whileStmt ⟨.ne, .var "z", .num 0⟩
         [.assignment "x1" (.binaryOp .add (.var "x1") (.num 1)),
          .assignment "z" (.binaryOp .sub (.var "z") (.num 1))]] from by
    simp [LoopToWhileTranslator.translate,
      LoopToWhileTranslator.translateStatements,
      pinnedFreshProgram, loopStatementsVars, loopStatementVars,
      expressionVars, freshName, freshNameAux, freshCandidate,
      List.replicate]]
  rw [while_evaluate_eq]
  rw [show initialStateOf (some (.map [("z", 1)])) =
    (⟨[("z", 1)], ["z"]⟩ : InterpState) from rfl]
  have h1 : WhileInterpreter.executeStatement
      (.assignment "x0" (.num 2)) ⟨[("z", 1)], ["z"]⟩ =
      .ok ⟨[("z", 1), ("x0", 2)], ["z"]⟩ := by
    rw [executeStatement_assign_unlocked "x0" (.num 2)
      ⟨[("z", 1)], ["z"]⟩ rfl]
    rfl
  have h2 : WhileInterpreter.executeStatement
      (.assignment "x1" (.num 0)) ⟨[("z", 1), ("x0", 2)], ["z"]⟩ =
      .ok ⟨[("z", 1), ("x0", 2), ("x1", 0)], ["z"]⟩ := by
    rw [executeStatement_assign_unlocked "x1" (.num 0)
      ⟨[("z", 1), ("x0", 2)], ["z"]⟩ rfl]
    rfl
  have h3 : WhileInterpreter.executeStatement
      (.assignment "z" (.var "x0"))
      ⟨[("z", 1), ("x0", 2), ("x1", 0)], ["z"]⟩ =
      .ok ⟨[("z", 1), ("x0", 2), ("x1", 0)], []⟩ := by
    rw [executeStatement_assign_locked "z" (.var "x0")
      ⟨[("z", 1), ("x0", 2), ("x1", 0)], ["z"]⟩ rfl]
    rfl
  have ha : WhileInterpreter.executeStatement
      (.assignment "x1" (.binaryOp .add (.var "x1") (.num 1)))
      ⟨[("z", 1), ("x0", 2), ("x1", 0)], []⟩ =
      .ok ⟨[("z", 1), ("x0", 2), ("x1", 1)], []⟩ := by
    rw [executeStatement_assign_unlocked "x1"
      (.binaryOp .add (.var "x1") (.num 1))
      ⟨[("z", 1), ("x0", 2), ("x1", 0)], []⟩ rfl]
    rfl
  have hb : WhileInterpreter.executeStatement
      (.assignment "z" (.binaryOp .sub (.var "z") (.num 1)))
      ⟨[("z", 1), ("x0", 2), ("x1", 1)], []⟩ =
      .ok ⟨[("z", 0), ("x0", 2), ("x1", 1)], []⟩ := by
    rw [executeStatement_assign_unlocked "z"
      (.binaryOp .sub (.var "z") (.num 1))
      ⟨[("z", 1), ("x0", 2), ("x1", 1)], []⟩ rfl]
    rfl
  have h4 : WhileInterpreter.executeStatement
      (.whileStmt ⟨.ne, .var "z", .num 0⟩
        [.assignment "x1" (.binaryOp .add (.var "x1") (.num 1)),
         .assignment "z" (.binaryOp .sub (.var "z") (.num 1))])
      ⟨[("z", 1), ("x0", 2), ("x1", 0)], []⟩ =
      .ok ⟨[("z", 0), ("x0", 2), ("x1", 1)], []⟩ := by
    rw [WhileInterpreter.executeStatement]
    rw [runWhileLoop_step ⟨.ne, .var "z", .num 0⟩ _ SAFETY_LIMIT
      ⟨[("z", 1), ("x0", 2), ("x1", 0)], []⟩
      ⟨[("z", 0), ("x0", 2), ("x1", 1)], []⟩ rfl
      (by rw [executeStatements_pair, ha, except_bind_ok, hb])]
    exact runWhileLoop_exit _ _ _ _ rfl
  rw [executeStatements_cons_ok _ _ _ _ h1,
    executeStatements_cons_ok _ _ _ _ h2,
    executeStatements_cons_ok _ _ _ _ h3,
    executeStatements_cons_ok _ _ _ _ h4,
    WhileInterpreter.executeStatements, except_bind_ok']

/-- Claim C1: each translator preserves evaluation results.  Provided the
initial mapping pins no name the fresh-name allocator could introduce,
LOOP-to-WHILE and GOTO-to-WHILE evaluation agree with the source program on
every variable the translator could not have introduced; WHILE-to-GOTO
evaluation returns exactly the source mapping unless the GOTO step safety
limit aborts it; and transitively a LOOP program evaluated directly agrees
with its LOOP-to-WHILE-to-GOTO translation evaluated by the GOTO evaluator
on all non-introducible variables, or the step limit aborts. -/
theorem C1_translator_equivalence :
    (∀ (program : LoopInterpreter.Program) (options : Option EvalArg)
        (result : VarMap),
      (∀ x, (initialStateOf options).lockedVariables.contains x = true →
        ¬ introducible (loopStatementsVars program.statements) x) →
      LoopInterpreter.evaluate program options = .ok result →
      ∃ result', WhileInterpreter.evaluate
          (LoopToWhileTranslator.translate program) options = .ok result' ∧
        ∀ x, ¬ introducible (loopStatementsVars program.statements) x →
          lookupKey result' x = lookupKey result x) ∧
    (∀ (program : WhileInterpreter.Program) (options : Option EvalArg)
        (result : VarMap),
      WhileInterpreter.evaluate program options = .ok result →
      GotoInterpreter.evaluate (WhileToGotoTranslator.translate program)
          options = .ok result ∨
        GotoInterpreter.evaluate (WhileToGotoTranslator.translate program)
          options = .error GotoInterpreter.stepLimitMessage) ∧
    (∀ (program : GotoInterpreter.Program) (options : Option EvalArg)
        (result : VarMap),
      (∀ x, (initialStateOf options).lockedVariables.contains x = true →
        ¬ introducible (gotoInstructionsVars program.instructions) x) →
      GotoInterpreter.evaluate program options = .ok result →
      ∃ result', WhileInterpreter.evaluate
          (GotoToWhileTranslator.translate program) options = .ok result' ∧
        ∀ x, ¬ introducible (gotoInstructionsVars program.instructions) x →
          lookupKey result' x = lookupKey result x) ∧
    (∀ (program : LoopInterpreter.Program) (options : Option EvalArg)
        (result : VarMap),
      (∀ x, (initialStateOf options).lockedVariables.contains x = true →
        ¬ introducible (loopStatementsVars program.statements) x) →
      LoopInterpreter.evaluate program options = .ok result →
      (∃ result', GotoInterpreter.evaluate
          (WhileToGotoTranslator.translate
            (LoopToWhileTranslator.translate program)) options =
          .ok result' ∧
        ∀ x, ¬ introducible (loopStatementsVars program.statements) x →
          lookupKey result' x = lookupKey result x) ∨
        GotoInterpreter.evaluate
          (WhileToGotoTranslator.translate
            (LoopToWhileTranslator.translate program)) options =
          .error GotoInterpreter.stepLimitMessage) := by
  refine ⟨loopToWhile_evaluate_correct, whileToGoto_evaluate_correct,
    gotoToWhile_evaluate_correct, ?_⟩
  intro program options result hlock h
  obtain ⟨r', hW, hagree⟩ :=
    loopToWhile_evaluate_correct program options result hlock h
  rcases whileToGoto_evaluate_correct
      (LoopToWhileTranslator.translate program) options r' hW with hG | hG
  · exact Or.inl ⟨r', hG, hagree⟩
  · exact Or.inr hG

/-- Counterexample to claim C1 as stated: under the initial mapping z = 1,
the LOOP program `pinnedFreshProgram` evaluates x1 to 2, but its
LOOP-to-WHILE translation evaluates x1 to 1, because the translator picks
the already-pinned name "z" as loop counter and the write-once lock turns
the counter initialisation into a lock release. -/
theorem C1_counterexample_pinned_fresh_name :
    LoopInterpreter.evaluate pinnedFreshProgram (some (.map [("z", 1)])) =
      .ok [("z", 1), ("x0", 2), ("x1", 2)] ∧
    WhileInterpreter.evaluate
      (LoopToWhileTranslator.translate pinnedFreshProgram)
      (some (.map [("z", 1)])) = .ok [("z", 0), ("x0", 2), ("x1", 1)] ∧
    lookupKey [("z", 1), ("x0", 2), ("x1", 2)] "x1" ≠
      lookupKey [("z", 0), ("x0", 2), ("x1", 1)] "x1" :=
  ⟨pinnedFresh_loop_eval, pinnedFresh_while_eval, by decide⟩

/-- Witness for `C1_translator_equivalence`: the transitive part applied to
the cited pipeline test program (x2 = 6 times 2) with no initial mapping. -/
theorem C1_translator_equivalence_witness :
    (∃ result', GotoInterpreter.evaluate
        (WhileToGotoTranslator.translate
          (LoopToWhileTranslator.translate pipelineTestProgram)) none =
        .ok result' ∧
      ∀ x, ¬ introducible
          (loopStatementsVars pipelineTestProgram.statements) x →
        lookupKey result' x =
          lookupKey [("x0", 6), ("x1", 2), ("x2", 12)] x) ∨
    GotoInterpreter.evaluate
        (WhileToGotoTranslator.translate
          (LoopToWhileTranslator.translate pipelineTestProgram)) none =
      .error GotoInterpreter.stepLimitMessage :=
  C1_translator_equivalence.2.2.2 pipelineTestProgram none
    [("x0", 6), ("x1", 2), ("x2", 12)] (fun _ hx => nomatch hx)
    pipeline_loop_eval

end LangIT
